import Mathlib

/-!
# Universal File Metadata Extractor: the binary sniffer of `scripts/main.js`

A shallow embedding of the parsing core of the class `UniversalMetadataExtractor`
(`detectFileSignature`, the per-format parsers, `parseFileMetadata`, the experimental
prompt extractor) together with the fragments of the JavaScript runtime they rely on
(`DataView` reads, typed-array construction, `TextDecoder`, `JSON.parse`, property
order of ordinary objects).

Conventions.
* A buffer is a list of bytes; a JavaScript string is the list of its UTF-16 code units.
* A JavaScript exception is an `Except.error`; `try { .. } catch` is an explicit match.
* Every `while`/`for` loop of the source is a structurally recursive function on a fuel
  argument; running out of fuel is the dedicated error `JSError.outOfFuel`.
-/

set_option autoImplicit false

namespace UME

/-! ## Runtime values -/

abbrev Byte := Fin 256

abbrev Buffer := List Byte

/-- A JavaScript string: its UTF-16 code units. -/
abbrev JSString := List Nat

/-- The code units of a (source) string literal; characters outside the BMP become a
surrogate pair. -/
def str (s : String) : JSString :=
  s.toList.flatMap fun c =>
    if c.toNat < 0x10000 then [c.toNat]
    else [0xD800 + (c.toNat - 0x10000) / 0x400, 0xDC00 + (c.toNat - 0x10000) % 0x400]

inductive JSError where
  | rangeError
  | typeError
  | syntaxError
  | outOfFuel
  deriving DecidableEq, Repr

/-- An ordinary object with string keys, listed in property enumeration order. -/
abbrev JSObj (α : Type) := List (JSString × α)

def isDigit (c : Nat) : Bool := 48 ≤ c && c ≤ 57

def decimalValue (s : JSString) : Nat :=
  s.foldl (fun acc c => acc * 10 + (c - 48)) 0

/-- The array index denoted by a property key: a canonical decimal numeral
(no leading zero) of value at most `2^32 - 2`. -/
def arrayIndex? (k : JSString) : Option Nat :=
  match k with
  | [] => none
  | c :: rest =>
    if k.all isDigit && (c != 48 || rest.isEmpty) && decimalValue k < 4294967295 then
      some (decimalValue k)
    else none

/-- Position of a new array-index key `i`: before the first key that is not an array
index or is a larger one. -/
def insertIndexKey {α : Type} (i : Nat) (k : JSString) (v : α) : JSObj α → JSObj α
  | [] => [(k, v)]
  | (k', v') :: rest =>
    match arrayIndex? k' with
    | some j => if j < i then (k', v') :: insertIndexKey i k v rest else (k, v) :: (k', v') :: rest
    | none => (k, v) :: (k', v') :: rest

def replaceValue {α : Type} (k : JSString) (v : α) : JSObj α → JSObj α
  | [] => []
  | (k', v') :: rest => if k' = k then (k', v) :: rest else (k', v') :: replaceValue k v rest

def hasKey {α : Type} (o : JSObj α) (k : JSString) : Bool := o.any fun e => e.1 == k

/-- Own property lookup. -/
def getProp {α : Type} (o : JSObj α) (k : JSString) : Option α :=
  (o.find? fun e => e.1 == k).map Prod.snd

/-- Creation or update of an own data property (`CreateDataProperty`): an existing key
keeps its place, a new array index goes among the indices in ascending order, any other
new key goes last. -/
def defineProp {α : Type} (o : JSObj α) (k : JSString) (v : α) : JSObj α :=
  if hasKey o k then replaceValue k v o
  else match arrayIndex? k with
    | some i => insertIndexKey i k v o
    | none => o ++ [(k, v)]

/-- The assignment `o[k] = v` on an object created by `{}` with a primitive `v`: the key
`__proto__` reaches the setter inherited from `Object.prototype`, which ignores a value
that is neither an object nor null, so no own property is created. -/
def setProp {α : Type} (o : JSObj α) (k : JSString) (v : α) : JSObj α :=
  if k = str "__proto__" then o else defineProp o k v

/-- An object literal `{k1: v1, ...}`. -/
def objectLiteral {α : Type} (props : List (JSString × α)) : JSObj α :=
  props.foldl (fun o e => defineProp o e.1 e.2) []

/-! ## DataView -/

def byteAt (buf : Buffer) (i : Nat) : Nat := (buf.getD i 0).val

def getUint8 (buf : Buffer) (i : Nat) : Except JSError Nat :=
  if i + 1 ≤ buf.length then .ok (byteAt buf i) else .error .rangeError

/-- Big-endian 16-bit value at `i`, bytes beyond the end read as zero; the checked read
is `getUint16`. -/
def u16At (buf : Buffer) (i : Nat) : Nat := byteAt buf i * 256 + byteAt buf (i + 1)

def u16LEAt (buf : Buffer) (i : Nat) : Nat := byteAt buf i + byteAt buf (i + 1) * 256

def u32At (buf : Buffer) (i : Nat) : Nat :=
  byteAt buf i * 16777216 + byteAt buf (i + 1) * 65536 + byteAt buf (i + 2) * 256
    + byteAt buf (i + 3)

def u32LEAt (buf : Buffer) (i : Nat) : Nat :=
  byteAt buf i + byteAt buf (i + 1) * 256 + byteAt buf (i + 2) * 65536
    + byteAt buf (i + 3) * 16777216

/-- Source `view.getUint16(i)`: a RangeError when the two bytes are not inside the buffer. -/
def getUint16 (buf : Buffer) (i : Nat) : Except JSError Nat :=
  if i + 2 ≤ buf.length then .ok (u16At buf i) else .error .rangeError

def getUint16LE (buf : Buffer) (i : Nat) : Except JSError Nat :=
  if i + 2 ≤ buf.length then .ok (u16LEAt buf i) else .error .rangeError

def getUint32 (buf : Buffer) (i : Nat) : Except JSError Nat :=
  if i + 4 ≤ buf.length then .ok (u32At buf i) else .error .rangeError

def getUint32LE (buf : Buffer) (i : Nat) : Except JSError Nat :=
  if i + 4 ≤ buf.length then .ok (u32LEAt buf i) else .error .rangeError

/-- The bytes of `new Uint8Array(view.buffer, byteOffset, length)`; `length` may be
negative in the source (`length - 2`). -/
def uint8Array (buf : Buffer) (byteOffset : Nat) (length : Int) : Except JSError (List Byte) :=
  if length < 0 then .error .rangeError
  else if byteOffset + length.toNat ≤ buf.length then .ok ((buf.drop byteOffset).take length.toNat)
  else .error .rangeError

/-- Source `getString(view, offset, length)`: one code unit per byte, silently cut at the end of the buffer. -/
def getString (buf : Buffer) (offset length : Nat) : JSString :=
  ((buf.drop offset).take length).map Fin.val

/-- Decimal digits of `Number.prototype.toString` on a non-negative integer below `2^53`. -/
def decimal (n : Nat) : JSString := (Nat.toDigits 10 n).map Char.toNat

/-! ## detectFileSignature -/

def signatureLiteral : List (String × String) :=
  [("89504E47", "PNG Image"),
   ("FFD8FF", "JPEG Image"),
   ("47494638", "GIF Image"),
   ("424D", "BMP Image"),
   ("49492A00", "TIFF Image (Little Endian)"),
   ("4D4D002A", "TIFF Image (Big Endian)"),
   ("52494646", "RIFF (WAV/AVI/WebP)"),
   ("504B0304", "ZIP Archive"),
   ("504B0506", "ZIP Archive (empty)"),
   ("504B0708", "ZIP Archive (spanned)"),
   ("52617221", "RAR Archive"),
   ("377ABCAF", "7-Zip Archive"),
   ("25504446", "PDF Document"),
   ("4F676753", "OGG Media"),
   ("494433", "MP3 with ID3"),
   ("FFFB", "MP3 Audio"),
   ("664C6143", "FLAC Audio"),
   ("00000018", "MP4 Video"),
   ("00000020", "MP4 Video"),
   ("1A45DFA3", "MKV Video"),
   ("3C3F786D", "XML Document"),
   ("7B", "JSON (possible)"),
   ("5B", "JSON Array (possible)"),
   ("CAFEBABE", "Java Class"),
   ("4D5A", "Windows Executable"),
   ("7F454C46", "Linux Executable (ELF)"),
   ("D0CF11E0", "Microsoft Office (OLE)")]

/-- Source `Object.entries(signatures)`: the literal in property enumeration order. -/
def signatures : JSObj JSString :=
  objectLiteral (signatureLiteral.map fun e => (str e.1, str e.2))

/-- Source `sig.match(/.{1,2}/g)`: consecutive groups of two code units, the last one possibly
single (no key holds a line terminator). -/
def hexPairs : JSString → List JSString
  | [] => []
  | [a] => [[a]]
  | a :: b :: rest => [a, b] :: hexPairs rest

def hexDigit? (c : Nat) : Option Nat :=
  if 48 ≤ c && c ≤ 57 then some (c - 48)
  else if 65 ≤ c && c ≤ 70 then some (c - 55)
  else if 97 ≤ c && c ≤ 102 then some (c - 87)
  else none

/-- Source `parseInt(byte, 16)` on one group of a table key, which holds hexadecimal digits
only (no sign, blank or `0x` prefix): the value of the longest prefix of hex digits,
`none` for NaN. -/
def parseInt16 (s : JSString) : Option Nat :=
  match s with
  | [] => none
  | [a] => hexDigit? a
  | a :: b :: _ =>
    match hexDigit? a, hexDigit? b with
    | some x, some y => some (x * 16 + y)
    | some x, none => some x
    | none, _ => none

def sigBytes (sig : JSString) : List (Option Nat) := (hexPairs sig).map parseInt16

/-- The inner `for` loop of `detectFileSignature` from index `i` on: stops at the end of
the pattern or of the buffer, fails at the first differing byte. -/
def sigMatchFrom (buf : Buffer) : List (Option Nat) → Nat → Bool
  | [], _ => true
  | s :: rest, i =>
    if i < buf.length then
      if some (byteAt buf i) ≠ s then false else sigMatchFrom buf rest (i + 1)
    else true

def detectFileSignature (buf : Buffer) : Option JSString :=
  if buf.length < 4 then none
  else (signatures.find? fun e => sigMatchFrom buf (sigBytes e.1) 0).map Prod.snd

/-! ## Strings -/

/-- Source `s.indexOf(c)` for a one-unit string `c` (`none` for `-1`). -/
def indexOfUnit (c : Nat) : JSString → Option Nat
  | [] => none
  | x :: rest => if x = c then some 0 else (indexOfUnit c rest).map (· + 1)

/-- Source `s.split(c)` for a one-unit separator `c`. -/
def splitOnUnit (c : Nat) : JSString → List JSString
  | [] => [[]]
  | x :: rest =>
    if x = c then [] :: splitOnUnit c rest
    else match splitOnUnit c rest with
      | [] => [[x]]
      | p :: ps => (x :: p) :: ps

/-- Source `s.includes(sub)`. -/
def includes (s sub : JSString) : Bool := s.tails.any fun t => sub.isPrefixOf t

def startsWith (s pre : JSString) : Bool := pre.isPrefixOf s

/-- The code units removed by `String.prototype.trim`: WhiteSpace and LineTerminator. -/
def isTrimUnit (c : Nat) : Bool :=
  c == 9 || c == 10 || c == 11 || c == 12 || c == 13 || c == 32 || c == 0xA0 || c == 0x1680
    || (0x2000 ≤ c && c ≤ 0x200A) || c == 0x2028 || c == 0x2029 || c == 0x202F
    || c == 0x205F || c == 0x3000 || c == 0xFEFF

def trim (s : JSString) : JSString :=
  ((s.dropWhile isTrimUnit).reverse.dropWhile isTrimUnit).reverse

/-- Source `parts.join(sep)` on strings. -/
def joinWith (sep : JSString) : List JSString → JSString
  | [] => []
  | [p] => p
  | p :: q :: rest => p ++ sep ++ joinWith sep (q :: rest)

/-! ## TextDecoder('utf-8'), non-fatal -/

structure Utf8State where
  codePoint : Nat
  remaining : Nat
  lower : Nat
  upper : Nat
  deriving DecidableEq, Repr

def utf8Init : Utf8State := ⟨0, 0, 0x80, 0xBF⟩

/-- A byte met while no sequence is open. -/
def utf8Lead (b : Nat) : Utf8State × List Nat :=
  if b ≤ 0x7F then (utf8Init, [b])
  else if 0xC2 ≤ b ∧ b ≤ 0xDF then (⟨b % 0x20, 1, 0x80, 0xBF⟩, [])
  else if 0xE0 ≤ b ∧ b ≤ 0xEF then
    (⟨b % 0x10, 2, if b = 0xE0 then 0xA0 else 0x80, if b = 0xED then 0x9F else 0xBF⟩, [])
  else if 0xF0 ≤ b ∧ b ≤ 0xF4 then
    (⟨b % 0x08, 3, if b = 0xF0 then 0x90 else 0x80, if b = 0xF4 then 0x8F else 0xBF⟩, [])
  else (utf8Init, [0xFFFD])

/-- One byte of the decoder: a byte outside the expected continuation range closes the
open sequence with U+FFFD and is then read again as a lead byte. -/
def utf8Step (st : Utf8State) (b : Nat) : Utf8State × List Nat :=
  if st.remaining = 0 then utf8Lead b
  else if b < st.lower ∨ st.upper < b then ((utf8Lead b).1, 0xFFFD :: (utf8Lead b).2)
  else if st.remaining = 1 then (utf8Init, [st.codePoint * 64 + b % 64])
  else (⟨st.codePoint * 64 + b % 64, st.remaining - 1, 0x80, 0xBF⟩, [])

/-- Code points decoded from the bytes, U+FFFD for an unfinished sequence at the end. -/
def utf8Run : Utf8State → List Byte → List Nat
  | st, [] => if st.remaining = 0 then [] else [0xFFFD]
  | st, b :: rest => (utf8Step st b.val).2 ++ utf8Run (utf8Step st b.val).1 rest

def toUtf16 (cps : List Nat) : JSString :=
  cps.flatMap fun c =>
    if c < 0x10000 then [c]
    else [0xD800 + (c - 0x10000) / 0x400, 0xDC00 + (c - 0x10000) % 0x400]

/-- Decoding without the byte-order-mark rule. -/
def utf8Body (bytes : List Byte) : JSString := toUtf16 (utf8Run utf8Init bytes)

/-- Source `new TextDecoder('utf-8').decode(bytes)`: a leading byte order mark is dropped (the
option object `{ ignoreBOMString: true }` of the JPEG parser names no known option). -/
def textDecode (bytes : List Byte) : JSString :=
  match utf8Run utf8Init bytes with
  | 0xFEFF :: cps => toUtf16 cps
  | cps => toUtf16 cps

/-! ## JSON.parse -/

/-- A value built by `JSON.parse`. A number keeps the exact value of its literal,
`(-1)^negative * mantissa * 10^exponent`; the two tests the program makes on a number
are stated on that value for the nearest double (ties to even). -/
inductive JSValue where
  | null
  | bool (b : Bool)
  | num (negative : Bool) (mantissa : Nat) (exponent : Int)
  | str (s : JSString)
  | arr (items : List JSValue)
  | obj (props : List (JSString × JSValue))

def isJsonSpace (c : Nat) : Bool := c == 32 || c == 9 || c == 10 || c == 13

def skipWs : JSString → JSString
  | [] => []
  | c :: rest => if isJsonSpace c then skipWs rest else c :: rest

def hex4? (a b c d : Nat) : Option Nat :=
  match hexDigit? a, hexDigit? b, hexDigit? c, hexDigit? d with
  | some w, some x, some y, some z => some (w * 4096 + x * 256 + y * 16 + z)
  | _, _, _, _ => none

/-- The characters of a JSON string after its opening quote, up to the closing one. -/
def parseStringBody : JSString → JSString → Except JSError (JSString × JSString)
  | [], _ => .error .syntaxError
  | 34 :: rest, acc => .ok (acc.reverse, rest)
  | 92 :: 117 :: a :: b :: c :: d :: rest, acc =>
    match hex4? a b c d with
    | some u => parseStringBody rest (u :: acc)
    | none => .error .syntaxError
  | 92 :: e :: rest, acc =>
    if e = 34 ∨ e = 92 ∨ e = 47 then parseStringBody rest (e :: acc)
    else if e = 98 then parseStringBody rest (8 :: acc)
    else if e = 102 then parseStringBody rest (12 :: acc)
    else if e = 110 then parseStringBody rest (10 :: acc)
    else if e = 114 then parseStringBody rest (13 :: acc)
    else if e = 116 then parseStringBody rest (9 :: acc)
    else .error .syntaxError
  | [92], _ => .error .syntaxError
  | c :: rest, acc => if c < 32 then .error .syntaxError else parseStringBody rest (c :: acc)

/-- An optional minus sign: whether it is there, and the text after it. -/
def stripMinus (s : JSString) : Bool × JSString :=
  match s with
  | 45 :: r => (true, r)
  | r => (false, r)

/-- An optional sign. -/
def stripSign (s : JSString) : Bool × JSString :=
  match s with
  | 45 :: r => (true, r)
  | 43 :: r => (false, r)
  | r => (false, r)

/-- The exponent part of a number, if any: its value and the text after it. -/
def parseExponent (s : JSString) : Except JSError (Int × JSString) :=
  match s with
  | e :: rest =>
    if e = 101 ∨ e = 69 then
      if ((stripSign rest).2.takeWhile isDigit).isEmpty then .error .syntaxError
      else
        .ok (if (stripSign rest).1 then - (decimalValue ((stripSign rest).2.takeWhile isDigit) : Int)
            else (decimalValue ((stripSign rest).2.takeWhile isDigit) : Int),
          (stripSign rest).2.dropWhile isDigit)
    else .ok (0, s)
  | [] => .ok (0, s)

/-- The integer digits of a JSON number: a single `0`, or digits not starting with `0`. -/
def intDigitsOf (s : JSString) : JSString :=
  match s with
  | 48 :: _ => [48]
  | _ => s.takeWhile isDigit

/-- A JSON number: `-? (0 | [1-9][0-9]*) (. [0-9]+)? ([eE] [+-]? [0-9]+)?`. -/
def parseNumber (s : JSString) : Except JSError (JSValue × JSString) :=
  if (intDigitsOf (stripMinus s).2).isEmpty then .error .syntaxError
  else
    match (stripMinus s).2.drop (intDigitsOf (stripMinus s).2).length with
    | 46 :: r =>
      if (r.takeWhile isDigit).isEmpty then .error .syntaxError
      else
        match parseExponent (r.dropWhile isDigit) with
        | .ok (e, rest) =>
          .ok (.num (stripMinus s).1
            (decimalValue (intDigitsOf (stripMinus s).2 ++ r.takeWhile isDigit))
            (e - (r.takeWhile isDigit).length), rest)
        | .error err => .error err
    | t =>
      match parseExponent t with
      | .ok (e, rest) =>
        .ok (.num (stripMinus s).1 (decimalValue (intDigitsOf (stripMinus s).2)) e, rest)
      | .error err => .error err

mutual
/-- One JSON value, leading blanks skipped; returns the text after it. -/
def parseValue : Nat → JSString → Except JSError (JSValue × JSString)
  | 0, _ => .error .outOfFuel
  | fuel + 1, s =>
    match skipWs s with
    | [] => .error .syntaxError
    | 34 :: rest =>
      match parseStringBody rest [] with
      | .ok (v, rest) => .ok (.str v, rest)
      | .error err => .error err
    | 123 :: rest =>
      match skipWs rest with
      | 125 :: rest => .ok (.obj [], rest)
      | rest => parseMembers fuel rest []
    | 91 :: rest =>
      match skipWs rest with
      | 93 :: rest => .ok (.arr [], rest)
      | rest => parseElements fuel rest []
    | 116 :: 114 :: 117 :: 101 :: rest => .ok (.bool true, rest)
    | 102 :: 97 :: 108 :: 115 :: 101 :: rest => .ok (.bool false, rest)
    | 110 :: 117 :: 108 :: 108 :: rest => .ok (.null, rest)
    | c :: rest => if c = 45 ∨ isDigit c then parseNumber (c :: rest) else .error .syntaxError
/-- The elements of a non-empty array, up to the closing bracket. -/
def parseElements : Nat → JSString → List JSValue → Except JSError (JSValue × JSString)
  | 0, _, _ => .error .outOfFuel
  | fuel + 1, s, acc =>
    match parseValue fuel s with
    | .error err => .error err
    | .ok (v, rest) =>
      match skipWs rest with
      | 44 :: rest => parseElements fuel rest (acc ++ [v])
      | 93 :: rest => .ok (.arr (acc ++ [v]), rest)
      | _ => .error .syntaxError
/-- The members of a non-empty object, up to the closing brace; a repeated key keeps
its first place and takes the last value. -/
def parseMembers : Nat → JSString → JSObj JSValue → Except JSError (JSValue × JSString)
  | 0, _, _ => .error .outOfFuel
  | fuel + 1, s, acc =>
    match skipWs s with
    | 34 :: rest =>
      match parseStringBody rest [] with
      | .error err => .error err
      | .ok (k, rest) =>
        match skipWs rest with
        | 58 :: rest =>
          match parseValue fuel rest with
          | .error err => .error err
          | .ok (v, rest) =>
            match skipWs rest with
            | 44 :: rest => parseMembers fuel rest (defineProp acc k v)
            | 125 :: rest => .ok (.obj (defineProp acc k v), rest)
            | _ => .error .syntaxError
        | _ => .error .syntaxError
    | _ => .error .syntaxError
end

/-- Source `JSON.parse(text)`: one value between optional blanks, else a SyntaxError. -/
def jsonParse (text : JSString) : Except JSError JSValue :=
  match parseValue (2 * text.length + 2) text with
  | .error err => .error err
  | .ok (v, rest) => if (skipWs rest).isEmpty then .ok v else .error .syntaxError

/-! ## The experimental prompt extractor -/

/-- ToBoolean of the number `mantissa * 10^exponent` read as a double: it is zero when it
does not exceed `2^-1075`, half of the least positive double. -/
def numIsZero (mantissa : Nat) (exponent : Int) : Bool :=
  mantissa == 0 || (exponent < 0 && mantissa * 2 ^ 1075 ≤ 10 ^ (-exponent).toNat)

/-- The test `n > 3` on the double nearest to the number: the value exceeds `3` by more than `2^-52`. -/
def numGt3 (negative : Bool) (mantissa : Nat) (exponent : Int) : Bool :=
  !negative &&
    (if exponent < 0 then
      (3 * 2 ^ 52 + 1) * 10 ^ (-exponent).toNat < mantissa * 2 ^ 52
    else 3 < mantissa * 10 ^ exponent.toNat)

def truthy : JSValue → Bool
  | .null => false
  | .bool b => b
  | .num _ m e => !numIsZero m e
  | .str s => !s.isEmpty
  | .arr _ => true
  | .obj _ => true

/-- The digits of a non-decimal integer literal (`0x..`, `0o..`, `0b..`) denote a value
above 3; a missing or foreign digit makes the literal NaN. -/
def radixGt3 (base : Nat) (digits : JSString) : Bool :=
  !digits.isEmpty
    && digits.all (fun c => match hexDigit? c with
      | some d => decide (d < base)
      | none => false)
    && 3 < digits.foldl (fun acc c => acc * base + (hexDigit? c).getD 0) 0

/-- The fraction of a `StrDecimalLiteral` after its integer digits: the digits after the
point and the text after them (`none` when there is no point). -/
def fractionOf (afterInt : JSString) : Option (JSString × JSString) :=
  match afterInt with
  | 46 :: r => some (r.takeWhile isDigit, r.dropWhile isDigit)
  | _ => none

/-- A decimal literal of `StringToNumber` without blanks around it denotes a number above 3:
an optional sign, then `Infinity` or digits with an optional fraction and exponent (digits
are needed before or after the point). -/
def decimalGt3 (t : JSString) : Bool :=
  let negative := (stripSign t).1
  let u := (stripSign t).2
  if u = str "Infinity" then !negative
  else
    let intDigits := u.takeWhile isDigit
    match fractionOf (u.dropWhile isDigit) with
    | some (fracDigits, afterFrac) =>
      if intDigits.isEmpty && fracDigits.isEmpty then false
      else
        match parseExponent afterFrac with
        | .ok (e, []) =>
          numGt3 negative (decimalValue (intDigits ++ fracDigits)) (e - fracDigits.length)
        | _ => false
    | none =>
      if intDigits.isEmpty then false
      else
        match parseExponent (u.dropWhile isDigit) with
        | .ok (e, []) => numGt3 negative (decimalValue intDigits) e
        | _ => false

/-- The test `ToNumber(s) > 3` on a string (`StringToNumber`): blanks around the literal are
dropped, the empty string is 0, anything that is no numeric literal is NaN. -/
def strNumGt3 (s : JSString) : Bool :=
  match trim s with
  | [] => false
  | 48 :: x :: rest =>
    if x = 120 ∨ x = 88 then radixGt3 16 rest
    else if x = 111 ∨ x = 79 then radixGt3 8 rest
    else if x = 98 ∨ x = 66 then radixGt3 2 rest
    else decimalGt3 (48 :: x :: rest)
  | t => decimalGt3 t

mutual
/-- ToString of the value throws a TypeError: a parsed object that has an own property
`toString` (never callable) has no way to a primitive; an array converts each element. -/
def throwsOnToString : JSValue → Bool
  | .arr items => anyThrowsOnToString items
  | .obj props => hasKey props (str "toString")
  | _ => false
/-- Some element of the array throws on ToString. -/
def anyThrowsOnToString : List JSValue → Bool
  | [] => false
  | x :: xs => throwsOnToString x || anyThrowsOnToString xs
end

mutual
/-- The test `ToNumber(ToString(x)) > 3` for an array element `x` whose conversion does not
throw: null gives the empty string, a number gives itself back, `true`, `false` and
`[object Object]` are NaN. -/
def elementGt3 : JSValue → Bool
  | .num negative m e => numGt3 negative m e
  | .str s => strNumGt3 s
  | .arr items => joinedGt3 items
  | _ => false
/-- The test `ToNumber(items.join(',')) > 3`: two or more elements give a string with a
comma, which is NaN. -/
def joinedGt3 : List JSValue → Bool
  | [] => false
  | [x] => elementGt3 x
  | _ :: _ :: _ => false
end

/-- The comparison `v > 3` on a parsed value, with the conversions of the language. -/
def gt3 : JSValue → Except JSError Bool
  | .null => .ok false
  | .bool _ => .ok false
  | .num negative m e => .ok (numGt3 negative m e)
  | .str s => .ok (strNumGt3 s)
  | .arr items => if anyThrowsOnToString items then .error .typeError else .ok (joinedGt3 items)
  | .obj props => if hasKey props (str "toString") then .error .typeError else .ok false

/-- Source `value && value.length > 3` (`none` is `undefined`). A string or an array has its
own length; a parsed object has a `length` only as an own property; any other value has
none and `undefined > 3` is false. -/
def longerThan3 : Option JSValue → Except JSError Bool
  | none => .ok false
  | some .null => .ok false
  | some (.bool _) => .ok false
  | some (.num _ _ _) => .ok false
  | some (.str s) => .ok (decide (3 < s.length))
  | some (.arr items) => .ok (decide (3 < items.length))
  | some (.obj props) =>
    match getProp props (str "length") with
    | none => .ok false
    | some v => gt3 v

/-- Source `classType.includes(name)`: substring search on a string, membership in an array, a
TypeError on any other truthy value (it has no callable `includes`). -/
def classTypeIncludes (classType : JSValue) (name : JSString) : Except JSError Bool :=
  match classType with
  | .str s => .ok (includes s name)
  | .arr items => .ok (items.any fun v => match v with
      | .str s => s == name
      | _ => false)
  | _ => .error .typeError

/-- Source `node.class_type`: an own property of a parsed object, `undefined` otherwise. -/
def classTypeOf : JSValue → Option JSValue
  | .obj props => getProp props (str "class_type")
  | _ => none

/-- Source `node.inputs?.text` (and `text1`). -/
def inputOf (node : JSValue) (field : JSString) : Option JSValue :=
  match node with
  | .obj props =>
    match getProp props (str "inputs") with
    | some (.obj inputs) => getProp inputs field
    | _ => none
  | _ => none

/-- Source `texts.forEach(..)` over `[inputs.text, inputs.text1]`: the results after it and the
exception that interrupted it, if one did. -/
def pushTexts (node : JSValue) (results : List JSValue) : List JSValue × Option JSError :=
  match longerThan3 (inputOf node (str "text")) with
  | .error err => (results, some err)
  | .ok first =>
    let results := if first then results ++ (inputOf node (str "text")).toList else results
    match longerThan3 (inputOf node (str "text1")) with
    | .error err => (results, some err)
    | .ok second =>
      (if second then results ++ (inputOf node (str "text1")).toList else results, none)

/-- The values `parsed[nodeId]` in the order of `for (const nodeId in parsed)`: the
properties of an object, the elements of an array, the one-unit strings of a string. -/
def forInValues : JSValue → List JSValue
  | .obj props => props.map Prod.snd
  | .arr items => items
  | .str s => s.map fun c => .str [c]
  | _ => []

/-- The body of the `for .. in` loop for one node, from the results so far. -/
def visitNode (node : JSValue) (results : List JSValue) : List JSValue × Option JSError :=
  if !truthy node then (results, none)
  else
    match classTypeOf node with
    | none => (results, none)
    | some classType =>
      if !truthy classType then (results, none)
      else
        match classTypeIncludes classType (str "CLIPTextEncode") with
        | .error err => (results, some err)
        | .ok true => pushTexts node results
        | .ok false =>
          match classTypeIncludes classType (str "TextBox") with
          | .error err => (results, some err)
          | .ok true => pushTexts node results
          | .ok false => (results, none)

/-- The `for .. in` loop inside the `try`: the results pushed so far together with the
exception that interrupted the loop, if one did. -/
def visitNodes : List JSValue → List JSValue → List JSValue × Option JSError
  | [], results => (results, none)
  | node :: rest, results =>
    match visitNode node results with
    | (results, some err) => (results, some err)
    | (results, none) => visitNodes rest results

/-- Source `extractTextsFromJSON(jsonString)` as called on `metadata.prompt`: a string or
`undefined` (`none`), which `JSON.parse` reads as the text `undefined`. Every exception
of the `try` block is caught and the results pushed before it are returned. -/
def extractTextsFromJSON (jsonString : Option JSString) : Except JSError (List JSValue) :=
  match jsonParse (jsonString.getD (str "undefined")) with
  | .error .outOfFuel => .error .outOfFuel
  | .error _ => .ok []
  | .ok parsed => .ok (visitNodes (forInValues parsed) []).1

def experimentalPromptLabel : JSString := str "[Exp] P.Text"

/-- The loop `for (let i = 0; i < extractedPrompts.length; i++)` of `buildNewMetadata`
from index `i` on. -/
def addPrompts : List JSValue → Nat → JSObj JSValue → JSObj JSValue
  | [], _, o => o
  | prompt :: rest, i, o =>
    addPrompts rest (i + 1) (setProp o (experimentalPromptLabel ++ str " - " ++ decimal (i + 1)) prompt)

/-- The loop `for (const key in metadata)` of `buildNewMetadata`. -/
def mergeOriginal (metadata : JSObj JSString) (o : JSObj JSValue) : JSObj JSValue :=
  metadata.foldl (fun o e => setProp o e.1 (.str e.2)) o

/-- Source `buildNewMetadata(metadata, extractedPrompts)`; `none` is the `null` result. -/
def buildNewMetadata (metadata : JSObj JSString) (extractedPrompts : List JSValue) :
    Option (JSObj JSValue) :=
  if extractedPrompts.length = 0 then none
  else some (mergeOriginal metadata (addPrompts extractedPrompts 0 []))

/-! ## PNG -/

/-- The effect of one text chunk (`tEXt`, `iTXt`, `zTXt`) on the field map. -/
def pngTextChunk (type : JSString) (textStr : JSString) (metadata : JSObj JSString) :
    JSObj JSString :=
  if type = str "tEXt" then
    match indexOfUnit 0 textStr with
    | some nullIndex => setProp metadata (textStr.take nullIndex) (textStr.drop (nullIndex + 1))
    | none => metadata
  else if type = str "iTXt" then
    if 2 ≤ (splitOnUnit 0 textStr).length then
      setProp metadata ((splitOnUnit 0 textStr).headD []) ((splitOnUnit 0 textStr).getLastD [])
    else metadata
  else metadata

/-- The `while (offset < view.byteLength - 8)` loop of `parsePNGChunks`: the offset and
the field map when the loop is left. -/
def pngWalk (buf : Buffer) : Nat → Nat → JSObj JSString → Except JSError (Nat × JSObj JSString)
  | 0, offset, metadata =>
    if offset + 8 < buf.length then .error .outOfFuel else .ok (offset, metadata)
  | fuel + 1, offset, metadata =>
    if offset + 8 < buf.length then
      match getUint32 buf offset with
      | .error err => .error err
      | .ok length =>
        let type := getString buf (offset + 4) 4
        match (if type = str "tEXt" ∨ type = str "iTXt" ∨ type = str "zTXt" then
            (uint8Array buf (offset + 8) length).map
              fun textData => pngTextChunk type (textDecode textData) metadata
          else Except.ok metadata) with
        | .error err => .error err
        | .ok metadata =>
          if type = str "IEND" then .ok (offset + (12 + length), metadata)
          else pngWalk buf fuel (offset + (12 + length)) metadata
    else .ok (offset, metadata)

/-- The block `metadata['Image Width'] = ..; metadata['Image Height'] = ..;
metadata['Image Size'] = ..` of `parsePNGChunks`. -/
def withDimensions (metadata : JSObj JSString) (width height : Nat) : JSObj JSString :=
  setProp (setProp (setProp metadata (str "Image Width") (decimal width))
    (str "Image Height") (decimal height))
    (str "Image Size") (decimal width ++ str "x" ++ decimal height)

/-- The field map of `parsePNGChunks` before prompt extraction: the chunk walk from offset 8 and the
"Basic image info" block. -/
def pngCollect (buf : Buffer) : Except JSError (JSObj JSString) :=
  match pngWalk buf buf.length 8 [] with
  | .error err => .error err
  | .ok (offset, metadata) =>
    if 16 ≤ offset then
      match getUint32 buf 16, getUint32 buf 20 with
      | .ok width, .ok height => .ok (withDimensions metadata width height)
      | .error err, _ => .error err
      | _, .error err => .error err
    else .ok metadata

def strFields (o : JSObj JSString) : JSObj JSValue := o.map fun e => (e.1, JSValue.str e.2)

/-- Source `parsePNGChunks(view)`: `finalMetadata || metadata`. -/
def parsePNGChunks (buf : Buffer) : Except JSError (JSObj JSValue) :=
  match pngCollect buf with
  | .error err => .error err
  | .ok metadata =>
    match extractTextsFromJSON (getProp metadata (str "prompt")) with
    | .error err => .error err
    | .ok texts =>
      match buildNewMetadata metadata texts with
      | some finalMetadata => .ok finalMetadata
      | none => .ok (strFields metadata)

/-! ## JPEG -/

/-- One line of a decoded APP1 payload: `key: value` at the first colon. -/
def jpegLine (line : JSString) (metadata : JSObj JSString) : JSObj JSString :=
  if includes line (str ":") then
    let parts := splitOnUnit 58 line
    let key := parts.headD []
    let value := trim (joinWith (str ":") parts.tail)
    if !(trim key).isEmpty && !value.isEmpty then setProp metadata (trim key) value
    else metadata
  else metadata

/-- The fields taken from a decoded APP1 payload. -/
def jpegApp1 (exifString : JSString) (metadata : JSObj JSString) : JSObj JSString :=
  if includes exifString (str "parameters") || includes exifString (str "prompt") then
    (splitOnUnit 10 exifString).foldl (fun md line => jpegLine line md) metadata
  else metadata

/-- The `while (offset < view.byteLength - 2)` loop of `parseJPEGSegments`. The marker is
an unsigned 16-bit value, so `marker & 0xFF00` is `marker / 256 * 256` and
`marker & 0x00FF` is `marker % 256`. -/
def jpegWalk (buf : Buffer) : Nat → Nat → JSObj JSString → Except JSError (JSObj JSString)
  | 0, offset, metadata =>
    if offset + 2 < buf.length then .error .outOfFuel else .ok metadata
  | fuel + 1, offset, metadata =>
    if offset + 2 < buf.length then
      match getUint16 buf offset with
      | .error err => .error err
      | .ok marker =>
        if marker / 256 * 256 ≠ 0xFF00 then .ok metadata
        else
          let markerType := marker % 256
          let offset := offset + 2
          if markerType = 0xE1 then
            match getUint16 buf offset with
            | .error err => .error err
            | .ok length =>
              match uint8Array buf (offset + 2) ((length : Int) - 2) with
              | .error err => .error err
              | .ok exifData =>
                jpegWalk buf fuel (offset + length) (jpegApp1 (textDecode exifData) metadata)
          else if 0xE0 ≤ markerType ∧ markerType ≤ 0xEF then
            match getUint16 buf offset with
            | .error err => .error err
            | .ok length => jpegWalk buf fuel (offset + length) metadata
          else if markerType = 0xC0 ∨ markerType = 0xC2 then
            match getUint16 buf offset with
            | .error err => .error err
            | .ok length =>
              if 8 ≤ length then
                match getUint16 buf (offset + 3), getUint16 buf (offset + 5) with
                | .ok height, .ok width =>
                  jpegWalk buf fuel (offset + length)
                    (setProp (setProp (setProp metadata (str "Image Width") (decimal width))
                      (str "Image Height") (decimal height))
                      (str "Image Size") (decimal width ++ str "x" ++ decimal height))
                | .error err, _ => .error err
                | _, .error err => .error err
              else jpegWalk buf fuel (offset + length) metadata
          else .ok metadata
    else .ok metadata

/-- Source `parseJPEGSegments(view)`. -/
def parseJPEGSegments (buf : Buffer) : Except JSError (JSObj JSString) :=
  jpegWalk buf buf.length 2 []

/-! ## Image family -/

def isPNG (buf : Buffer) : Bool :=
  8 ≤ buf.length && u32At buf 0 == 0x89504E47 && u32At buf 4 == 0x0D0A1A0A

def isJPEG (buf : Buffer) : Bool := 2 ≤ buf.length && u16At buf 0 == 0xFFD8

def isGIF (buf : Buffer) : Bool := 6 ≤ buf.length && getString buf 0 3 == str "GIF"

def isWebP (buf : Buffer) : Bool :=
  12 ≤ buf.length && getString buf 0 4 == str "RIFF" && getString buf 8 4 == str "WEBP"

/-- A document: categories in insertion order, each an ordered map of fields. -/
abbrev Document := JSObj (JSObj JSValue)

/-- Source `parseImageMetadata(view, mimeType)`. -/
def parseImageMetadata (buf : Buffer) : Except JSError Document :=
  if isPNG buf then
    match parsePNGChunks buf with
    | .error err => .error err
    | .ok pngData =>
      let metadata : Document := if 0 < pngData.length then [(str "PNG Metadata", pngData)] else []
      if 24 ≤ buf.length then
        match getUint32 buf 16, getUint32 buf 20 with
        | .ok width, .ok height =>
          .ok (setProp metadata (str "Image Dimensions") (strFields (objectLiteral
            [(str "Width", decimal width ++ str " pixels"),
             (str "Height", decimal height ++ str " pixels")])))
        | .error err, _ => .error err
        | _, .error err => .error err
      else .ok metadata
  else if isJPEG buf then
    match parseJPEGSegments buf with
    | .error err => .error err
    | .ok jpegData =>
      .ok (if 0 < jpegData.length then [(str "JPEG Metadata", strFields jpegData)] else [])
  else if isGIF buf then
    if 10 ≤ buf.length then
      match getUint16LE buf 6, getUint16LE buf 8 with
      | .ok width, .ok height =>
        .ok [(str "GIF Information", strFields (objectLiteral
          [(str "Version", getString buf 3 3),
           (str "Width", decimal width ++ str " pixels"),
           (str "Height", decimal height ++ str " pixels")]))]
      | .error err, _ => .error err
      | _, .error err => .error err
    else .ok []
  else if isWebP buf then
    .ok [(str "WebP Information", strFields (objectLiteral
      [(str "Format", str "WebP Image"),
       (str "File Size", decimal buf.length ++ str " bytes")]))]
  else .ok []

/-! ## Audio family -/

/-- Source `getSynchsafeInt(view, offset)`: a RangeError when one of the four bytes read lies
outside the buffer; the shifted bytes stay below `2^31`, so `<<` and `|` act as on naturals. -/
def getSynchsafeInt (buf : Buffer) (offset : Nat) : Except JSError Nat :=
  if offset + 4 ≤ buf.length then
    .ok ((byteAt buf offset <<< 21) ||| (byteAt buf (offset + 1) <<< 14)
      ||| (byteAt buf (offset + 2) <<< 7) ||| byteAt buf (offset + 3))
  else .error .rangeError

/-- The test `frameId.match(/^[A-Z0-9]{4}$/)`. -/
def isFrameId (frameId : JSString) : Bool :=
  frameId.length == 4 && frameId.all fun c => (65 ≤ c && c ≤ 90) || (48 ≤ c && c ≤ 57)

def frameNames : JSObj JSString :=
  objectLiteral
    [(str "TIT2", str "Title"), (str "TPE1", str "Artist"), (str "TALB", str "Album"),
     (str "TYER", str "Year"), (str "TCON", str "Genre")]

/-- The `while (offset < maxOffset - 10)` loop of `parseID3Tags`: the tags collected and
the exception that left the loop, if one did. -/
def id3Walk (buf : Buffer) (maxOffset : Nat) :
    Nat → Nat → JSObj JSString → JSObj JSString × Option JSError
  | 0, offset, tags => if offset + 10 < maxOffset then (tags, some .outOfFuel) else (tags, none)
  | fuel + 1, offset, tags =>
    if offset + 10 < maxOffset then
      let frameId := getString buf offset 4
      if !isFrameId frameId then (tags, none)
      else
        match getUint32 buf (offset + 4) with
        | .error err => (tags, some err)
        | .ok frameSize =>
          if frameSize = 0 ∨ maxOffset < frameSize + offset + 10 then (tags, none)
          else
            match uint8Array buf (offset + 10) (min frameSize 100 : Nat) with
            | .error err => (tags, some err)
            | .ok frameData =>
              let frameText := textDecode frameData
              match getProp frameNames frameId with
              | some name =>
                id3Walk buf maxOffset fuel (offset + (10 + frameSize))
                  (setProp tags name ((frameText.filter fun c => c != 0).take 100))
              | none => id3Walk buf maxOffset fuel (offset + (10 + frameSize)) tags
    else (tags, none)

/-- Source `parseID3Tags(view)`: whatever is thrown inside the `try` is dropped and the tags
collected so far are returned. -/
def parseID3Tags (buf : Buffer) : Except JSError (JSObj JSString) :=
  match getUint8 buf 3 with
  | .error _ => .ok []
  | .ok version =>
    let tags := setProp [] (str "ID3 Version") (str "2." ++ decimal version)
    match getSynchsafeInt buf 6 with
    | .error _ => .ok tags
    | .ok tagSize =>
      match id3Walk buf (min (10 + tagSize) buf.length) buf.length 10 tags with
      | (_, some .outOfFuel) => .error .outOfFuel
      | (tags, _) => .ok tags

/-- A finite double that is not negative: the value `significand / 2 ^ shift`. -/
structure Double where
  significand : Nat
  shift : Nat

/-- The scaling of a quotient `a / c`: the least `k` from the given one on with
`2^52 ≤ a * 2^k / c`, so that the significand has 53 bits; the count stops at the shift
`1074` of the subnormal numbers. -/
def normShift (a c : Nat) : Nat → Nat → Nat
  | 0, k => k
  | fuel + 1, k => if 2 ^ 52 * c ≤ a * 2 ^ k then k else normShift a c fuel (k + 1)

/-- The quotient `n / d` rounded to the nearest integer, a tie going to the even one. -/
def roundHalfEven (n d : Nat) : Nat :=
  if 2 * (n % d) < d then n / d
  else if d < 2 * (n % d) then n / d + 1
  else if n / d % 2 = 0 then n / d else n / d + 1

/-- The Number division `a / c` of two integers that are held exactly, with `0 < c` and
`a / c < 2^53`: the exact quotient rounded to a 53-bit significand, ties to even. -/
def doubleDiv (a c : Nat) : Double :=
  if a = 0 then ⟨0, 0⟩
  else ⟨roundHalfEven (a * 2 ^ normShift a c 1074 0) c, normShift a c 1074 0⟩

/-- Source `Math.round(x)` on such a double: the integer `floor(x + 1/2)`. -/
def mathRound (x : Double) : Nat := (2 * x.significand + 2 ^ x.shift) / 2 ^ (x.shift + 1)

/-- Source `parseWAVHeader(view)`. With 44 bytes or more no read inside the `try` can
throw. `byteRate * 8` is below `2^35` and exact; the division by `1000` and `Math.round`
are the Number operations. -/
def parseWAVHeader (buf : Buffer) : JSObj JSString :=
  if 44 ≤ buf.length then
    if getString buf 8 4 = str "WAVE" then
      setProp (setProp (setProp (setProp (setProp [] (str "Format") (str "WAV Audio"))
        (str "Channels") (decimal (u16LEAt buf 22)))
        (str "Sample Rate") (decimal (u32LEAt buf 24) ++ str " Hz"))
        (str "Bit Depth") (decimal (u16LEAt buf 34) ++ str " bits"))
        (str "Bitrate") (decimal (mathRound (doubleDiv (u32LEAt buf 28 * 8) 1000)) ++ str " kbps")
    else []
  else []

/-- Source `parseAudioMetadata(view)`. -/
def parseAudioMetadata (buf : Buffer) : Except JSError Document :=
  if 10 ≤ buf.length ∧ getString buf 0 3 = str "ID3" then
    match parseID3Tags buf with
    | .error err => .error err
    | .ok id3Data => .ok (if 0 < id3Data.length then [(str "ID3 Tags", strFields id3Data)] else [])
  else if 4 ≤ buf.length ∧ getString buf 0 4 = str "fLaC" then
    .ok [(str "FLAC Information", strFields (objectLiteral
      [(str "Format", str "FLAC Audio"), (str "Lossless", str "Yes")]))]
  else if 44 ≤ buf.length ∧ getString buf 0 4 = str "RIFF" then
    .ok (if 0 < (parseWAVHeader buf).length then
      [(str "WAV Information", strFields (parseWAVHeader buf))] else [])
  else .ok []

/-! ## Video family -/

/-- Source `parseVideoMetadata(view)`: the three tests form one `if / else if` chain. -/
def parseVideoMetadata (buf : Buffer) : Document :=
  if 8 ≤ buf.length then
    if getString buf 4 4 = str "ftyp" then
      [(str "Video Information", strFields (objectLiteral
        [(str "Format", str "MP4/MOV"), (str "Brand", getString buf 8 4)]))]
    else []
  else if getString buf 0 4 = str "RIFF" ∧ 12 ≤ buf.length then
    if getString buf 8 4 = str "AVI " then
      [(str "Video Information", strFields (objectLiteral
        [(str "Format", str "AVI Video"), (str "Container", str "RIFF")]))]
    else []
  else if 4 ≤ buf.length ∧ u32At buf 0 = 0x1A45DFA3 then
    [(str "Video Information", strFields (objectLiteral
      [(str "Format", str "Matroska Video (MKV)"), (str "Container", str "EBML")]))]
  else []

/-! ## PDF -/

/-- The capture of `/%PDF-(\d\.\d)/` when the pattern matches at the start of `s`. -/
def pdfVersionHere (s : JSString) : Option JSString :=
  match s with
  | 37 :: 80 :: 68 :: 70 :: 45 :: a :: 46 :: b :: _ =>
    if isDigit a && isDigit b then some [a, 46, b] else none
  | _ => none

def isLineTerminator (c : Nat) : Bool := c == 10 || c == 13 || c == 0x2028 || c == 0x2029

/-- The capture of `\((.*?)\)` at the start of `s`: up to the first closing parenthesis,
if no line terminator comes before it. -/
def pdfParenHere (s : JSString) : Option JSString :=
  match s with
  | 40 :: rest =>
    let inner := rest.takeWhile fun c => c != 41 && !isLineTerminator c
    match rest.drop inner.length with
    | 41 :: _ => some inner
    | _ => none
  | _ => none

/-- The capture of `/\/Tag\s*\((.*?)\)/` when the pattern matches at the start of `s`. -/
def pdfTagHere (tag : JSString) (s : JSString) : Option JSString :=
  if tag.isPrefixOf s then pdfParenHere ((s.drop tag.length).dropWhile isTrimUnit) else none

/-- First capture of `header.match(re)`: the leftmost start position with a match. -/
def firstMatch (here : JSString → Option JSString) (header : JSString) : Option JSString :=
  header.tails.findSome? here

/-- Source `parsePDFMetadata(view)`. -/
def parsePDFMetadata (buf : Buffer) : Document :=
  if 1024 ≤ buf.length then
    let header := getString buf 0 1024
    let metadata : Document :=
      match firstMatch pdfVersionHere header with
      | some version => [(str "PDF Information", strFields (objectLiteral
          [(str "Version", version), (str "Format", str "Portable Document Format")]))]
      | none => []
    let titleMatch := firstMatch (pdfTagHere (str "/Title")) header
    let authorMatch := firstMatch (pdfTagHere (str "/Author")) header
    let creatorMatch := firstMatch (pdfTagHere (str "/Creator")) header
    if titleMatch.isSome ∨ authorMatch.isSome ∨ creatorMatch.isSome then
      let fields : JSObj JSString := []
      let fields := match titleMatch with
        | some v => setProp fields (str "Title") v
        | none => fields
      let fields := match authorMatch with
        | some v => setProp fields (str "Author") v
        | none => fields
      let fields := match creatorMatch with
        | some v => setProp fields (str "Creator") v
        | none => fields
      setProp metadata (str "PDF Metadata") (strFields fields)
    else metadata
  else []

/-! ## Archives -/

/-- The counting loop `for (let i = 0; i < view.byteLength - 4; i++)`. -/
def countLocalHeaders (buf : Buffer) : Nat :=
  (List.range (buf.length - 4)).countP fun i => u32At buf i == 0x504B0304

/-- Source `parseArchiveMetadata(view, signature)`. -/
def parseArchiveMetadata (buf : Buffer) (signature : Option JSString) : Document :=
  let info : JSObj JSString := objectLiteral
    [(str "Type", match signature with
        | some sig => if sig.isEmpty then str "Archive" else sig
        | none => str "Archive"),
     (str "Compressed", str "Yes")]
  let info :=
    match signature with
    | some sig =>
      if includes sig (str "ZIP") then
        let info := setProp info (str "Format") (str "ZIP")
        if 0 < countLocalHeaders buf then
          setProp info (str "Approximate Files") (decimal (countLocalHeaders buf))
        else info
      else info
    | none => info
  [(str "Archive Information", strFields info)]

/-! ## Binary preview and the entry point -/

/-- Source `n.toString(16)` on a natural number: lower-case digits, no padding. -/
def toString16 (n : Nat) : JSString := (Nat.toDigits 16 n).map Char.toNat

/-- Source `s.padStart(2, '0')`. -/
def padStart2 (s : JSString) : JSString := List.replicate (2 - s.length) 48 ++ s

/-- Source `s.toUpperCase()` on ASCII text. -/
def toUpperCase (s : JSString) : JSString :=
  s.map fun c => if 97 ≤ c ∧ c ≤ 122 then c - 32 else c

/-- Source `getHexString(view, start, length)`: the loop appends two digits and a space for
every byte from `start` to `min(start + length, byteLength)`, and the result is trimmed. -/
def getHexString (buf : Buffer) (start length : Nat) : JSString :=
  trim (((buf.take (min (start + length) buf.length)).drop start).flatMap fun b =>
    toUpperCase (padStart2 (toString16 b.val)) ++ [32])

/-- Source `getFileHeaderInfo(view)`. -/
def getFileHeaderInfo (buf : Buffer) : JSString :=
  ((buf.take (min buf.length 256)).map fun b =>
    if 32 ≤ b.val ∧ b.val ≤ 126 then b.val else 46).take 100

/-- The `File` handed to `parseFileMetadata`. `formattedSize` stands for
`formatFileSize(file.size)` and `lastModifiedText` for
`new Date(file.lastModified).toLocaleString()`, which depend on floating point and on the
locale and are supplied by the caller. -/
structure File where
  name : JSString
  size : Nat
  formattedSize : JSString
  type : JSString
  lastModified : Nat
  lastModifiedText : JSString

/-- Source `Object.assign(metadata, parsed)`. -/
def objectAssign {α : Type} (target source : JSObj α) : JSObj α :=
  source.foldl (fun o e => setProp o e.1 e.2) target

def signatureIncludes (signature : Option JSString) (part : JSString) : Bool :=
  match signature with
  | some sig => includes sig part
  | none => false

/-- The category chosen by the `if / else if` chain of `parseFileMetadata`. -/
def parseByType (file : File) (buf : Buffer) (signature : Option JSString) :
    Except JSError Document :=
  if startsWith file.type (str "image/") || signatureIncludes signature (str "Image") then
    parseImageMetadata buf
  else if startsWith file.type (str "audio/") || signatureIncludes signature (str "Audio") then
    parseAudioMetadata buf
  else if startsWith file.type (str "video/") || signatureIncludes signature (str "Video") then
    .ok (parseVideoMetadata buf)
  else if file.type = str "application/pdf" ∨ signature = some (str "PDF Document") then
    .ok (parsePDFMetadata buf)
  else if includes file.type (str "zip") || signatureIncludes signature (str "Archive") then
    .ok (parseArchiveMetadata buf signature)
  else .ok []

/-- The category `File Information`: the object literal, and `Detected Format` when a signature
was detected. -/
def fileInformation (file : File) (signature : Option JSString) : JSObj JSString :=
  match signature with
  | some sig =>
    setProp (objectLiteral
      [(str "Name", file.name),
       (str "Size", file.formattedSize),
       (str "Size (bytes)", decimal file.size),
       (str "Type", if file.type.isEmpty then str "Unknown" else file.type),
       (str "Last Modified", file.lastModifiedText),
       (str "Last Modified (timestamp)", decimal file.lastModified)]) (str "Detected Format") sig
  | none =>
    objectLiteral
      [(str "Name", file.name),
       (str "Size", file.formattedSize),
       (str "Size (bytes)", decimal file.size),
       (str "Type", if file.type.isEmpty then str "Unknown" else file.type),
       (str "Last Modified", file.lastModifiedText),
       (str "Last Modified (timestamp)", decimal file.lastModified)]

/-- The category `Binary Information` ("Add hex preview"). -/
def binaryInformation (buf : Buffer) : JSObj JSString :=
  objectLiteral
    [(str "First 16 bytes (hex)", getHexString buf 0 16),
     (str "File header", getFileHeaderInfo buf)]

/-- Source `parseFileMetadata(file, arrayBuffer)`; an `.error` is the rejection of the promise the
`async` method returns. -/
def parseFileMetadata (file : File) (buf : Buffer) : Except JSError Document :=
  match parseByType file buf (detectFileSignature buf) with
  | .error err => .error err
  | .ok parsed =>
    .ok (setProp
      (objectAssign
        [(str "File Information", strFields (fileInformation file (detectFileSignature buf)))]
        parsed)
      (str "Binary Information") (strFields (binaryInformation buf)))

/-! ## Buffers used in the statements -/

def pngSignature : Buffer := [0x89, 0x50, 0x4E, 0x47, 0x0D, 0x0A, 0x1A, 0x0A]

/-- The bytes of an ASCII literal. -/
def ascii (s : String) : Buffer := s.toList.map fun c => Fin.ofNat c.toNat

/-- Big-endian encoding of an unsigned 32-bit integer. -/
def be32 (n : Nat) : Buffer :=
  [⟨n / 16777216 % 256, Nat.mod_lt _ (by decide)⟩, ⟨n / 65536 % 256, Nat.mod_lt _ (by decide)⟩,
   ⟨n / 256 % 256, Nat.mod_lt _ (by decide)⟩, ⟨n % 256, Nat.mod_lt _ (by decide)⟩]

/-- A PNG chunk as laid out in a file: type, data and CRC (the length field is that of the data). -/
structure Chunk where
  type : Buffer
  data : Buffer
  crc : Buffer

def Chunk.bytes (c : Chunk) : Buffer := be32 c.data.length ++ c.type ++ c.data ++ c.crc

/-- Type and CRC take four bytes each and the data length fits the 32-bit length field. -/
def Chunk.WellFormed (c : Chunk) : Prop :=
  c.type.length = 4 ∧ c.crc.length = 4 ∧ c.data.length < 2 ^ 32

def Chunk.typeName (c : Chunk) : JSString := c.type.map Fin.val

/-- The bytes of a PNG file made of the given chunks. -/
def pngFile (chunks : List Chunk) : Buffer := pngSignature ++ chunks.flatMap Chunk.bytes

/-- The bytes of a chunk with an ASCII type name. -/
def pngChunk (type : String) (data crc : Buffer) : Buffer :=
  Chunk.bytes ⟨ascii type, data, crc⟩

/-- What the chunk walk does to the field map at one chunk, stated on the chunk. -/
def chunkEffect (c : Chunk) (metadata : JSObj JSString) : JSObj JSString :=
  if c.typeName = str "tEXt" ∨ c.typeName = str "iTXt" ∨ c.typeName = str "zTXt" then
    pngTextChunk c.typeName (textDecode c.data) metadata
  else metadata

/-- The field map after the chunks up to and including the first `IEND`. -/
def chunkFields : List Chunk → JSObj JSString → JSObj JSString
  | [], metadata => metadata
  | c :: rest, metadata =>
    if c.typeName = str "IEND" then chunkEffect c metadata
    else chunkFields rest (chunkEffect c metadata)

/-- The key a text chunk writes, if it writes one. -/
def chunkKey? (c : Chunk) : Option JSString :=
  if c.typeName = str "tEXt" then
    (indexOfUnit 0 (textDecode c.data)).map fun i => (textDecode c.data).take i
  else if c.typeName = str "iTXt" then
    if 2 ≤ (splitOnUnit 0 (textDecode c.data)).length then
      some ((splitOnUnit 0 (textDecode c.data)).headD [])
    else none
  else none


/-- The first `n` bytes of the buffer, in the form the signature patterns have. -/
def bufferPrefix (buf : Buffer) (n : Nat) : List (Option Nat) :=
  (buf.take n).map fun b => some b.val

/-- A file of the given declared MIME type; the other attributes play no part in parsing. -/
def fileOfType (type : String) : File :=
  { name := str "file", size := 0, formattedSize := str "0 Bytes", type := str type,
    lastModified := 0, lastModifiedText := str "" }

/-- The synthetic field name number `i`. -/
def promptKey (i : Nat) : JSString := experimentalPromptLabel ++ str " - " ++ decimal i

/-- The synthetic entries for the texts, numbered from `i + 1` on, in discovery order. -/
def promptEntriesFrom : List JSValue → Nat → JSObj JSValue
  | [], _ => []
  | t :: ts, i => (promptKey (i + 1), t) :: promptEntriesFrom ts (i + 1)

/-- The node graph of the specification's example. -/
def graphText : String :=
  "\x7b\"1\":\x7b\"class_type\":\"CLIPTextEncode\",\"inputs\":\x7b\"text\":\"a cat sitting\"\x7d\x7d\x7d"

/-- A graph of three nodes: a text box under the key `1`, an encoder under `3` with a
short `text1`, and a sampler. -/
def graphText3 : String :=
  "\x7b\"3\":\x7b\"class_type\":\"CLIPTextEncode\",\"inputs\":\x7b\"text\":\"a cat sitting\",\"text1\":\"abc\"\x7d\x7d," ++
  "\"k\":\x7b\"class_type\":\"KSampler\",\"inputs\":\x7b\"text\":\"ignored text\"\x7d\x7d," ++
  "\"1\":\x7b\"class_type\":\"MyTextBox\",\"inputs\":\x7b\"text1\":\"second\"\x7d\x7d\x7d"

/-- As the specification words it: a text input counts when it is present and longer
than 3 characters. -/
def specText : Option JSValue → List JSValue
  | some (.str s) => if 3 < s.length then [.str s] else []
  | _ => []

/-- As the specification words it: a node whose `class_type` contains `CLIPTextEncode` or
`TextBox` gives its `text` and then its `text1` input; any other node gives nothing. -/
def specNodeTexts (node : JSValue) : List JSValue :=
  match classTypeOf node with
  | some (.str classType) =>
    if includes classType (str "CLIPTextEncode") || includes classType (str "TextBox") then
      specText (inputOf node (str "text")) ++ specText (inputOf node (str "text1"))
    else []
  | _ => []

/-- A node of a prompt graph as the data model has it: `class_type`, `inputs.text` and
`inputs.text1` are strings when they are present. -/
def NodeTyped (node : JSValue) : Prop :=
  (classTypeOf node = none ∨ ∃ s, classTypeOf node = some (.str s))
  ∧ (inputOf node (str "text") = none ∨ ∃ s, inputOf node (str "text") = some (.str s))
  ∧ (inputOf node (str "text1") = none ∨ ∃ s, inputOf node (str "text1") = some (.str s))

/-! ## Definitions used in the statements on archives, dispatch and the binary preview -/

/-- The local file header magic `50 4B 03 04`. -/
def zipMagic : Buffer := [0x50, 0x4B, 0x03, 0x04]

/-- The four bytes at offset `i` are the magic. -/
def zipMagicAt (buf : Buffer) (i : Nat) : Bool := (buf.drop i).take 4 == zipMagic

/-- The number of offsets `0 ≤ i ≤ length - 4` of the whole buffer at which the magic occurs. -/
def magicOffsets (buf : Buffer) : Nat :=
  (List.range (buf.length - 3)).countP fun i => zipMagicAt buf i

/-- A PNG of 45 bytes: signature, IHDR of width 100 and height 50, IEND. -/
def pngSample : Buffer :=
  pngFile [⟨ascii "IHDR", be32 100 ++ be32 50 ++ [8, 6, 0, 0, 0], [0, 0, 0, 0]⟩,
    ⟨ascii "IEND", [], [0xAE, 0x42, 0x60, 0x82]⟩]

/-- The category names the format parsers can produce. -/
def parserCategories : List JSString :=
  [str "PNG Metadata", str "Image Dimensions", str "JPEG Metadata", str "GIF Information",
   str "WebP Information", str "ID3 Tags", str "FLAC Information", str "WAV Information",
   str "Video Information", str "PDF Information", str "PDF Metadata",
   str "Archive Information"]

/-- A field value that is a string. -/
def IsString (v : JSValue) : Prop := ∃ s, v = .str s

/-- A node graph whose encoder has an array of four strings as its `text` input. -/
def graphTextArray : String :=
  "\x7b\"1\":\x7b\"class_type\":\"CLIPTextEncode\",\"inputs\":\x7b\"text\":[\"a\",\"b\",\"c\",\"d\"]\x7d\x7d\x7d"

/-- A graph of two nodes: the first has the number 5 as its `class_type`, the second is an
encoder with the text `hello`. -/
def graphTextNumber : String :=
  "\x7b\"a\":\x7b\"class_type\":5\x7d," ++
  "\"b\":\x7b\"class_type\":\"CLIPTextEncode\",\"inputs\":\x7b\"text\":\"hello\"\x7d\x7d\x7d"

/-- What a field value of a document read from `buf` can be: a string, or one of the values
the prompt extractor collected from the field `prompt` of the PNG field map. -/
def StringOrCollected (buf : Buffer) (v : JSValue) : Prop :=
  IsString v ∨ ∃ metadata texts, pngCollect buf = .ok metadata
    ∧ extractTextsFromJSON (getProp metadata (str "prompt")) = .ok texts ∧ v ∈ texts

/-- The hexadecimal digit of value `d` in upper case. -/
def hexDigitChar (d : Nat) : Nat := (str "0123456789ABCDEF").getD d 0

/-- A byte as exactly two upper-case hexadecimal digits. -/
def hexByte (b : Byte) : JSString := [hexDigitChar (b.val / 16), hexDigitChar (b.val % 16)]

/-- The character shown for a byte in the header preview: itself when printable, a dot
otherwise. -/
def printable (b : Byte) : Nat := if 32 ≤ b.val ∧ b.val ≤ 126 then b.val else 46

/-- A canonical 44-byte WAV header: PCM, 2 channels, 44100 Hz, 176400 bytes per second,
16 bits. -/
def wavSample : Buffer :=
  ascii "RIFF" ++ [36, 0, 0, 0] ++ ascii "WAVE" ++ ascii "fmt " ++ [16, 0, 0, 0]
    ++ [1, 0] ++ [2, 0] ++ [0x44, 0xAC, 0, 0] ++ [0x10, 0xB1, 0x02, 0] ++ [4, 0] ++ [16, 0]
    ++ ascii "data" ++ [0, 0, 0, 0]

/-! ## Definitions used in the statements on table order, ID3 frames and JPEG segments -/

/-- The search of `detectFileSignature` over an arbitrary enumeration of the table. -/
def detectIn (table : JSObj JSString) (buf : Buffer) : Option JSString :=
  if buf.length < 4 then none
  else (table.find? fun e => sigMatchFrom buf (sigBytes e.1) 0).map Prod.snd

/-- An ID3v2.3 tag of 26 bytes: the header with tag size 16 and one `TIT2` frame of six
bytes, the encoding byte `00` and `Hello`. -/
def id3Sample : Buffer :=
  ascii "ID3" ++ [3, 0, 0] ++ [0, 0, 0, 16] ++ ascii "TIT2" ++ be32 6 ++ [0, 0]
    ++ [0] ++ ascii "Hello"

/-- The opening of a JPEG file: SOI, an APP0 segment of 16 bytes, the marker DQT. -/
def jpegSample : Buffer :=
  [0xFF, 0xD8] ++ [0xFF, 0xE0, 0x00, 0x10] ++ ascii "JFIF" ++ [0, 1, 1, 0, 0, 72, 0, 72, 0, 0]
    ++ [0xFF, 0xDB, 0x00, 0x43]

/-- The six field names `parseID3Tags` can write. -/
def id3FieldNames : List JSString :=
  [str "ID3 Version", str "Title", str "Artist", str "Album", str "Year", str "Genre"]

/-- The value taken from the frame at `offset`: the text decoded from the first
`min(size, 100)` bytes of the frame data, NUL characters removed, at most 100 characters. -/
def frameValue (buf : Buffer) (offset : Nat) : JSString :=
  ((textDecode ((buf.drop (offset + 10)).take (min (u32At buf (offset + 4)) 100))).filter
    fun c => c != 0).take 100

/-- The tag boundary `Math.min(10 + tagSize, byteLength)` of a buffer of ten bytes or more. -/
def id3Boundary (buf : Buffer) : Nat :=
  min (10 + ((byteAt buf 6 <<< 21) ||| (byteAt buf 7 <<< 14) ||| (byteAt buf 8 <<< 7)
    ||| byteAt buf 9)) buf.length

def be16 (n : Nat) : Buffer :=
  [⟨n / 256 % 256, Nat.mod_lt _ (by decide)⟩, ⟨n % 256, Nat.mod_lt _ (by decide)⟩]

/-- A JPEG marker segment as laid out in a file: `FF`, the marker type, the length field
(the payload length plus the two bytes of the field) and the payload. -/
structure Segment where
  type : Byte
  payload : Buffer

def Segment.bytes (s : Segment) : Buffer :=
  [0xFF, s.type] ++ be16 (s.payload.length + 2) ++ s.payload

/-- The declared length fits the 16-bit length field. -/
def Segment.Fits (s : Segment) : Prop := s.payload.length + 2 < 65536

/-- An application segment `APPn`. -/
def Segment.IsApp (s : Segment) : Prop := 0xE0 ≤ s.type.val ∧ s.type.val ≤ 0xEF

/-- A start-of-frame segment `SOF0` or `SOF2`. -/
def Segment.IsSOF (s : Segment) : Prop := s.type.val = 0xC0 ∨ s.type.val = 0xC2

/-- The three dimension fields as the SOF branch of `parseJPEGSegments` writes them. -/
def withJpegDimensions (metadata : JSObj JSString) (width height : Nat) : JSObj JSString :=
  setProp (setProp (setProp metadata (str "Image Width") (decimal width))
    (str "Image Height") (decimal height))
    (str "Image Size") (decimal width ++ str "x" ++ decimal height)

/-- What the segment walk does to the field map at one segment, stated on the segment:
an APP1 payload is read as text, any other `APPn` is passed, a start of frame with a
declared length of 8 or more gives the dimensions from the payload bytes 1..2 (height) and
3..4 (width). -/
def segmentEffect (s : Segment) (metadata : JSObj JSString) : JSObj JSString :=
  if s.type.val = 0xE1 then jpegApp1 (textDecode s.payload) metadata
  else if 0xE0 ≤ s.type.val ∧ s.type.val ≤ 0xEF then metadata
  else if s.type.val = 0xC0 ∨ s.type.val = 0xC2 then
    if 8 ≤ s.payload.length + 2 then
      withJpegDimensions metadata (u16At s.payload 3) (u16At s.payload 1)
    else metadata
  else metadata

/-- The bytes after the last segment walked end the walk: at most two bytes are left, or
the next two bytes are not `FF` followed by the type of an `APPn`, `SOF0` or `SOF2`. -/
def WalkEnds (post : Buffer) : Prop :=
  post.length ≤ 2 ∨ byteAt post 0 ≠ 0xFF
    ∨ ¬ ((0xE0 ≤ byteAt post 1 ∧ byteAt post 1 ≤ 0xEF) ∨ byteAt post 1 = 0xC0
      ∨ byteAt post 1 = 0xC2)

/-- The field map after the segments walked, in order. -/
def segmentFields (segs : List Segment) (metadata : JSObj JSString) : JSObj JSString :=
  segs.foldl (fun m s => segmentEffect s m) metadata

/-- The bytes of a JPEG file: SOI, the segments, and what follows them. -/
def jpegFile (segs : List Segment) (post : Buffer) : Buffer :=
  [0xFF, 0xD8] ++ (segs.flatMap Segment.bytes ++ post)

/-! ## Ordinary objects -/

theorem getProp_nil {α : Type} (k : JSString) : getProp ([] : JSObj α) k = none := rfl

theorem getProp_cons {α : Type} (k' : JSString) (v' : α) (rest : JSObj α) (k : JSString) :
    getProp ((k', v') :: rest) k = if k' = k then some v' else getProp rest k := by
  by_cases h : k' = k <;> simp [getProp, List.find?_cons, h]

theorem hasKey_nil {α : Type} (k : JSString) : hasKey ([] : JSObj α) k = false := rfl

theorem hasKey_cons {α : Type} (k' : JSString) (v' : α) (rest : JSObj α) (k : JSString) :
    hasKey ((k', v') :: rest) k = (decide (k' = k) || hasKey rest k) := by
  by_cases h : k' = k <;> simp [hasKey, h]

theorem hasKey_iff_mem {α : Type} (o : JSObj α) (k : JSString) :
    hasKey o k = true ↔ k ∈ o.map Prod.fst := by
  induction o with
  | nil => simp [hasKey]
  | cons e rest ih =>
    obtain ⟨k', v'⟩ := e
    rw [hasKey_cons, Bool.or_eq_true, ih]
    simp [eq_comm]

theorem getProp_eq_none_of_not_mem {α : Type} (o : JSObj α) (k : JSString)
    (h : k ∉ o.map Prod.fst) : getProp o k = none := by
  induction o with
  | nil => rfl
  | cons e rest ih =>
    obtain ⟨k', v'⟩ := e
    simp only [List.map_cons, List.mem_cons, not_or] at h
    rw [getProp_cons, if_neg (fun hk => h.1 hk.symm), ih h.2]

theorem getProp_append {α : Type} (o₁ o₂ : JSObj α) (k : JSString) :
    getProp (o₁ ++ o₂) k = (getProp o₁ k).orElse fun _ => getProp o₂ k := by
  induction o₁ with
  | nil => simp [getProp_nil]
  | cons e rest ih =>
    obtain ⟨k', v'⟩ := e
    rw [List.cons_append, getProp_cons, getProp_cons]
    by_cases h : k' = k
    · simp [h]
    · simp [h, ih]

theorem keys_replaceValue {α : Type} (k : JSString) (v : α) (o : JSObj α) :
    (replaceValue k v o).map Prod.fst = o.map Prod.fst := by
  induction o with
  | nil => rfl
  | cons e rest ih =>
    obtain ⟨k', v'⟩ := e
    by_cases h : k' = k <;> simp [replaceValue, h, ih]

theorem getProp_replaceValue {α : Type} (k : JSString) (v : α) (o : JSObj α) (k' : JSString) :
    getProp (replaceValue k v o) k' =
      if k' = k ∧ hasKey o k = true then some v else getProp o k' := by
  induction o with
  | nil => simp [replaceValue, getProp_nil, hasKey_nil]
  | cons e rest ih =>
    obtain ⟨k₀, v₀⟩ := e
    by_cases h : k₀ = k
    · subst h
      by_cases h' : k₀ = k'
      · subst h'; simp [replaceValue, getProp_cons, hasKey_cons]
      · have h'' : ¬ k' = k₀ := fun e => h' e.symm
        simp [replaceValue, getProp_cons, h', h'']
    · by_cases h' : k₀ = k'
      · subst h'
        simp [replaceValue, getProp_cons, h]
      · simp [replaceValue, getProp_cons, hasKey_cons, h, h', ih]

theorem keys_insertIndexKey_perm {α : Type} (i : Nat) (k : JSString) (v : α) (o : JSObj α) :
    ((insertIndexKey i k v o).map Prod.fst).Perm (k :: o.map Prod.fst) := by
  induction o with
  | nil => simp [insertIndexKey]
  | cons e rest ih =>
    obtain ⟨k', v'⟩ := e
    simp only [insertIndexKey]
    cases arrayIndex? k' with
    | none => simp
    | some j =>
      by_cases hj : j < i
      · simp only [hj, if_true, List.map_cons]
        exact (List.Perm.cons k' ih).trans (List.Perm.swap k k' _)
      · simp [hj]

theorem getProp_insertIndexKey_of_ne {α : Type} (i : Nat) (k : JSString) (v : α) (o : JSObj α)
    (k' : JSString) (h : k' ≠ k) :
    getProp (insertIndexKey i k v o) k' = getProp o k' := by
  have hk : ¬ k = k' := fun e => h e.symm
  induction o with
  | nil => simp [insertIndexKey, getProp_cons, getProp_nil, hk]
  | cons e rest ih =>
    obtain ⟨k₀, v₀⟩ := e
    simp only [insertIndexKey]
    cases arrayIndex? k₀ with
    | none => simp [getProp_cons, hk]
    | some j =>
      by_cases hj : j < i
      · simp [hj, getProp_cons, ih]
      · simp [hj, getProp_cons, hk]

theorem getProp_insertIndexKey_self {α : Type} (i : Nat) (k : JSString) (v : α) (o : JSObj α)
    (h : k ∉ o.map Prod.fst) : getProp (insertIndexKey i k v o) k = some v := by
  induction o with
  | nil => simp [insertIndexKey, getProp_cons]
  | cons e rest ih =>
    obtain ⟨k₀, v₀⟩ := e
    simp only [List.map_cons, List.mem_cons, not_or] at h
    have h0 : ¬ k₀ = k := fun e => h.1 e.symm
    simp only [insertIndexKey]
    cases arrayIndex? k₀ with
    | none => simp [getProp_cons]
    | some j =>
      by_cases hj : j < i
      · simp [hj, getProp_cons, h0, ih h.2]
      · simp [hj, getProp_cons]

theorem keys_defineProp_perm {α : Type} (o : JSObj α) (k : JSString) (v : α)
    (h : k ∉ o.map Prod.fst) : ((defineProp o k v).map Prod.fst).Perm (k :: o.map Prod.fst) := by
  have hk : hasKey o k = false := by
    rw [← Bool.not_eq_true, hasKey_iff_mem]; exact h
  unfold defineProp
  rw [hk]
  simp only [Bool.false_eq_true, if_false]
  cases arrayIndex? k with
  | some i => exact keys_insertIndexKey_perm i k v o
  | none =>
    rw [List.map_append]
    exact List.perm_append_comm

theorem keys_defineProp_of_mem {α : Type} (o : JSObj α) (k : JSString) (v : α)
    (h : k ∈ o.map Prod.fst) : (defineProp o k v).map Prod.fst = o.map Prod.fst := by
  have hk : hasKey o k = true := (hasKey_iff_mem o k).2 h
  unfold defineProp
  rw [if_pos hk, keys_replaceValue]

theorem nodup_keys_defineProp {α : Type} (o : JSObj α) (k : JSString) (v : α)
    (h : (o.map Prod.fst).Nodup) : ((defineProp o k v).map Prod.fst).Nodup := by
  by_cases hk : k ∈ o.map Prod.fst
  · rw [keys_defineProp_of_mem o k v hk]; exact h
  · exact (keys_defineProp_perm o k v hk).nodup_iff.2 (List.nodup_cons.2 ⟨hk, h⟩)

theorem mem_keys_defineProp {α : Type} (o : JSObj α) (k : JSString) (v : α) (k' : JSString) :
    k' ∈ (defineProp o k v).map Prod.fst ↔ k' = k ∨ k' ∈ o.map Prod.fst := by
  by_cases hk : k ∈ o.map Prod.fst
  · rw [keys_defineProp_of_mem o k v hk]
    constructor
    · exact Or.inr
    · rintro (rfl | h)
      · exact hk
      · exact h
  · rw [(keys_defineProp_perm o k v hk).mem_iff, List.mem_cons]

theorem getProp_defineProp_self {α : Type} (o : JSObj α) (k : JSString) (v : α) :
    getProp (defineProp o k v) k = some v := by
  unfold defineProp
  by_cases hk : hasKey o k = true
  · rw [if_pos hk, getProp_replaceValue]
    simp [hk]
  · rw [if_neg hk]
    have hmem : k ∉ o.map Prod.fst := fun h => hk ((hasKey_iff_mem o k).2 h)
    cases h : arrayIndex? k with
    | some i => exact getProp_insertIndexKey_self i k v o hmem
    | none =>
      simp only []
      rw [getProp_append, getProp_eq_none_of_not_mem o k hmem]
      simp [getProp_cons]

theorem getProp_defineProp_of_ne {α : Type} (o : JSObj α) (k : JSString) (v : α)
    (k' : JSString) (h : k' ≠ k) : getProp (defineProp o k v) k' = getProp o k' := by
  unfold defineProp
  by_cases hk : hasKey o k = true
  · rw [if_pos hk, getProp_replaceValue]
    simp [h]
  · rw [if_neg hk]
    cases arrayIndex? k with
    | some i => exact getProp_insertIndexKey_of_ne i k v o k' h
    | none =>
      simp only []
      rw [getProp_append]
      have hk' : ¬ k = k' := fun e => h e.symm
      cases getProp o k' <;> simp [getProp_cons, getProp_nil, hk']

theorem defineProp_of_new {α : Type} (o : JSObj α) (k : JSString) (v : α)
    (h : k ∉ o.map Prod.fst) (hi : arrayIndex? k = none) : defineProp o k v = o ++ [(k, v)] := by
  have hk : hasKey o k = false := by
    rw [← Bool.not_eq_true, hasKey_iff_mem]; exact h
  simp [defineProp, hk, hi]

theorem getProp_setProp_self {α : Type} (o : JSObj α) (k : JSString) (v : α)
    (h : k ≠ str "__proto__") : getProp (setProp o k v) k = some v := by
  rw [setProp, if_neg h, getProp_defineProp_self]

theorem getProp_setProp_of_ne {α : Type} (o : JSObj α) (k : JSString) (v : α)
    (k' : JSString) (h : k' ≠ k) : getProp (setProp o k v) k' = getProp o k' := by
  unfold setProp
  by_cases hp : k = str "__proto__"
  · rw [if_pos hp]
  · rw [if_neg hp, getProp_defineProp_of_ne o k v k' h]

theorem nodup_keys_setProp {α : Type} (o : JSObj α) (k : JSString) (v : α)
    (h : (o.map Prod.fst).Nodup) : ((setProp o k v).map Prod.fst).Nodup := by
  unfold setProp
  by_cases hp : k = str "__proto__"
  · rw [if_pos hp]; exact h
  · rw [if_neg hp]; exact nodup_keys_defineProp o k v h

theorem mem_keys_setProp {α : Type} (o : JSObj α) (k : JSString) (v : α) (k' : JSString)
    (h : k' ∈ (setProp o k v).map Prod.fst) : k' = k ∨ k' ∈ o.map Prod.fst := by
  unfold setProp at h
  by_cases hp : k = str "__proto__"
  · rw [if_pos hp] at h; exact Or.inr h
  · rw [if_neg hp] at h; exact (mem_keys_defineProp o k v k').1 h

theorem proto_not_mem_keys_setProp {α : Type} (o : JSObj α) (k : JSString) (v : α)
    (h : str "__proto__" ∉ o.map Prod.fst) : str "__proto__" ∉ (setProp o k v).map Prod.fst := by
  intro hmem
  unfold setProp at hmem
  by_cases hp : k = str "__proto__"
  · rw [if_pos hp] at hmem; exact h hmem
  · rw [if_neg hp] at hmem
    rcases (mem_keys_defineProp o k v _).1 hmem with e | e
    · exact hp e.symm
    · exact h e

theorem setProp_of_new {α : Type} (o : JSObj α) (k : JSString) (v : α)
    (h : k ∉ o.map Prod.fst) (hi : arrayIndex? k = none) (hp : k ≠ str "__proto__") :
    setProp o k v = o ++ [(k, v)] := by
  rw [setProp, if_neg hp, defineProp_of_new o k v h hi]


/-! ## The PNG chunk walk on a well-formed chunk sequence -/

theorem byteAt_append_right (pre rest : Buffer) (i : Nat) :
    byteAt (pre ++ rest) (pre.length + i) = byteAt rest i := by
  unfold byteAt
  rw [List.getD_append_right _ _ _ _ (Nat.le_add_right _ _), Nat.add_sub_cancel_left]

theorem u32At_append_right (pre rest : Buffer) (i : Nat) :
    u32At (pre ++ rest) (pre.length + i) = u32At rest i := by
  unfold u32At
  rw [Nat.add_assoc pre.length i 1, Nat.add_assoc pre.length i 2, Nat.add_assoc pre.length i 3,
    byteAt_append_right, byteAt_append_right, byteAt_append_right, byteAt_append_right]

theorem u32At_be32 (n : Nat) (rest : Buffer) (hn : n < 2 ^ 32) : u32At (be32 n ++ rest) 0 = n := by
  simp only [u32At, byteAt, be32, List.cons_append, List.nil_append, List.getD_cons_zero,
    List.getD_cons_succ, Nat.zero_add]
  omega

theorem length_be32 (n : Nat) : (be32 n).length = 4 := rfl

theorem getString_append_right (pre rest : Buffer) (i n : Nat) :
    getString (pre ++ rest) (pre.length + i) n = getString rest i n := by
  unfold getString
  rw [List.drop_append]

theorem Chunk.length_bytes (c : Chunk) (h : c.WellFormed) :
    c.bytes.length = 12 + c.data.length := by
  obtain ⟨ht, hc, _⟩ := h
  simp only [Chunk.bytes, List.length_append, length_be32, ht, hc]
  omega

theorem getUint32_chunk (pre post : Buffer) (c : Chunk) (h : c.WellFormed) :
    getUint32 (pre ++ (c.bytes ++ post)) pre.length = .ok c.data.length := by
  have hlen := c.length_bytes h
  unfold getUint32
  rw [if_pos (by simp only [List.length_append]; omega)]
  have := u32At_append_right pre (c.bytes ++ post) 0
  rw [Nat.add_zero] at this
  rw [this]
  simp only [Chunk.bytes, List.append_assoc]
  rw [u32At_be32 _ _ h.2.2]

theorem getString_chunk (pre post : Buffer) (c : Chunk) (h : c.WellFormed) :
    getString (pre ++ (c.bytes ++ post)) (pre.length + 4) 4 = c.typeName := by
  rw [getString_append_right]
  simp only [Chunk.bytes, List.append_assoc, getString]
  have h4 : 4 = (be32 c.data.length).length := rfl
  rw [h4, List.drop_left, length_be32, ← h.1, List.take_left]
  rfl

theorem uint8Array_chunk (pre post : Buffer) (c : Chunk) (h : c.WellFormed) :
    uint8Array (pre ++ (c.bytes ++ post)) (pre.length + 8) (c.data.length : Int) = .ok c.data := by
  have hlen := c.length_bytes h
  unfold uint8Array
  rw [if_neg (by omega), Int.toNat_ofNat,
    if_pos (by simp only [List.length_append]; omega)]
  have h8 : pre.length + 8 = (pre ++ (be32 c.data.length ++ c.type)).length := by
    simp only [List.length_append, length_be32, h.1]
  have hbuf : pre ++ (c.bytes ++ post)
      = (pre ++ (be32 c.data.length ++ c.type)) ++ (c.data ++ (c.crc ++ post)) := by
    simp only [Chunk.bytes, List.append_assoc]
  rw [hbuf, h8, List.drop_left, List.take_left]

theorem pngWalk_chunk (pre post : Buffer) (c : Chunk) (h : c.WellFormed) (fuel : Nat)
    (metadata : JSObj JSString) :
    pngWalk (pre ++ (c.bytes ++ post)) (fuel + 1) pre.length metadata =
      if c.typeName = str "IEND" then
        .ok (pre.length + (12 + c.data.length), chunkEffect c metadata)
      else
        pngWalk (pre ++ (c.bytes ++ post)) fuel (pre.length + (12 + c.data.length))
          (chunkEffect c metadata) := by
  have hlen := c.length_bytes h
  rw [pngWalk, if_pos (by simp only [List.length_append]; omega), getUint32_chunk pre post c h]
  simp only [getString_chunk pre post c h, uint8Array_chunk pre post c h, chunkEffect]
  by_cases ht : c.typeName = str "tEXt" ∨ c.typeName = str "iTXt" ∨ c.typeName = str "zTXt"
  · simp only [if_pos ht, Except.map]
  · simp only [if_neg ht]

theorem pngWalk_chunks (cs : List Chunk) :
    ∀ (pre post : Buffer) (fuel : Nat) (metadata : JSObj JSString),
      (∀ c ∈ cs, c.WellFormed) → cs.length ≤ fuel →
      (post.length ≤ 8 ∨ ∃ c ∈ cs, c.typeName = str "IEND") →
      ∃ offset, pngWalk (pre ++ (cs.flatMap Chunk.bytes ++ post)) fuel pre.length metadata
          = .ok (offset, chunkFields cs metadata)
        ∧ pre.length + 12 * min cs.length 1 ≤ offset := by
  induction cs with
  | nil =>
    intro pre post fuel metadata _ _ hpost
    have hp : post.length ≤ 8 := by
      rcases hpost with h | ⟨c, hc, _⟩
      · exact h
      · cases hc
    refine ⟨pre.length, ?_, by simp⟩
    have hcond : ¬ pre.length + 8 < (pre ++ ([] ++ post)).length := by
      simp only [List.nil_append, List.length_append]; omega
    cases fuel with
    | zero => simp only [List.flatMap_nil, pngWalk, if_neg hcond, chunkFields]
    | succ f => simp only [List.flatMap_nil, pngWalk, if_neg hcond, chunkFields]
  | cons c cs ih =>
    intro pre post fuel metadata hwf hfuel hpost
    have hc : c.WellFormed := hwf c (List.mem_cons_self _ _)
    obtain ⟨f, rfl⟩ : ∃ f, fuel = f + 1 := ⟨fuel - 1, by simp at hfuel; omega⟩
    have hbuf : pre ++ ((c :: cs).flatMap Chunk.bytes ++ post)
        = pre ++ (c.bytes ++ (cs.flatMap Chunk.bytes ++ post)) := by
      simp only [List.flatMap_cons, List.append_assoc]
    have hmin : min (c :: cs).length 1 = 1 := by simp
    rw [hbuf, pngWalk_chunk pre _ c hc f metadata, hmin]
    by_cases hiend : c.typeName = str "IEND"
    · refine ⟨pre.length + (12 + c.data.length), ?_, by omega⟩
      simp only [if_pos hiend, chunkFields]
    · have hpost' : post.length ≤ 8 ∨ ∃ x ∈ cs, x.typeName = str "IEND" := by
        rcases hpost with h | ⟨x, hx, hxi⟩
        · exact Or.inl h
        · rcases List.mem_cons.1 hx with rfl | hx'
          · exact absurd hxi hiend
          · exact Or.inr ⟨x, hx', hxi⟩
      have hlen : (pre ++ c.bytes).length = pre.length + (12 + c.data.length) := by
        rw [List.length_append, c.length_bytes hc]
      obtain ⟨offset, hwalk, hoff⟩ := ih (pre ++ c.bytes) post f (chunkEffect c metadata)
        (fun x hx => hwf x (List.mem_cons_of_mem _ hx)) (by simp at hfuel; omega) hpost'
      refine ⟨offset, ?_, by omega⟩
      rw [if_neg hiend, ← hlen, ← List.append_assoc pre c.bytes]
      simp only [chunkFields, if_neg hiend]
      exact hwalk

theorem length_flatMap_bytes_ge (cs : List Chunk) (hwf : ∀ c ∈ cs, c.WellFormed) :
    12 * cs.length ≤ (cs.flatMap Chunk.bytes).length := by
  induction cs with
  | nil => simp
  | cons c cs ih =>
    have hc := c.length_bytes (hwf c (List.mem_cons_self _ _))
    have := ih fun x hx => hwf x (List.mem_cons_of_mem _ hx)
    simp only [List.flatMap_cons, List.length_append, List.length_cons]
    omega

/-- The field map before prompt extraction, for a file made of well-formed chunks. -/
theorem pngCollect_chunks (cs : List Chunk) (post : Buffer) (hwf : ∀ c ∈ cs, c.WellFormed)
    (hne : cs ≠ []) (hpost : post.length ≤ 8 ∨ ∃ c ∈ cs, c.typeName = str "IEND")
    (hlen : 24 ≤ (pngFile cs ++ post).length) :
    pngCollect (pngFile cs ++ post)
      = .ok (withDimensions (chunkFields cs []) (u32At (pngFile cs ++ post) 16)
          (u32At (pngFile cs ++ post) 20)) := by
  have hbuf : pngFile cs ++ post = pngSignature ++ (cs.flatMap Chunk.bytes ++ post) := by
    simp only [pngFile, List.append_assoc]
  have hfuel : cs.length ≤ (pngFile cs ++ post).length := by
    have := length_flatMap_bytes_ge cs hwf
    rw [hbuf]
    simp only [List.length_append]
    omega
  obtain ⟨offset, hwalk, hoff⟩ :=
    pngWalk_chunks cs pngSignature post (pngFile cs ++ post).length [] hwf hfuel hpost
  have h8 : pngSignature.length = 8 := rfl
  rw [h8] at hwalk hoff
  have hmin : min cs.length 1 = 1 := by
    cases cs with
    | nil => exact absurd rfl hne
    | cons c cs => simp
  rw [hmin] at hoff
  unfold pngCollect
  rw [← hbuf] at hwalk
  rw [hwalk]
  simp only [getUint32]
  rw [if_pos (by omega : 16 ≤ offset), if_pos (by omega), if_pos (by omega)]


/-! ## Decimal numerals -/

theorem digitChar_toNat (d : Nat) (h : d < 10) : (Nat.digitChar d).toNat - 48 = d := by
  interval_cases d <;> rfl

theorem decimalValue_append_single (xs : JSString) (c : Nat) :
    decimalValue (xs ++ [c]) = decimalValue xs * 10 + (c - 48) := by
  simp [decimalValue, List.foldl_append]

theorem toDigitsCore_spec (fuel : Nat) : ∀ (n : Nat) (ds : List Char), n < fuel →
    ∃ xs : List Char, Nat.toDigitsCore 10 fuel n ds = xs ++ ds
      ∧ decimalValue (xs.map Char.toNat) = n := by
  induction fuel with
  | zero => intro n ds h; omega
  | succ f ih =>
    intro n ds h
    rw [Nat.toDigitsCore]
    by_cases h0 : n / 10 = 0
    · refine ⟨[Nat.digitChar (n % 10)], by simp [h0], ?_⟩
      have := digitChar_toNat (n % 10) (Nat.mod_lt _ (by decide))
      simp only [List.map_cons, List.map_nil, decimalValue, List.foldl_cons, List.foldl_nil]
      omega
    · obtain ⟨xs, hxs, hval⟩ := ih (n / 10) (Nat.digitChar (n % 10) :: ds) (by omega)
      refine ⟨xs ++ [Nat.digitChar (n % 10)], by simp [h0, hxs], ?_⟩
      have := digitChar_toNat (n % 10) (Nat.mod_lt _ (by decide))
      rw [List.map_append, List.map_cons, List.map_nil, decimalValue_append_single, hval]
      omega

/-- Reading a decimal numeral gives the number back. -/
theorem decimalValue_decimal (n : Nat) : decimalValue (decimal n) = n := by
  obtain ⟨xs, hxs, hval⟩ := toDigitsCore_spec (n + 1) n [] (Nat.lt_succ_self n)
  unfold decimal Nat.toDigits
  rw [hxs, List.append_nil]
  exact hval

theorem decimal_injective {m n : Nat} (h : decimal m = decimal n) : m = n := by
  have := congrArg decimalValue h
  rwa [decimalValue_decimal, decimalValue_decimal] at this

/-! ## Signature detection -/

theorem byteAt_eq_getElem (buf : Buffer) (i : Nat) (h : i < buf.length) :
    byteAt buf i = (buf[i]).val := by
  simp [byteAt, List.getD_eq_getElem?_getD, List.getElem?_eq_getElem h]

theorem sigMatchFrom_iff (buf : Buffer) (p : List (Option Nat)) (i : Nat)
    (h : i + p.length ≤ buf.length) :
    sigMatchFrom buf p i = true ↔
      p = ((buf.drop i).take p.length).map fun b => some b.val := by
  induction p generalizing i with
  | nil => simp [sigMatchFrom]
  | cons s rest ih =>
    have hi : i < buf.length := by simp at h; omega
    have hrest : (i + 1) + rest.length ≤ buf.length := by simp at h; omega
    have hd : buf.drop i = buf[i] :: buf.drop (i + 1) := List.drop_eq_getElem_cons hi
    rw [sigMatchFrom, if_pos hi, hd, byteAt_eq_getElem buf i hi]
    simp only [List.length_cons, List.take_succ_cons, List.map_cons, List.cons.injEq]
    by_cases hs : some (buf[i]).val = s
    · rw [if_neg (not_not.mpr hs), ih (i + 1) hrest]
      exact ⟨fun h => ⟨hs.symm, h⟩, fun h => h.2⟩
    · rw [if_pos hs]
      exact ⟨fun hf => (by cases hf), fun hf => absurd hf.1.symm hs⟩

theorem sigMatch_iff_bufferPrefix (buf : Buffer) (p : List (Option Nat)) (h : p.length ≤ buf.length) :
    sigMatchFrom buf p 0 = true ↔ p = bufferPrefix buf p.length := by
  have := sigMatchFrom_iff buf p 0 (by omega)
  simpa [bufferPrefix] using this

set_option maxRecDepth 100000 in
theorem signatures_prefix_free :
    ∀ e₁ ∈ signatures, ∀ e₂ ∈ signatures, sigBytes e₁.1 <+: sigBytes e₂.1 → e₁ = e₂ := by
  decide

set_option maxRecDepth 100000 in
theorem signatures_length_le : ∀ e ∈ signatures, (sigBytes e.1).length ≤ 4 := by
  decide


theorem bufferPrefix_isPrefix (buf : Buffer) (n : Nat) :
    bufferPrefix buf n <+: buf.map fun b => some b.val := by
  unfold bufferPrefix
  rw [List.map_take]
  exact List.take_prefix n _

theorem signatures_match_unique (buf : Buffer) (hlen : 4 ≤ buf.length)
    (e₁ e₂ : JSString × JSString) (h₁ : e₁ ∈ signatures) (h₂ : e₂ ∈ signatures)
    (m₁ : sigMatchFrom buf (sigBytes e₁.1) 0 = true)
    (m₂ : sigMatchFrom buf (sigBytes e₂.1) 0 = true) : e₁ = e₂ := by
  have l₁ := signatures_length_le e₁ h₁
  have l₂ := signatures_length_le e₂ h₂
  have p₁ := (sigMatch_iff_bufferPrefix buf _ (by omega)).1 m₁
  have p₂ := (sigMatch_iff_bufferPrefix buf _ (by omega)).1 m₂
  have q₁ : sigBytes e₁.1 <+: buf.map fun b => some b.val := by
    rw [p₁]; exact bufferPrefix_isPrefix buf _
  have q₂ : sigBytes e₂.1 <+: buf.map fun b => some b.val := by
    rw [p₂]; exact bufferPrefix_isPrefix buf _
  rcases List.prefix_or_prefix_of_prefix q₁ q₂ with h | h
  · exact signatures_prefix_free e₁ h₁ e₂ h₂ h
  · exact (signatures_prefix_free e₂ h₂ e₁ h₁ h).symm

/-- C3: a buffer of at least four bytes that starts with the pattern of a table entry is
given exactly the label of that entry, whatever bytes follow. -/
theorem detectFileSignature_of_pattern (buf : Buffer) (sig label : JSString)
    (hentry : (sig, label) ∈ signatures) (hlen : 4 ≤ buf.length)
    (hpat : bufferPrefix buf (sigBytes sig).length = sigBytes sig) :
    detectFileSignature buf = some label := by
  have hl := signatures_length_le (sig, label) hentry
  have hmatch : sigMatchFrom buf (sigBytes sig) 0 = true :=
    (sigMatch_iff_bufferPrefix buf _ (by simp only at hl; omega)).2 hpat.symm
  unfold detectFileSignature
  rw [if_neg (by omega)]
  cases hfind : signatures.find? (fun e => sigMatchFrom buf (sigBytes e.1) 0) with
  | none =>
    have hno := List.find?_eq_none.1 hfind (sig, label) hentry
    exact absurd hmatch hno
  | some e =>
    have he : e ∈ signatures := List.mem_of_find?_eq_some hfind
    have hem : sigMatchFrom buf (sigBytes e.1) 0 = true :=
      by simpa using List.find?_some hfind
    have heq := signatures_match_unique buf hlen e (sig, label) he hentry hem hmatch
    rw [heq]
    rfl

set_option maxRecDepth 100000 in
/-- The four examples of C3, with arbitrary bytes after the pattern. -/
theorem detectFileSignature_of_pattern_witness :
    detectFileSignature [0x89, 0x50, 0x4E, 0x47, 1, 2] = some (str "PNG Image")
    ∧ detectFileSignature [0x50, 0x4B, 0x03, 0x04] = some (str "ZIP Archive")
    ∧ detectFileSignature [0x49, 0x44, 0x33, 0xFF, 0xFB] = some (str "MP3 with ID3")
    ∧ detectFileSignature [0x7B, 0x5B, 0x42, 0x4D] = some (str "JSON (possible)") :=
  ⟨detectFileSignature_of_pattern _ (str "89504E47") _ (by decide) (by decide) (by decide),
   detectFileSignature_of_pattern _ (str "504B0304") _ (by decide) (by decide) (by decide),
   detectFileSignature_of_pattern _ (str "494433") _ (by decide) (by decide) (by decide),
   detectFileSignature_of_pattern _ (str "7B") _ (by decide) (by decide) (by decide)⟩

/-- C4: a buffer shorter than four bytes has no label, and a buffer of at least four
bytes has none exactly when no pattern of the table equals its prefix of the same length. -/
theorem detectFileSignature_eq_none (buf : Buffer) :
    (buf.length < 4 → detectFileSignature buf = none)
    ∧ (4 ≤ buf.length →
        (detectFileSignature buf = none ↔
          ∀ e ∈ signatures, sigBytes e.1 ≠ bufferPrefix buf (sigBytes e.1).length)) := by
  refine ⟨fun h => by simp [detectFileSignature, h], fun hlen => ?_⟩
  unfold detectFileSignature
  rw [if_neg (by omega), Option.map_eq_none', List.find?_eq_none]
  constructor
  · intro h e he hp
    have hl := signatures_length_le e he
    exact h e he ((sigMatch_iff_bufferPrefix buf _ (by omega)).2 hp)
  · intro h e he hm
    have hl := signatures_length_le e he
    exact h e he ((sigMatch_iff_bufferPrefix buf _ (by omega)).1 hm)

set_option maxRecDepth 100000 in
theorem detectFileSignature_eq_none_witness :
    detectFileSignature [0, 0, 0] = none
    ∧ (detectFileSignature [0, 0, 0, 0] = none ↔
        ∀ e ∈ signatures, sigBytes e.1 ≠ bufferPrefix [0, 0, 0, 0] (sigBytes e.1).length) :=
  ⟨(detectFileSignature_eq_none [0, 0, 0]).1 (by decide),
   (detectFileSignature_eq_none [0, 0, 0, 0]).2 (by decide)⟩

/-! ## Faults that leave the image parsers -/

/-- C1: the truncated JPEG `FF D8 FF E0 00` and an APP1 segment of declared length 1 make
`parseFileMetadata` fail with a RangeError whatever the declared type is. -/
theorem parseFileMetadata_jpeg_raises (file : File) :
    parseFileMetadata file [0xFF, 0xD8, 0xFF, 0xE0, 0x00] = .error .rangeError
    ∧ parseFileMetadata file [0xFF, 0xD8, 0xFF, 0xE1, 0x00, 0x01, 0x00, 0x00]
        = .error .rangeError := by
  have hinc : signatureIncludes (some (str "JPEG Image")) (str "Image") = true := by decide
  constructor
  · have hsig : detectFileSignature [0xFF, 0xD8, 0xFF, 0xE0, 0x00] = some (str "JPEG Image") := by
      decide
    have himg : parseImageMetadata [0xFF, 0xD8, 0xFF, 0xE0, 0x00] = .error .rangeError := rfl
    simp only [parseFileMetadata, parseByType, hsig, hinc, himg, Bool.or_true, if_true]
  · have hsig : detectFileSignature [0xFF, 0xD8, 0xFF, 0xE1, 0x00, 0x01, 0x00, 0x00]
        = some (str "JPEG Image") := by decide
    have himg : parseImageMetadata [0xFF, 0xD8, 0xFF, 0xE1, 0x00, 0x01, 0x00, 0x00]
        = .error .rangeError := rfl
    simp only [parseFileMetadata, parseByType, hsig, hinc, himg, Bool.or_true, if_true]

/-- C2: a `tEXt` chunk that declares 16 bytes of data and holds one makes `parsePNGChunks`
fail with a RangeError when the data is taken; so does the same chunk with the type
`IDAT`, when the width is read after the walk. -/
theorem parsePNGChunks_truncated_raises :
    parsePNGChunks (pngSignature ++ be32 16 ++ ascii "tEXt" ++ [0x41]) = .error .rangeError
    ∧ parsePNGChunks (pngSignature ++ be32 16 ++ ascii "IDAT" ++ [0x41]) = .error .rangeError :=
  ⟨rfl, rfl⟩


/-! ## PNG with a single IHDR chunk -/

theorem extractTextsFromJSON_undefined : extractTextsFromJSON none = .ok [] := rfl

theorem withDimensions_nil (width height : Nat) :
    withDimensions [] width height
      = [(str "Image Width", decimal width), (str "Image Height", decimal height),
         (str "Image Size", decimal width ++ str "x" ++ decimal height)] := by
  unfold withDimensions
  rw [setProp_of_new [] _ _ (List.not_mem_nil _) (by decide) (by decide),
    setProp_of_new ([] ++ [(str "Image Width", decimal width)]) _ _
      (by simp only [List.nil_append, List.map_cons, List.map_nil]; decide) (by decide)
      (by decide),
    setProp_of_new
      ([] ++ [(str "Image Width", decimal width)] ++ [(str "Image Height", decimal height)]) _ _
      (by simp only [List.nil_append, List.cons_append, List.map_cons, List.map_nil]; decide)
      (by decide) (by decide)]
  rfl

/-- C5: a PNG made of the signature, one IHDR chunk of width `w` and height `h` and an
IEND chunk yields exactly the three dimension fields, and `w`, `h` are the big-endian
32-bit integers at offsets 16 and 20. -/
theorem parsePNGChunks_ihdr (w h : Nat) (tail crc₁ crc₂ : Buffer) (hw : w < 2 ^ 32)
    (hh : h < 2 ^ 32) (htail : tail.length = 5) (hc₁ : crc₁.length = 4)
    (hc₂ : crc₂.length = 4) :
    parsePNGChunks
        (pngFile [⟨ascii "IHDR", be32 w ++ be32 h ++ tail, crc₁⟩, ⟨ascii "IEND", [], crc₂⟩])
      = .ok [(str "Image Width", .str (decimal w)), (str "Image Height", .str (decimal h)),
          (str "Image Size", .str (decimal w ++ str "x" ++ decimal h))]
    ∧ u32At (pngFile [⟨ascii "IHDR", be32 w ++ be32 h ++ tail, crc₁⟩, ⟨ascii "IEND", [], crc₂⟩])
        16 = w
    ∧ u32At (pngFile [⟨ascii "IHDR", be32 w ++ be32 h ++ tail, crc₁⟩, ⟨ascii "IEND", [], crc₂⟩])
        20 = h := by
  have hw16 : u32At (pngFile [⟨ascii "IHDR", be32 w ++ be32 h ++ tail, crc₁⟩,
      ⟨ascii "IEND", [], crc₂⟩]) 16 = w := by
    have hbuf : pngFile [⟨ascii "IHDR", be32 w ++ be32 h ++ tail, crc₁⟩, ⟨ascii "IEND", [], crc₂⟩]
        = (pngSignature ++ be32 (be32 w ++ be32 h ++ tail).length ++ ascii "IHDR")
          ++ (be32 w ++ (be32 h ++ tail ++ crc₁ ++ Chunk.bytes ⟨ascii "IEND", [], crc₂⟩)) := by
      simp only [pngFile, List.flatMap_cons, List.flatMap_nil, Chunk.bytes, List.append_assoc,
        List.append_nil]
    have h16 : 16 = (pngSignature ++ be32 (be32 w ++ be32 h ++ tail).length
        ++ ascii "IHDR").length + 0 := rfl
    rw [hbuf, h16, u32At_append_right, u32At_be32 w _ hw]
  have hh20 : u32At (pngFile [⟨ascii "IHDR", be32 w ++ be32 h ++ tail, crc₁⟩,
      ⟨ascii "IEND", [], crc₂⟩]) 20 = h := by
    have hbuf : pngFile [⟨ascii "IHDR", be32 w ++ be32 h ++ tail, crc₁⟩, ⟨ascii "IEND", [], crc₂⟩]
        = (pngSignature ++ be32 (be32 w ++ be32 h ++ tail).length ++ ascii "IHDR" ++ be32 w)
          ++ (be32 h ++ (tail ++ crc₁ ++ Chunk.bytes ⟨ascii "IEND", [], crc₂⟩)) := by
      simp only [pngFile, List.flatMap_cons, List.flatMap_nil, Chunk.bytes, List.append_assoc,
        List.append_nil]
    have h20 : 20 = (pngSignature ++ be32 (be32 w ++ be32 h ++ tail).length
        ++ ascii "IHDR" ++ be32 w).length + 0 := rfl
    rw [hbuf, h20, u32At_append_right, u32At_be32 h _ hh]
  refine ⟨?_, hw16, hh20⟩
  have hwf : ∀ c ∈ [(⟨ascii "IHDR", be32 w ++ be32 h ++ tail, crc₁⟩ : Chunk),
      ⟨ascii "IEND", [], crc₂⟩], c.WellFormed := by
    intro c hc
    simp only [List.mem_cons, List.mem_singleton, List.not_mem_nil, or_false] at hc
    rcases hc with rfl | rfl
    · refine ⟨rfl, hc₁, ?_⟩
      simp only [List.length_append, length_be32, htail]
      decide
    · exact ⟨rfl, hc₂, Nat.pos_of_ne_zero (by decide)⟩
  have hcollect := pngCollect_chunks
    [⟨ascii "IHDR", be32 w ++ be32 h ++ tail, crc₁⟩, ⟨ascii "IEND", [], crc₂⟩] [] hwf
    (by simp) (Or.inl (by simp))
    (by
      simp only [pngFile, List.flatMap_cons, List.flatMap_nil, Chunk.bytes, List.length_append,
        length_be32, htail, hc₁, hc₂, List.append_nil]
      decide)
  rw [List.append_nil] at hcollect
  have hfields : chunkFields [(⟨ascii "IHDR", be32 w ++ be32 h ++ tail, crc₁⟩ : Chunk),
      ⟨ascii "IEND", [], crc₂⟩] [] = [] := by
    have h1 : (⟨ascii "IHDR", be32 w ++ be32 h ++ tail, crc₁⟩ : Chunk).typeName = str "IHDR" :=
      rfl
    have h2 : (⟨ascii "IEND", [], crc₂⟩ : Chunk).typeName = str "IEND" := rfl
    have e1 : ¬ str "IHDR" = str "IEND" := by decide
    have e2 : ¬ (str "IHDR" = str "tEXt" ∨ str "IHDR" = str "iTXt" ∨ str "IHDR" = str "zTXt") := by
      decide
    have e3 : ¬ (str "IEND" = str "tEXt" ∨ str "IEND" = str "iTXt" ∨ str "IEND" = str "zTXt") := by
      decide
    rw [chunkFields, h1, if_neg e1, chunkFields, h2, if_pos rfl, chunkEffect, h2, if_neg e3,
      chunkEffect, h1, if_neg e2]
  rw [hfields, hw16, hh20, withDimensions_nil] at hcollect
  unfold parsePNGChunks
  rw [hcollect]
  have hprompt : getProp [(str "Image Width", decimal w), (str "Image Height", decimal h),
      (str "Image Size", decimal w ++ str "x" ++ decimal h)] (str "prompt") = none := by
    apply getProp_eq_none_of_not_mem
    simp only [List.map_cons, List.map_nil]
    decide
  simp only [hprompt, extractTextsFromJSON_undefined, buildNewMetadata, List.length_nil,
    if_true, strFields, List.map_cons, List.map_nil]

/-- The example of C5: width 100 and height 50. -/
theorem parsePNGChunks_ihdr_witness :
    parsePNGChunks
        (pngFile [⟨ascii "IHDR", be32 100 ++ be32 50 ++ [8, 6, 0, 0, 0], [1, 2, 3, 4]⟩,
          ⟨ascii "IEND", [], [0xAE, 0x42, 0x60, 0x82]⟩])
      = .ok [(str "Image Width", .str (decimal 100)), (str "Image Height", .str (decimal 50)),
          (str "Image Size", .str (decimal 100 ++ str "x" ++ decimal 50))]
    ∧ u32At (pngFile [⟨ascii "IHDR", be32 100 ++ be32 50 ++ [8, 6, 0, 0, 0], [1, 2, 3, 4]⟩,
          ⟨ascii "IEND", [], [0xAE, 0x42, 0x60, 0x82]⟩]) 16 = 100
    ∧ u32At (pngFile [⟨ascii "IHDR", be32 100 ++ be32 50 ++ [8, 6, 0, 0, 0], [1, 2, 3, 4]⟩,
          ⟨ascii "IEND", [], [0xAE, 0x42, 0x60, 0x82]⟩]) 20 = 50 :=
  parsePNGChunks_ihdr 100 50 [8, 6, 0, 0, 0] [1, 2, 3, 4] [0xAE, 0x42, 0x60, 0x82]
    (by decide) (by decide) rfl rfl rfl


/-! ## JSON.parse never runs out of fuel -/

theorem skipWs_length_le (s : JSString) : (skipWs s).length ≤ s.length := by
  induction s with
  | nil => simp [skipWs]
  | cons c rest ih =>
    rw [skipWs]
    split
    · simp only [List.length_cons]; omega
    · exact Nat.le_refl _

theorem parseStringBody_length (n : Nat) : ∀ (s acc : JSString) (v rest : JSString),
    s.length ≤ n → parseStringBody s acc = .ok (v, rest) → rest.length < s.length := by
  induction n with
  | zero =>
    intro s acc v rest hn h
    have : s = [] := List.length_eq_zero.1 (by omega)
    subst this
    simp [parseStringBody] at h
  | succ n ih =>
    intro s acc v rest hn h
    unfold parseStringBody at h
    split at h
    · cases h
    · cases h; simp
    · split at h
      · have := ih _ _ _ _ (by simp only [List.length_cons] at hn; omega) h
        simp only [List.length_cons]; omega
      · cases h
    · split at h
      · have := ih _ _ _ _ (by simp only [List.length_cons] at hn; omega) h
        simp only [List.length_cons]; omega
      · split at h
        · have := ih _ _ _ _ (by simp only [List.length_cons] at hn; omega) h
          simp only [List.length_cons]; omega
        · split at h
          · have := ih _ _ _ _ (by simp only [List.length_cons] at hn; omega) h
            simp only [List.length_cons]; omega
          · split at h
            · have := ih _ _ _ _ (by simp only [List.length_cons] at hn; omega) h
              simp only [List.length_cons]; omega
            · split at h
              · have := ih _ _ _ _ (by simp only [List.length_cons] at hn; omega) h
                simp only [List.length_cons]; omega
              · split at h
                · have := ih _ _ _ _ (by simp only [List.length_cons] at hn; omega) h
                  simp only [List.length_cons]; omega
                · cases h
    · cases h
    · split at h
      · cases h
      · have := ih _ _ _ _ (by simp only [List.length_cons] at hn; omega) h
        simp only [List.length_cons]; omega

theorem length_dropWhile_le (p : Nat → Bool) (s : JSString) :
    (s.dropWhile p).length ≤ s.length := by
  induction s with
  | nil => simp
  | cons c rest ih =>
    rw [List.dropWhile_cons]
    split
    · simp only [List.length_cons]; omega
    · exact Nat.le_refl _

theorem length_takeWhile_le (p : Nat → Bool) (s : JSString) :
    (s.takeWhile p).length ≤ s.length := by
  induction s with
  | nil => simp
  | cons c rest ih =>
    rw [List.takeWhile_cons]
    split
    · simp only [List.length_cons]; omega
    · simp

theorem stripSign_length_le (s : JSString) : (stripSign s).2.length ≤ s.length := by
  unfold stripSign
  split <;> simp

theorem stripMinus_length_le (s : JSString) : (stripMinus s).2.length ≤ s.length := by
  unfold stripMinus
  split <;> simp

theorem parseExponent_length (s : JSString) (e : Int) (rest : JSString)
    (h : parseExponent s = .ok (e, rest)) : rest.length ≤ s.length := by
  unfold parseExponent at h
  split at h
  · rename_i c t
    split at h
    · split at h
      · cases h
      · cases h
        have h1 := length_dropWhile_le isDigit (stripSign t).2
        have h2 := stripSign_length_le t
        simp only [List.length_cons]
        omega
    · cases h; exact Nat.le_refl _
  · cases h; exact Nat.le_refl _

theorem intDigitsOf_length_le (s : JSString) : (intDigitsOf s).length ≤ s.length := by
  unfold intDigitsOf
  split
  · simp
  · exact length_takeWhile_le _ _

theorem parseNumber_length (s : JSString) (v : JSValue) (rest : JSString)
    (h : parseNumber s = .ok (v, rest)) : rest.length < s.length := by
  unfold parseNumber at h
  split at h
  · cases h
  · rename_i hne
    have hpos : 0 < (intDigitsOf (stripMinus s).2).length := by
      cases hd : intDigitsOf (stripMinus s).2 with
      | nil => rw [hd] at hne; simp at hne
      | cons a b => simp
    have h1 := intDigitsOf_length_le (stripMinus s).2
    have h2 := stripMinus_length_le s
    have hdrop : ((stripMinus s).2.drop (intDigitsOf (stripMinus s).2).length).length
        < s.length := by
      rw [List.length_drop]; omega
    split at h
    · rename_i r heq
      rw [heq] at hdrop
      split at h
      · cases h
      · split at h
        · rename_i e rest' hexp
          cases h
          have h3 := parseExponent_length _ _ _ hexp
          have h4 := length_dropWhile_le isDigit r
          simp only [List.length_cons] at hdrop
          omega
        · cases h
    · split at h
      · rename_i e rest' hexp
        cases h
        have h3 := parseExponent_length _ _ _ hexp
        omega
      · cases h


theorem parseStringBody_error (n : Nat) : ∀ (s acc : JSString) (err : JSError),
    s.length ≤ n → parseStringBody s acc = .error err → err = .syntaxError := by
  induction n with
  | zero =>
    intro s acc err hn h
    have : s = [] := List.length_eq_zero.1 (by omega)
    subst this
    simp only [parseStringBody] at h
    cases h; rfl
  | succ n ih =>
    intro s acc err hn h
    unfold parseStringBody at h
    repeat' split at h
    all_goals first
      | (cases h; rfl)
      | cases h
      | exact ih _ _ _ (by simp only [List.length_cons] at hn; omega) h

theorem parseExponent_error (s : JSString) (err : JSError)
    (h : parseExponent s = .error err) : err = .syntaxError := by
  unfold parseExponent at h
  repeat' split at h
  all_goals first
    | (cases h; rfl)
    | cases h

theorem parseNumber_error (s : JSString) (err : JSError)
    (h : parseNumber s = .error err) : err = .syntaxError := by
  unfold parseNumber at h
  repeat' split at h
  all_goals first
    | (cases h; rfl)
    | (cases h; exact parseExponent_error _ _ (by assumption))
    | cases h


theorem parse_fuel (fuel : Nat) :
    (∀ s, (2 * s.length + 1 ≤ fuel → parseValue fuel s ≠ .error .outOfFuel)
        ∧ ∀ v rest, parseValue fuel s = .ok (v, rest) → rest.length < s.length)
    ∧ (∀ s acc, (2 * s.length + 2 ≤ fuel → parseElements fuel s acc ≠ .error .outOfFuel)
        ∧ ∀ v rest, parseElements fuel s acc = .ok (v, rest) → rest.length < s.length)
    ∧ (∀ s acc, (2 * s.length + 2 ≤ fuel → parseMembers fuel s acc ≠ .error .outOfFuel)
        ∧ ∀ v rest, parseMembers fuel s acc = .ok (v, rest) → rest.length < s.length) := by
  induction fuel with
  | zero =>
    refine ⟨fun s => ⟨fun h => (by omega), fun v rest h => ?_⟩,
      fun s acc => ⟨fun h => (by omega), fun v rest h => ?_⟩,
      fun s acc => ⟨fun h => (by omega), fun v rest h => ?_⟩⟩
    · simp [parseValue] at h
    · simp [parseElements] at h
    · simp [parseMembers] at h
  | succ f ih =>
    obtain ⟨ihV, ihE, ihM⟩ := ih
    refine ⟨fun s => ?_, fun s acc => ?_, fun s acc => ?_⟩
    · have hws := skipWs_length_le s
      rw [parseValue]
      split
      · rename_i heq
        exact ⟨fun _ h => (by cases h), fun v rest h => (by cases h)⟩
      · rename_i t heq
        rw [heq] at hws
        simp only [List.length_cons] at hws
        split
        · rename_i k rest' hk
          have := parseStringBody_length _ _ _ _ _ (Nat.le_refl _) hk
          exact ⟨fun _ h => (by cases h), fun v rest h => (by cases h; omega)⟩
        · rename_i err hk
          have := parseStringBody_error _ _ _ _ (Nat.le_refl _) hk
          subst this
          exact ⟨fun _ h => (by cases h), fun v rest h => (by cases h)⟩
      · rename_i t heq
        rw [heq] at hws
        simp only [List.length_cons] at hws
        have hws2 := skipWs_length_le t
        split
        · rename_i t2 heq2
          rw [heq2] at hws2
          simp only [List.length_cons] at hws2
          exact ⟨fun _ h => (by cases h), fun v rest h => (by cases h; omega)⟩
        · rename_i t2 hne
          obtain ⟨hM1, hM2⟩ := ihM (skipWs t) []
          exact ⟨fun hf => hM1 (by omega), fun v rest h => (by have := hM2 v rest h; omega)⟩
      · rename_i t heq
        rw [heq] at hws
        simp only [List.length_cons] at hws
        have hws2 := skipWs_length_le t
        split
        · rename_i t2 heq2
          rw [heq2] at hws2
          simp only [List.length_cons] at hws2
          exact ⟨fun _ h => (by cases h), fun v rest h => (by cases h; omega)⟩
        · rename_i t2 hne
          obtain ⟨hE1, hE2⟩ := ihE (skipWs t) []
          exact ⟨fun hf => hE1 (by omega), fun v rest h => (by have := hE2 v rest h; omega)⟩
      · rename_i t heq
        rw [heq] at hws
        simp only [List.length_cons] at hws
        exact ⟨fun _ h => (by cases h), fun v rest h => (by cases h; omega)⟩
      · rename_i t heq
        rw [heq] at hws
        simp only [List.length_cons] at hws
        exact ⟨fun _ h => (by cases h), fun v rest h => (by cases h; omega)⟩
      · rename_i t heq
        rw [heq] at hws
        simp only [List.length_cons] at hws
        exact ⟨fun _ h => (by cases h), fun v rest h => (by cases h; omega)⟩
      · rename_i c t _ _ _ _ _ _ heq
        rw [heq] at hws
        simp only [List.length_cons] at hws
        split
        · refine ⟨fun _ h => ?_, fun v rest h => ?_⟩
          · have := parseNumber_error _ _ h
            cases this
          · have := parseNumber_length _ _ _ h
            simp only [List.length_cons] at this
            omega
        · exact ⟨fun _ h => (by cases h), fun v rest h => (by cases h)⟩
    · rw [parseElements]
      obtain ⟨hV1, hV2⟩ := ihV s
      split
      · rename_i err hv
        refine ⟨fun hf h => ?_, fun v rest h => (by cases h)⟩
        cases h
        exact hV1 (by omega) hv
      · rename_i v rest hv
        have hp := hV2 v rest hv
        have hws := skipWs_length_le rest
        split
        · rename_i t heq
          rw [heq] at hws
          simp only [List.length_cons] at hws
          obtain ⟨hE1, hE2⟩ := ihE t (acc ++ [v])
          exact ⟨fun hf => hE1 (by omega), fun v' rest' h => (by have := hE2 v' rest' h; omega)⟩
        · rename_i t heq
          rw [heq] at hws
          simp only [List.length_cons] at hws
          exact ⟨fun _ h => (by cases h), fun v' rest' h => (by cases h; omega)⟩
        · exact ⟨fun _ h => (by cases h), fun v' rest' h => (by cases h)⟩
    · rw [parseMembers]
      have hws := skipWs_length_le s
      split
      · rename_i t heq
        rw [heq] at hws
        simp only [List.length_cons] at hws
        split
        · rename_i err hk
          have := parseStringBody_error _ _ _ _ (Nat.le_refl _) hk
          subst this
          exact ⟨fun _ h => (by cases h), fun v rest h => (by cases h)⟩
        · rename_i k rest hk
          have hk1 := parseStringBody_length _ _ _ _ _ (Nat.le_refl _) hk
          have hws2 := skipWs_length_le rest
          split
          · rename_i t2 heq2
            rw [heq2] at hws2
            simp only [List.length_cons] at hws2
            obtain ⟨hV1, hV2⟩ := ihV t2
            split
            · rename_i err hv
              refine ⟨fun hf h => ?_, fun v rest h => (by cases h)⟩
              cases h
              exact hV1 (by omega) hv
            · rename_i v rest2 hv
              have hp := hV2 v rest2 hv
              have hws3 := skipWs_length_le rest2
              split
              · rename_i t3 heq3
                rw [heq3] at hws3
                simp only [List.length_cons] at hws3
                obtain ⟨hM1, hM2⟩ := ihM t3 (defineProp acc k v)
                exact ⟨fun hf => hM1 (by omega),
                  fun v' rest' h => (by have := hM2 v' rest' h; omega)⟩
              · rename_i t3 heq3
                rw [heq3] at hws3
                simp only [List.length_cons] at hws3
                exact ⟨fun _ h => (by cases h), fun v' rest' h => (by cases h; omega)⟩
              · exact ⟨fun _ h => (by cases h), fun v' rest' h => (by cases h)⟩
          · exact ⟨fun _ h => (by cases h), fun v rest h => (by cases h)⟩
      · exact ⟨fun _ h => (by cases h), fun v rest h => (by cases h)⟩

/-- The parser of `JSON.parse` is given enough fuel for every text. -/
theorem jsonParse_ne_outOfFuel (text : JSString) : jsonParse text ≠ .error .outOfFuel := by
  unfold jsonParse
  have := ((parse_fuel (2 * text.length + 2)).1 text).1 (by omega)
  split
  · rename_i err h
    intro he
    cases he
    exact this h
  · split
    · intro h; cases h
    · intro h; cases h

/-- The prompt extractor always returns a list: every exception is caught. -/
theorem extractTextsFromJSON_total (jsonString : Option JSString) :
    ∃ texts, extractTextsFromJSON jsonString = .ok texts := by
  unfold extractTextsFromJSON
  have := jsonParse_ne_outOfFuel (jsonString.getD (str "undefined"))
  split
  · rename_i h; exact absurd h this
  · exact ⟨[], rfl⟩
  · exact ⟨_, rfl⟩


/-! ## Text chunks -/

theorem utf8Run_ascii_append (key rest : Buffer) (h : ∀ b ∈ key, b.val < 128) :
    utf8Run utf8Init (key ++ rest) = key.map Fin.val ++ utf8Run utf8Init rest := by
  induction key with
  | nil => rfl
  | cons b key ih =>
    have hb : b.val ≤ 0x7F := by
      have := h b (List.mem_cons_self _ _)
      omega
    have hstep : utf8Step utf8Init b.val = (utf8Init, [b.val]) := by
      simp only [utf8Step, utf8Init, if_true, utf8Lead, if_pos hb]
    rw [List.cons_append, utf8Run, hstep, ih fun x hx => h x (List.mem_cons_of_mem _ hx)]
    rfl

theorem toUtf16_cons_bmp (c : Nat) (cps : List Nat) (h : c < 0x10000) :
    toUtf16 (c :: cps) = c :: toUtf16 cps := by
  simp only [toUtf16, List.flatMap_cons, if_pos h, List.singleton_append]

theorem toUtf16_ascii_append (xs ys : List Nat) (h : ∀ x ∈ xs, x < 128) :
    toUtf16 (xs ++ ys) = xs ++ toUtf16 ys := by
  induction xs with
  | nil => rfl
  | cons x xs ih =>
    have hx : x < 0x10000 := by
      have := h x (List.mem_cons_self _ _)
      omega
    rw [List.cons_append, toUtf16_cons_bmp _ _ hx, ih fun y hy => h y (List.mem_cons_of_mem _ hy)]
    rfl

/-- The decoded payload of a `tEXt` chunk with an ASCII keyword. -/
theorem textDecode_keyword (key value : Buffer) (h : ∀ b ∈ key, b.val < 128) :
    textDecode (key ++ [0] ++ value) = key.map Fin.val ++ 0 :: utf8Body value := by
  have hrun : utf8Run utf8Init (key ++ [0] ++ value)
      = key.map Fin.val ++ 0 :: utf8Run utf8Init value := by
    rw [List.append_assoc, utf8Run_ascii_append key _ h]
    rfl
  have hmap : ∀ x ∈ key.map Fin.val, x < 128 := by
    intro x hx
    obtain ⟨b, hb, rfl⟩ := List.mem_map.1 hx
    exact h b hb
  have h16 : toUtf16 (key.map Fin.val ++ 0 :: utf8Run utf8Init value)
      = key.map Fin.val ++ 0 :: utf8Body value := by
    rw [toUtf16_ascii_append _ _ hmap, toUtf16_cons_bmp _ _ (by decide)]
    rfl
  unfold textDecode
  rw [hrun]
  split
  · rename_i cps heq
    cases key with
    | nil => simp at heq
    | cons b key =>
      simp only [List.map_cons, List.cons_append, List.cons.injEq] at heq
      have := h b (List.mem_cons_self _ _)
      omega
  · exact h16

theorem indexOfUnit_append (c : Nat) (xs ys : JSString) (h : c ∉ xs) :
    indexOfUnit c (xs ++ c :: ys) = some xs.length := by
  induction xs with
  | nil => simp [indexOfUnit]
  | cons x xs ih =>
    simp only [List.mem_cons, not_or] at h
    have hx : ¬ x = c := fun e => h.1 e.symm
    rw [List.cons_append, indexOfUnit, if_neg hx, ih h.2]
    rfl

/-- A `tEXt` chunk with an ASCII keyword without NUL assigns the text after the first NUL
to the keyword. -/
theorem chunkEffect_tEXt (c : Chunk) (key value : Buffer) (metadata : JSObj JSString)
    (htype : c.typeName = str "tEXt") (hdata : c.data = key ++ [0] ++ value)
    (hkey : ∀ b ∈ key, b.val ≠ 0 ∧ b.val < 128) :
    chunkEffect c metadata = setProp metadata (key.map Fin.val) (utf8Body value) := by
  have hdec := textDecode_keyword key value fun b hb => (hkey b hb).2
  have hnul : (0 : Nat) ∉ key.map Fin.val := by
    intro h0
    obtain ⟨b, hb, hb0⟩ := List.mem_map.1 h0
    exact (hkey b hb).1 hb0
  unfold chunkEffect
  rw [if_pos (Or.inl htype), htype, hdata, hdec, pngTextChunk, if_pos rfl,
    indexOfUnit_append 0 _ _ hnul]
  simp only [List.take_left, List.length_map]
  have hdrop : (key.map Fin.val ++ 0 :: utf8Body value).drop (key.length + 1)
      = utf8Body value := by
    have : key.map Fin.val ++ 0 :: utf8Body value
        = (key.map Fin.val ++ [0]) ++ utf8Body value := by simp
    rw [this]
    have hl : key.length + 1 = (key.map Fin.val ++ [0]).length := by simp
    rw [hl, List.drop_left]
  rw [hdrop]
  have htake : (key.map Fin.val ++ 0 :: utf8Body value).take key.length = key.map Fin.val := by
    have hl : key.length = (key.map Fin.val).length := by simp
    rw [hl, List.take_left]
  rw [htake]

theorem getProp_chunkEffect_of_ne (c : Chunk) (metadata : JSObj JSString) (k : JSString)
    (h : chunkKey? c ≠ some k) : getProp (chunkEffect c metadata) k = getProp metadata k := by
  unfold chunkEffect
  split
  · unfold pngTextChunk
    unfold chunkKey? at h
    split
    · rename_i ht
      rw [if_pos ht] at h
      split
      · rename_i i hi
        rw [hi] at h
        simp only [Option.map_some', ne_eq, Option.some.injEq] at h
        exact getProp_setProp_of_ne _ _ _ _ (fun e => h e.symm)
      · rfl
    · rename_i ht
      rw [if_neg ht] at h
      split
      · rename_i ht2
        rw [if_pos ht2] at h
        split
        · rename_i hl
          rw [if_pos hl] at h
          simp only [ne_eq, Option.some.injEq] at h
          exact getProp_setProp_of_ne _ _ _ _ (fun e => h e.symm)
        · rfl
      · rfl
  · rfl

theorem nodup_keys_chunkEffect (c : Chunk) (metadata : JSObj JSString)
    (h : (metadata.map Prod.fst).Nodup) : ((chunkEffect c metadata).map Prod.fst).Nodup := by
  unfold chunkEffect pngTextChunk
  repeat' split
  all_goals first
    | exact h
    | exact nodup_keys_setProp _ _ _ h

theorem nodup_keys_chunkFields (cs : List Chunk) : ∀ (metadata : JSObj JSString),
    (metadata.map Prod.fst).Nodup → ((chunkFields cs metadata).map Prod.fst).Nodup := by
  induction cs with
  | nil => intro metadata h; exact h
  | cons c cs ih =>
    intro metadata h
    rw [chunkFields]
    split
    · exact nodup_keys_chunkEffect c metadata h
    · exact ih _ (nodup_keys_chunkEffect c metadata h)

theorem getProp_chunkFields_of_ne (cs : List Chunk) (k : JSString)
    (h : ∀ c ∈ cs, chunkKey? c ≠ some k) : ∀ (metadata : JSObj JSString),
    getProp (chunkFields cs metadata) k = getProp metadata k := by
  induction cs with
  | nil => intro metadata; rfl
  | cons c cs ih =>
    intro metadata
    have hc := getProp_chunkEffect_of_ne c metadata k (h c (List.mem_cons_self _ _))
    rw [chunkFields]
    split
    · exact hc
    · rw [ih (fun x hx => h x (List.mem_cons_of_mem _ hx)), hc]

theorem chunkFields_append (before rest : List Chunk)
    (h : ∀ c ∈ before, c.typeName ≠ str "IEND") : ∀ (metadata : JSObj JSString),
    chunkFields (before ++ rest) metadata
      = chunkFields rest (before.foldl (fun m c => chunkEffect c m) metadata) := by
  induction before with
  | nil => intro metadata; rfl
  | cons c before ih =>
    intro metadata
    rw [List.cons_append, chunkFields, if_neg (h c (List.mem_cons_self _ _)),
      ih (fun x hx => h x (List.mem_cons_of_mem _ hx)), List.foldl_cons]

theorem getProp_withDimensions_of_ne (metadata : JSObj JSString) (width height : Nat)
    (k : JSString) (h₁ : k ≠ str "Image Width") (h₂ : k ≠ str "Image Height")
    (h₃ : k ≠ str "Image Size") :
    getProp (withDimensions metadata width height) k = getProp metadata k := by
  unfold withDimensions
  rw [getProp_setProp_of_ne _ _ _ _ h₃, getProp_setProp_of_ne _ _ _ _ h₂,
    getProp_setProp_of_ne _ _ _ _ h₁]

theorem nodup_keys_withDimensions (metadata : JSObj JSString) (width height : Nat)
    (h : (metadata.map Prod.fst).Nodup) :
    ((withDimensions metadata width height).map Prod.fst).Nodup :=
  nodup_keys_setProp _ _ _ (nodup_keys_setProp _ _ _ (nodup_keys_setProp _ _ _ h))

/-- The keys of a field map are distinct and none is `__proto__`. -/
theorem keys_pngTextChunk (type textStr : JSString) (metadata : JSObj JSString)
    (h : (metadata.map Prod.fst).Nodup ∧ str "__proto__" ∉ metadata.map Prod.fst) :
    ((pngTextChunk type textStr metadata).map Prod.fst).Nodup
      ∧ str "__proto__" ∉ (pngTextChunk type textStr metadata).map Prod.fst := by
  unfold pngTextChunk
  repeat' split
  all_goals first
    | exact h
    | exact ⟨nodup_keys_setProp _ _ _ h.1, proto_not_mem_keys_setProp _ _ _ h.2⟩

theorem keys_pngWalk (buf : Buffer) (fuel : Nat) : ∀ (offset : Nat) (metadata : JSObj JSString)
    (last : Nat) (result : JSObj JSString),
    ((metadata.map Prod.fst).Nodup ∧ str "__proto__" ∉ metadata.map Prod.fst) →
    pngWalk buf fuel offset metadata = .ok (last, result) →
    (result.map Prod.fst).Nodup ∧ str "__proto__" ∉ result.map Prod.fst := by
  induction fuel with
  | zero =>
    intro offset metadata last result h hw
    simp only [pngWalk] at hw
    split at hw
    · cases hw
    · cases hw; exact h
  | succ f ih =>
    intro offset metadata last result h hw
    rw [pngWalk] at hw
    split at hw
    · split at hw
      · cases hw
      · rename_i length _
        simp only [] at hw
        split at hw
        · cases hw
        · rename_i md hmd
          have hmd' : (md.map Prod.fst).Nodup ∧ str "__proto__" ∉ md.map Prod.fst := by
            split at hmd
            · cases hu : uint8Array buf (offset + 8) (length : Int) with
              | error e => rw [hu] at hmd; cases hmd
              | ok textData =>
                rw [hu] at hmd
                cases hmd
                exact keys_pngTextChunk _ _ _ h
            · cases hmd; exact h
          split at hw
          · cases hw; exact hmd'
          · exact ih _ _ _ _ hmd' hw
    · cases hw; exact h

/-- Every field map handed to the prompt extractor has distinct keys, none of them
`__proto__`. -/
theorem keys_pngCollect (buf : Buffer) (metadata : JSObj JSString)
    (h : pngCollect buf = .ok metadata) :
    (metadata.map Prod.fst).Nodup ∧ str "__proto__" ∉ metadata.map Prod.fst := by
  unfold pngCollect at h
  split at h
  · cases h
  · rename_i offset md hwalk
    have hmd := keys_pngWalk buf _ 8 [] _ _ ⟨List.nodup_nil, List.not_mem_nil _⟩ hwalk
    split at h
    · split at h
      · cases h
        exact ⟨nodup_keys_withDimensions _ _ _ hmd.1,
          proto_not_mem_keys_setProp _ _ _ (proto_not_mem_keys_setProp _ _ _
            (proto_not_mem_keys_setProp _ _ _ hmd.2))⟩
      · cases h
      · cases h
    · cases h; exact hmd

/-! ## Merging the original fields -/

theorem getProp_strFields (metadata : JSObj JSString) (k : JSString) :
    getProp (strFields metadata) k = (getProp metadata k).map JSValue.str := by
  induction metadata with
  | nil => rfl
  | cons e rest ih =>
    obtain ⟨k', v'⟩ := e
    simp only [strFields, List.map_cons] at ih ⊢
    rw [getProp_cons, getProp_cons]
    split
    · rfl
    · exact ih

theorem getProp_mergeOriginal_of_not_mem (metadata : JSObj JSString) (k : JSString)
    (h : k ∉ metadata.map Prod.fst) : ∀ (o : JSObj JSValue),
    getProp (mergeOriginal metadata o) k = getProp o k := by
  induction metadata with
  | nil => intro o; rfl
  | cons e rest ih =>
    intro o
    obtain ⟨k', v'⟩ := e
    simp only [List.map_cons, List.mem_cons, not_or] at h
    simp only [mergeOriginal, List.foldl_cons] at ih ⊢
    rw [ih h.2, getProp_setProp_of_ne _ _ _ _ h.1]

theorem getProp_mergeOriginal (metadata : JSObj JSString) (k : JSString) (v : JSString)
    (hn : (metadata.map Prod.fst).Nodup) (hk : k ≠ str "__proto__")
    (h : getProp metadata k = some v) : ∀ (o : JSObj JSValue),
    getProp (mergeOriginal metadata o) k = some (.str v) := by
  induction metadata with
  | nil => simp [getProp_nil] at h
  | cons e rest ih =>
    intro o
    obtain ⟨k', v'⟩ := e
    simp only [List.map_cons, List.nodup_cons] at hn
    rw [getProp_cons] at h
    by_cases hkk : k' = k
    · subst hkk
      rw [if_pos rfl] at h
      cases h
      have := getProp_mergeOriginal_of_not_mem rest k' hn.1 (setProp o k' (.str v))
      simp only [mergeOriginal, List.foldl_cons] at this ⊢
      rw [this, getProp_setProp_self _ _ _ hk]
    · rw [if_neg hkk] at h
      have := ih hn.2 h (setProp o k' (.str v'))
      simp only [mergeOriginal, List.foldl_cons] at this ⊢
      exact this

/-- A field of the map before prompt extraction is a field of the returned map. -/
theorem getProp_parsePNGChunks (buf : Buffer) (metadata : JSObj JSString) (k v : JSString)
    (hcollect : pngCollect buf = .ok metadata) (hn : (metadata.map Prod.fst).Nodup)
    (hk : k ≠ str "__proto__") (h : getProp metadata k = some v) :
    ∃ fields, parsePNGChunks buf = .ok fields ∧ getProp fields k = some (.str v) := by
  obtain ⟨texts, htexts⟩ := extractTextsFromJSON_total (getProp metadata (str "prompt"))
  unfold parsePNGChunks
  rw [hcollect]
  simp only [htexts]
  unfold buildNewMetadata
  by_cases ht : texts.length = 0
  · rw [if_pos ht]
    exact ⟨_, rfl, by rw [getProp_strFields, h]; rfl⟩
  · rw [if_neg ht]
    exact ⟨_, rfl, getProp_mergeOriginal metadata k v hn hk h _⟩


/-- C6, amended: in a file of well-formed chunks, a `tEXt` chunk that comes before IEND and
whose payload is `key ++ [0] ++ value`, with an ASCII key without NUL that is not
`__proto__`, is not written again by a later chunk and is not one of the derived
dimension fields, makes the returned map send the key to the text decoded from `value`
(everything after the first NUL, further NUL bytes included). -/
theorem parsePNGChunks_tEXt_field (before after : List Chunk) (c : Chunk)
    (post key value : Buffer)
    (hwf : ∀ x ∈ before ++ c :: after, x.WellFormed)
    (hbefore : ∀ x ∈ before, x.typeName ≠ str "IEND")
    (hiend : ∃ x ∈ after, x.typeName = str "IEND")
    (htype : c.typeName = str "tEXt")
    (hdata : c.data = key ++ [0] ++ value)
    (hkey : ∀ b ∈ key, b.val ≠ 0 ∧ b.val < 128)
    (hproto : key.map Fin.val ≠ str "__proto__")
    (hlater : ∀ x ∈ after, chunkKey? x ≠ some (key.map Fin.val))
    (hderived : key.map Fin.val ≠ str "Image Width" ∧ key.map Fin.val ≠ str "Image Height"
      ∧ key.map Fin.val ≠ str "Image Size") :
    ∃ fields, parsePNGChunks (pngFile (before ++ c :: after) ++ post) = .ok fields
      ∧ getProp fields (key.map Fin.val) = some (.str (utf8Body value)) := by
  obtain ⟨x, hx, hxi⟩ := hiend
  have hne : before ++ c :: after ≠ [] := by simp
  have hpost : post.length ≤ 8 ∨ ∃ y ∈ before ++ c :: after, y.typeName = str "IEND" :=
    Or.inr ⟨x, by simp [hx], hxi⟩
  have hcount : 2 ≤ (before ++ c :: after).length := by
    have : 0 < after.length := List.length_pos_of_mem hx
    simp only [List.length_append, List.length_cons]
    omega
  have hlen : 24 ≤ (pngFile (before ++ c :: after) ++ post).length := by
    have := length_flatMap_bytes_ge _ hwf
    simp only [pngFile, List.length_append]
    omega
  have hcollect := pngCollect_chunks _ post hwf hne hpost hlen
  have hti : ¬ c.typeName = str "IEND" := by
    rw [htype]; decide
  have hfield : getProp (chunkFields (before ++ c :: after) []) (key.map Fin.val)
      = some (utf8Body value) := by
    rw [chunkFields_append before _ hbefore, chunkFields, if_neg hti,
      getProp_chunkFields_of_ne after _ hlater, chunkEffect_tEXt c key value _ htype hdata hkey,
      getProp_setProp_self _ _ _ hproto]
  refine getProp_parsePNGChunks _ _ _ _ hcollect ?_ hproto ?_
  · exact nodup_keys_withDimensions _ _ _ (nodup_keys_chunkFields _ [] List.nodup_nil)
  · rw [getProp_withDimensions_of_ne _ _ _ _ hderived.1 hderived.2.1 hderived.2.2, hfield]

set_option maxRecDepth 100000 in
/-- The example of C6: the payload `prompt\0hel\0lo` after an IHDR chunk. -/
theorem parsePNGChunks_tEXt_field_witness :
    ∃ fields,
      parsePNGChunks (pngFile ([⟨ascii "IHDR", be32 100 ++ be32 50 ++ [8, 6, 0, 0, 0], [0, 0, 0, 0]⟩]
          ++ ⟨ascii "tEXt", ascii "prompt" ++ [0] ++ ascii "hel\x00lo", [0, 0, 0, 0]⟩
            :: [⟨ascii "IEND", [], [0, 0, 0, 0]⟩]) ++ []) = .ok fields
      ∧ getProp fields ((ascii "prompt").map Fin.val)
          = some (.str (utf8Body (ascii "hel\x00lo"))) :=
  parsePNGChunks_tEXt_field
    [⟨ascii "IHDR", be32 100 ++ be32 50 ++ [8, 6, 0, 0, 0], [0, 0, 0, 0]⟩]
    [⟨ascii "IEND", [], [0, 0, 0, 0]⟩]
    ⟨ascii "tEXt", ascii "prompt" ++ [0] ++ ascii "hel\x00lo", [0, 0, 0, 0]⟩
    [] (ascii "prompt") (ascii "hel\x00lo")
    (by
      intro x hx
      simp only [List.singleton_append, List.mem_cons, List.mem_singleton, List.not_mem_nil,
        or_false] at hx
      rcases hx with rfl | rfl | rfl <;> exact ⟨rfl, rfl, by decide⟩)
    (by
      intro x hx
      simp only [List.mem_singleton] at hx
      subst hx
      decide)
    ⟨_, List.mem_singleton_self _, rfl⟩ rfl rfl (by decide) (by decide)
    (by
      intro x hx
      simp only [List.mem_singleton] at hx
      subst hx
      decide)
    (by decide)

/-- C6 as stated fails for the keyword `__proto__`: the assignment reaches the inherited
setter, no field is created and the returned map has no such key. -/
theorem parsePNGChunks_proto_keyword_dropped :
    ∃ fields,
      parsePNGChunks (pngFile [⟨ascii "tEXt", ascii "__proto__" ++ [0] ++ ascii "hello", [0, 0, 0, 0]⟩,
          ⟨ascii "IEND", [], [0, 0, 0, 0]⟩]) = .ok fields
      ∧ getProp fields (str "__proto__") = none :=
  ⟨_, rfl, rfl⟩


/-! ## buildNewMetadata -/

theorem promptKey_eq_cons (i : Nat) : ∃ t, promptKey i = 91 :: t := ⟨_, rfl⟩

theorem arrayIndex?_promptKey (i : Nat) : arrayIndex? (promptKey i) = none := by
  obtain ⟨t, ht⟩ := promptKey_eq_cons i
  rw [ht]
  simp [arrayIndex?, isDigit]

theorem promptKey_ne_proto (i : Nat) : promptKey i ≠ str "__proto__" := by
  obtain ⟨t, ht⟩ := promptKey_eq_cons i
  rw [ht]
  intro h
  have : str "__proto__" = 95 :: (str "__proto__").tail := rfl
  rw [this] at h
  simp at h

theorem promptKey_injective {i j : Nat} (h : promptKey i = promptKey j) : i = j :=
  decimal_injective (List.append_cancel_left h)

theorem keys_promptEntriesFrom (texts : List JSValue) : ∀ (i : Nat) (k : JSString),
    k ∈ (promptEntriesFrom texts i).map Prod.fst →
      ∃ j, i < j ∧ j ≤ i + texts.length ∧ k = promptKey j := by
  induction texts with
  | nil => intro i k h; simp [promptEntriesFrom] at h
  | cons t ts ih =>
    intro i k h
    simp only [promptEntriesFrom, List.map_cons, List.mem_cons] at h
    rcases h with rfl | h
    · exact ⟨i + 1, by omega, by simp, rfl⟩
    · obtain ⟨j, h1, h2, h3⟩ := ih (i + 1) k h
      exact ⟨j, by omega, by simp only [List.length_cons]; omega, h3⟩

theorem addPrompts_eq (texts : List JSValue) : ∀ (i : Nat) (o : JSObj JSValue),
    (∀ k ∈ o.map Prod.fst, ∀ j, i < j → k ≠ promptKey j) →
    addPrompts texts i o = o ++ promptEntriesFrom texts i := by
  induction texts with
  | nil => intro i o _; simp [addPrompts, promptEntriesFrom]
  | cons t ts ih =>
    intro i o ho
    have hnew : promptKey (i + 1) ∉ o.map Prod.fst := fun hmem =>
      ho _ hmem (i + 1) (Nat.lt_succ_self i) rfl
    have hset : setProp o (experimentalPromptLabel ++ str " - " ++ decimal (i + 1)) t
        = o ++ [(promptKey (i + 1), t)] :=
      setProp_of_new o (promptKey (i + 1)) t hnew (arrayIndex?_promptKey _)
        (promptKey_ne_proto _)
    rw [addPrompts, hset, ih (i + 1)]
    · simp [promptEntriesFrom]
    · intro k hk j hj
      rw [List.map_append, List.mem_append] at hk
      rcases hk with hk | hk
      · exact ho k hk j (by omega)
      · simp only [List.map_cons, List.map_nil, List.mem_singleton] at hk
        subst hk
        intro heq
        have := promptKey_injective heq
        omega

theorem mergeOriginal_eq (metadata : JSObj JSString) : ∀ (o : JSObj JSValue),
    (metadata.map Prod.fst).Nodup →
    (∀ k ∈ metadata.map Prod.fst,
      arrayIndex? k = none ∧ k ≠ str "__proto__" ∧ k ∉ o.map Prod.fst) →
    mergeOriginal metadata o = o ++ strFields metadata := by
  induction metadata with
  | nil => intro o _ _; simp [mergeOriginal, strFields]
  | cons e rest ih =>
    intro o hn hk
    obtain ⟨k, v⟩ := e
    simp only [List.map_cons, List.nodup_cons] at hn
    obtain ⟨hi, hp, ho⟩ := hk k (by simp)
    have hset : setProp o k (JSValue.str v) = o ++ [(k, JSValue.str v)] :=
      setProp_of_new o k _ ho hi hp
    have hrest := ih (o ++ [(k, JSValue.str v)]) hn.2 (by
      intro k' hk'
      obtain ⟨hi', hp', ho'⟩ := hk k' (by simp [hk'])
      refine ⟨hi', hp', ?_⟩
      rw [List.map_append, List.mem_append]
      rintro (h | h)
      · exact ho' h
      · simp only [List.map_cons, List.map_nil, List.mem_singleton] at h
        subst h
        exact hn.1 hk')
    simp only [mergeOriginal, List.foldl_cons] at hrest ⊢
    rw [hset, hrest]
    simp [strFields]

/-- C7, amended: for a field map without array-index keys and without a key equal to one
of the synthetic names in use, and a non-empty list of texts, the new map is the
synthetic entries numbered from 1 in discovery order, followed by the original fields
with their values in their order. -/
theorem buildNewMetadata_prompts_first (metadata : JSObj JSString) (texts : List JSValue)
    (hne : texts ≠ []) (hn : (metadata.map Prod.fst).Nodup)
    (hproto : str "__proto__" ∉ metadata.map Prod.fst)
    (hindex : ∀ k ∈ metadata.map Prod.fst, arrayIndex? k = none)
    (hfresh : ∀ k ∈ metadata.map Prod.fst, ∀ i, 1 ≤ i → i ≤ texts.length → k ≠ promptKey i) :
    buildNewMetadata metadata texts = some (promptEntriesFrom texts 0 ++ strFields metadata) := by
  have hlen : ¬ texts.length = 0 := fun h => hne (List.length_eq_zero.1 h)
  have hadd : addPrompts texts 0 [] = promptEntriesFrom texts 0 := by
    rw [addPrompts_eq texts 0 [] (fun k hk => by simp at hk)]
    rfl
  unfold buildNewMetadata
  rw [if_neg hlen, hadd, mergeOriginal_eq metadata _ hn]
  intro k hk
  refine ⟨hindex k hk, fun h => hproto (h ▸ hk), fun hmem => ?_⟩
  obtain ⟨j, h1, h2, h3⟩ := keys_promptEntriesFrom texts 0 k hmem
  exact hfresh k hk j (by omega) (by omega) h3

set_option maxRecDepth 100000 in
/-- Two texts in front of the fields `prompt` and `Image Width`. -/
theorem buildNewMetadata_prompts_first_witness :
    buildNewMetadata [(str "prompt", str "\x7b\x7d"), (str "Image Width", str "100")]
        [.str (str "a cat"), .str (str "a dog")]
      = some (promptEntriesFrom [.str (str "a cat"), .str (str "a dog")] 0
          ++ strFields [(str "prompt", str "\x7b\x7d"), (str "Image Width", str "100")]) :=
  buildNewMetadata_prompts_first _ _ (by simp) (by decide) (by decide) (by decide)
    (by
      intro k hk i h1 h2
      simp only [List.length_cons, List.length_nil] at h2
      have hi : i = 1 ∨ i = 2 := by omega
      rcases hi with rfl | rfl <;> revert k <;> decide)

/-- C7 as stated fails: an original key that is an array index is listed before the
synthetic entries, and an original key equal to a synthetic name takes its place and
its value. -/
theorem buildNewMetadata_not_always_first :
    buildNewMetadata [(str "7", str "seven")] [.str (str "a cat")]
        = some [(str "7", .str (str "seven")), (str "[Exp] P.Text - 1", .str (str "a cat"))]
    ∧ buildNewMetadata [(str "[Exp] P.Text - 1", str "mine")] [.str (str "a cat")]
        = some [(str "[Exp] P.Text - 1", .str (str "mine"))] :=
  ⟨rfl, rfl⟩


/-! ## Prompt extraction -/

/-- C8 as stated fails: the node graph stored under the key `workflow` gives no synthetic
entry, although the extractor finds the text in that very graph. -/
theorem parsePNGChunks_workflow_ignored :
    (∃ fields,
      parsePNGChunks (pngFile [⟨ascii "tEXt", ascii "workflow" ++ [0] ++ ascii graphText, [0, 0, 0, 0]⟩,
          ⟨ascii "IEND", [], [0, 0, 0, 0]⟩]) = .ok fields
      ∧ getProp fields (str "workflow") = some (.str (str graphText))
      ∧ getProp fields (str "[Exp] P.Text - 1") = none)
    ∧ extractTextsFromJSON (some (str graphText)) = .ok [.str (str "a cat sitting")] :=
  ⟨⟨_, rfl, rfl, rfl⟩, rfl⟩

/-- C8, amended: prompt extraction reads the field `prompt` and no other. A field map
without that key is returned as it is, whatever its other fields hold; otherwise the
texts found in the value of `prompt`, when there are some, head the returned map. -/
theorem parsePNGChunks_prompt_only (buf : Buffer) (metadata : JSObj JSString)
    (hcollect : pngCollect buf = .ok metadata) :
    (getProp metadata (str "prompt") = none → parsePNGChunks buf = .ok (strFields metadata))
    ∧ (∀ texts, extractTextsFromJSON (getProp metadata (str "prompt")) = .ok texts →
        texts ≠ [] →
        parsePNGChunks buf = .ok (mergeOriginal metadata (addPrompts texts 0 []))) := by
  constructor
  · intro hnone
    unfold parsePNGChunks
    rw [hcollect]
    simp only [hnone, extractTextsFromJSON_undefined, buildNewMetadata, List.length_nil, if_true]
  · intro texts htexts hne
    have hlen : ¬ texts.length = 0 := fun h => hne (List.length_eq_zero.1 h)
    unfold parsePNGChunks
    rw [hcollect]
    simp only [htexts, buildNewMetadata, if_neg hlen]

set_option maxRecDepth 100000 in
/-- The graph of C8 under the key `prompt` yields the entry `[Exp] P.Text - 1`. -/
theorem parsePNGChunks_prompt_only_witness :
    parsePNGChunks (pngFile [⟨ascii "tEXt", ascii "prompt" ++ [0] ++ ascii graphText, [0, 0, 0, 0]⟩,
        ⟨ascii "IEND", [], [0, 0, 0, 0]⟩])
      = .ok [(str "[Exp] P.Text - 1", .str (str "a cat sitting")),
          (str "prompt", .str (str graphText)),
          (str "Image Width", .str (str "1886547821")),
          (str "Image Height", .str (str "1886650491")),
          (str "Image Size", .str (str "1886547821x1886650491"))] :=
  (parsePNGChunks_prompt_only
    (pngFile [⟨ascii "tEXt", ascii "prompt" ++ [0] ++ ascii graphText, [0, 0, 0, 0]⟩,
      ⟨ascii "IEND", [], [0, 0, 0, 0]⟩])
    [(str "prompt", str graphText), (str "Image Width", str "1886547821"),
      (str "Image Height", str "1886650491"), (str "Image Size", str "1886547821x1886650491")]
    (by rfl)).2 [.str (str "a cat sitting")] (by rfl) (by simp)

theorem specText_cases (v : Option JSValue) (h : v = none ∨ ∃ s, v = some (.str s)) :
    (longerThan3 v = .ok false ∧ specText v = [])
      ∨ (longerThan3 v = .ok true ∧ specText v = v.toList) := by
  rcases h with rfl | ⟨s, rfl⟩
  · exact Or.inl ⟨rfl, rfl⟩
  · by_cases hs : 3 < s.length
    · exact Or.inr ⟨by simp [longerThan3, hs], by simp [specText, hs]⟩
    · exact Or.inl ⟨by simp [longerThan3, hs], by simp [specText, hs]⟩

theorem pushTexts_typed (node : JSValue) (results : List JSValue)
    (h₁ : inputOf node (str "text") = none ∨ ∃ s, inputOf node (str "text") = some (.str s))
    (h₂ : inputOf node (str "text1") = none ∨ ∃ s, inputOf node (str "text1") = some (.str s)) :
    pushTexts node results
      = (results ++ (specText (inputOf node (str "text"))
          ++ specText (inputOf node (str "text1"))), none) := by
  unfold pushTexts
  rcases specText_cases _ h₁ with ⟨a₁, b₁⟩ | ⟨a₁, b₁⟩ <;>
    rcases specText_cases _ h₂ with ⟨a₂, b₂⟩ | ⟨a₂, b₂⟩ <;>
    simp [a₁, a₂, b₁, b₂]

theorem visitNode_typed (node : JSValue) (results : List JSValue) (h : NodeTyped node) :
    visitNode node results = (results ++ specNodeTexts node, none) := by
  obtain ⟨hc, h₁, h₂⟩ := h
  unfold visitNode specNodeTexts
  rcases hc with hc | ⟨s, hc⟩
  · rw [hc]
    split <;> simp
  · rw [hc]
    have hnode : truthy node = true := by
      cases node <;> simp [classTypeOf] at hc
      rfl
    simp only [hnode, Bool.not_true, Bool.false_eq_true, if_false, classTypeIncludes]
    by_cases hs : s = []
    · subst hs
      have ht : truthy (JSValue.str []) = false := rfl
      have e1 : includes [] (str "CLIPTextEncode") = false := by decide
      have e2 : includes [] (str "TextBox") = false := by decide
      simp [ht, e1, e2]
    · have ht : truthy (JSValue.str s) = true := by
        cases s with
        | nil => exact absurd rfl hs
        | cons a b => rfl
      simp only [ht, Bool.not_true, Bool.false_eq_true, if_false]
      cases i1 : includes s (str "CLIPTextEncode")
      · cases i2 : includes s (str "TextBox")
        · simp
        · simp [pushTexts_typed node results h₁ h₂]
      · simp [pushTexts_typed node results h₁ h₂]

theorem visitNodes_typed (nodes : List JSValue) : ∀ (results : List JSValue),
    (∀ node ∈ nodes, NodeTyped node) →
    visitNodes nodes results = (results ++ nodes.flatMap specNodeTexts, none) := by
  induction nodes with
  | nil => intro results _; simp [visitNodes]
  | cons node rest ih =>
    intro results h
    rw [visitNodes, visitNode_typed node results (h node (List.mem_cons_self _ _))]
    simp only []
    rw [ih _ (fun x hx => h x (List.mem_cons_of_mem _ hx))]
    simp

/-- The extractor on typed nodes: for a text that parses to an object whose nodes carry
strings (where they carry anything) as `class_type`, `inputs.text` and `inputs.text1`, the
result is what the specification describes: the nodes in enumeration order, each giving
its `text` and then its `text1` when its `class_type` contains `CLIPTextEncode` or
`TextBox` and the value is longer than 3 code units. -/
theorem extractTextsFromJSON_spec (text : JSString) (props : JSObj JSValue)
    (hparse : jsonParse text = .ok (.obj props))
    (htyped : ∀ node ∈ props.map Prod.snd, NodeTyped node) :
    extractTextsFromJSON (some text) = .ok ((props.map Prod.snd).flatMap specNodeTexts) := by
  unfold extractTextsFromJSON
  simp only [Option.getD_some, hparse, forInValues]
  rw [visitNodes_typed _ [] htyped]
  rfl


set_option maxRecDepth 100000 in
/-- Three nodes visited in the order `1`, `3`, `k`: the text box gives its `text1`, the
encoder its `text` (its `text1` has 3 characters), the sampler nothing. -/
theorem extractTextsFromJSON_spec_witness :
    extractTextsFromJSON (some (str graphText3))
      = .ok [.str (str "second"), .str (str "a cat sitting")] :=
  extractTextsFromJSON_spec (str graphText3)
    [(str "1", .obj [(str "class_type", .str (str "MyTextBox")),
        (str "inputs", .obj [(str "text1", .str (str "second"))])]),
     (str "3", .obj [(str "class_type", .str (str "CLIPTextEncode")),
        (str "inputs", .obj [(str "text", .str (str "a cat sitting")),
          (str "text1", .str (str "abc"))])]),
     (str "k", .obj [(str "class_type", .str (str "KSampler")),
        (str "inputs", .obj [(str "text", .str (str "ignored text"))])])]
    (by rfl)
    (by
      intro node h
      simp only [List.map_cons, List.map_nil, List.mem_cons, List.not_mem_nil, or_false] at h
      rcases h with rfl | rfl | rfl
      · exact ⟨Or.inr ⟨_, rfl⟩, Or.inl rfl, Or.inr ⟨_, rfl⟩⟩
      · exact ⟨Or.inr ⟨_, rfl⟩, Or.inr ⟨_, rfl⟩, Or.inr ⟨_, rfl⟩⟩
      · exact ⟨Or.inr ⟨_, rfl⟩, Or.inr ⟨_, rfl⟩, Or.inl rfl⟩)

set_option maxRecDepth 100000 in
/-- C9: a node whose `class_type` is a number (or `true`) makes `classType.includes` raise a
TypeError; the `catch` around the whole loop swallows it and the nodes after that node
are never visited. The graph `a` (class_type 5), `b` (encoder with the text `hello`) is
valid JSON whose visit node by node gives `hello`, and the extractor returns the empty
list; whatever nodes follow such a node, the walk ends there with the results so far. -/
theorem extractTextsFromJSON_cut_by_class_type (rest results : List JSValue) :
    jsonParse (str graphTextNumber)
      = .ok (.obj [(str "a", .obj [(str "class_type", .num false 5 0)]),
          (str "b", .obj [(str "class_type", .str (str "CLIPTextEncode")),
            (str "inputs", .obj [(str "text", .str (str "hello"))])])])
    ∧ [JSValue.obj [(str "class_type", .num false 5 0)],
        JSValue.obj [(str "class_type", .str (str "CLIPTextEncode")),
          (str "inputs", .obj [(str "text", .str (str "hello"))])]].flatMap specNodeTexts
        = [.str (str "hello")]
    ∧ extractTextsFromJSON (some (str graphTextNumber)) = .ok []
    ∧ visitNodes (.obj [(str "class_type", .num false 5 0)] :: rest) results
        = (results, some .typeError)
    ∧ visitNodes (.obj [(str "class_type", .bool true)] :: rest) results
        = (results, some .typeError) :=
  ⟨by rfl, by rfl, by rfl, by rfl, by rfl⟩

/-- C10: when the extractor collects nothing from the field `prompt`, the field map is
returned as it is; that is the case when the field is missing and when its value is
not valid JSON, whose SyntaxError is caught. -/
theorem parsePNGChunks_passes_through (buf : Buffer) (metadata : JSObj JSString)
    (jsonString : Option JSString) :
    (pngCollect buf = .ok metadata →
        extractTextsFromJSON (getProp metadata (str "prompt")) = .ok [] →
        parsePNGChunks buf = .ok (strFields metadata))
    ∧ (∀ err, jsonParse (jsonString.getD (str "undefined")) = .error err →
        extractTextsFromJSON jsonString = .ok [])
    ∧ extractTextsFromJSON none = .ok [] := by
  refine ⟨fun hcollect htexts => ?_, fun err herr => ?_, rfl⟩
  · unfold parsePNGChunks
    rw [hcollect]
    simp only [htexts, buildNewMetadata, List.length_nil, if_true]
  · have hfuel := jsonParse_ne_outOfFuel (jsonString.getD (str "undefined"))
    unfold extractTextsFromJSON
    rw [herr]
    cases err
    · rfl
    · rfl
    · rfl
    · exact absurd herr hfuel

set_option maxRecDepth 100000 in
/-- A PNG whose `prompt` field is not JSON comes back with its fields unchanged. -/
theorem parsePNGChunks_passes_through_witness :
    parsePNGChunks (pngFile [⟨ascii "tEXt", ascii "prompt" ++ [0] ++ ascii "hello", [0, 0, 0, 0]⟩,
        ⟨ascii "IEND", [], [0, 0, 0, 0]⟩])
      = .ok (strFields [(str "prompt", str "hello"), (str "Image Width", str "1886547821"),
          (str "Image Height", str "1886650472"),
          (str "Image Size", str "1886547821x1886650472")])
    ∧ extractTextsFromJSON (some (str "hello")) = .ok [] :=
  ⟨(parsePNGChunks_passes_through
      (pngFile [⟨ascii "tEXt", ascii "prompt" ++ [0] ++ ascii "hello", [0, 0, 0, 0]⟩,
        ⟨ascii "IEND", [], [0, 0, 0, 0]⟩])
      [(str "prompt", str "hello"), (str "Image Width", str "1886547821"),
        (str "Image Height", str "1886650472"),
        (str "Image Size", str "1886547821x1886650472")] none).1 (by rfl) (by rfl),
   (parsePNGChunks_passes_through [] [] (some (str "hello"))).2.1 .syntaxError (by rfl)⟩

/-! ## Archives -/

theorem drop_take_four (buf : Buffer) (i : Nat) (h : i + 4 ≤ buf.length) :
    (buf.drop i).take 4
      = [buf.getD i 0, buf.getD (i + 1) 0, buf.getD (i + 2) 0, buf.getD (i + 3) 0] := by
  have h0 : i < buf.length := by omega
  have h1 : i + 1 < buf.length := by omega
  have h2 : i + 2 < buf.length := by omega
  have h3 : i + 3 < buf.length := by omega
  rw [List.drop_eq_getElem_cons h0, List.drop_eq_getElem_cons h1, List.drop_eq_getElem_cons h2,
    List.drop_eq_getElem_cons h3]
  simp only [List.take_succ_cons, List.take_zero, List.getD_eq_getElem?_getD,
    List.getElem?_eq_getElem h0, List.getElem?_eq_getElem h1, List.getElem?_eq_getElem h2,
    List.getElem?_eq_getElem h3, Option.getD_some]

theorem u32At_eq_magic_iff (buf : Buffer) (i : Nat) (h : i + 4 ≤ buf.length) :
    (u32At buf i == 0x504B0304) = zipMagicAt buf i := by
  unfold zipMagicAt zipMagic u32At byteAt
  rw [drop_take_four buf i h]
  have b0 := (buf.getD i 0).isLt
  have b1 := (buf.getD (i + 1) 0).isLt
  have b2 := (buf.getD (i + 2) 0).isLt
  have b3 := (buf.getD (i + 3) 0).isLt
  rw [Bool.eq_iff_iff]
  simp only [beq_iff_eq, List.cons.injEq, and_true, Fin.ext_iff]
  constructor
  · intro hv
    have e0 : ((0x50 : Fin 256) : Nat) = 0x50 := rfl
    have e1 : ((0x4B : Fin 256) : Nat) = 0x4B := rfl
    have e2 : ((0x03 : Fin 256) : Nat) = 0x03 := rfl
    have e3 : ((0x04 : Fin 256) : Nat) = 0x04 := rfl
    rw [e0, e1, e2, e3]
    omega
  · rintro ⟨h0, h1, h2, h3⟩
    rw [h0, h1, h2, h3]
    rfl

theorem countLocalHeaders_eq (buf : Buffer) :
    countLocalHeaders buf = (List.range (buf.length - 4)).countP fun i => zipMagicAt buf i := by
  unfold countLocalHeaders
  apply List.countP_congr
  intro i hi
  rw [List.mem_range] at hi
  rw [u32At_eq_magic_iff buf i (by omega)]

/-- The loop counts every occurrence but one at the last offset `length - 4`. -/
theorem magicOffsets_eq (buf : Buffer) :
    magicOffsets buf
      = countLocalHeaders buf + if 4 ≤ buf.length ∧ zipMagicAt buf (buf.length - 4) = true then 1 else 0 := by
  rw [countLocalHeaders_eq]
  unfold magicOffsets
  by_cases hlen : 4 ≤ buf.length
  · have h3 : buf.length - 3 = (buf.length - 4) + 1 := by omega
    rw [h3, List.range_succ, List.countP_append]
    by_cases hm : zipMagicAt buf (buf.length - 4) = true
    · simp [hm, hlen]
    · simp [hm]
  · have h3 : buf.length - 3 = 0 := by omega
    have h4 : buf.length - 4 = 0 := by omega
    simp [h3, h4, hlen]

theorem isEmpty_of_includes (sig part : JSString) (hp : part ≠ [])
    (h : includes sig part = true) : sig.isEmpty = false := by
  cases sig with
  | nil =>
    cases part with
    | nil => exact absurd rfl hp
    | cons a b => simp [includes] at h
  | cons a b => rfl

/-- C11, amended: for a label containing `ZIP` and a buffer in which the magic does not stand
at the last offset `length - 4`, the archive category is Type, Compressed, Format and,
when the magic occurs at all, `Approximate Files` with the decimal count of all offsets
at which it occurs; when it occurs nowhere there is no such field. -/
theorem parseArchiveMetadata_zip (buf : Buffer) (sig : JSString)
    (hzip : includes sig (str "ZIP") = true)
    (hlast : zipMagicAt buf (buf.length - 4) = false) :
    parseArchiveMetadata buf (some sig)
      = [(str "Archive Information", strFields
          ([(str "Type", sig), (str "Compressed", str "Yes"), (str "Format", str "ZIP")]
            ++ if 0 < magicOffsets buf then
                [(str "Approximate Files", decimal (magicOffsets buf))]
              else []))] := by
  have hcount : countLocalHeaders buf = magicOffsets buf := by
    rw [magicOffsets_eq, hlast]
    simp
  have hne : sig.isEmpty = false := isEmpty_of_includes sig _ (by decide) hzip
  have hlit : objectLiteral [(str "Type", sig), (str "Compressed", str "Yes")]
      = [(str "Type", sig), (str "Compressed", str "Yes")] := by
    unfold objectLiteral
    simp only [List.foldl_cons, List.foldl_nil]
    rw [defineProp_of_new [] _ _ (List.not_mem_nil _) (by decide),
      defineProp_of_new ([] ++ [(str "Type", sig)]) _ _
        (by simp only [List.nil_append, List.map_cons, List.map_nil]; decide) (by decide)]
    rfl
  have hformat : setProp [(str "Type", sig), (str "Compressed", str "Yes")] (str "Format")
      (str "ZIP") = [(str "Type", sig), (str "Compressed", str "Yes"), (str "Format", str "ZIP")] := by
    rw [setProp_of_new _ _ _ (by simp only [List.map_cons, List.map_nil]; decide) (by decide)
      (by decide)]
    rfl
  have hfiles : ∀ v : JSString,
      setProp [(str "Type", sig), (str "Compressed", str "Yes"), (str "Format", str "ZIP")]
        (str "Approximate Files") v
      = [(str "Type", sig), (str "Compressed", str "Yes"), (str "Format", str "ZIP")]
          ++ [(str "Approximate Files", v)] := by
    intro v
    rw [setProp_of_new _ _ _ (by simp only [List.map_cons, List.map_nil]; decide) (by decide)
      (by decide)]
  unfold parseArchiveMetadata
  simp only [hne, Bool.false_eq_true, if_false, hzip, if_true, hlit, hformat, hcount, hfiles]
  by_cases hpos : 0 < magicOffsets buf
  · simp only [hpos, if_true]
  · simp only [hpos, if_false, List.append_nil]

set_option maxRecDepth 100000 in
/-- Three occurrences at offsets 0, 4 and 9, none at the last offset 10, give `3`. -/
theorem parseArchiveMetadata_zip_witness :
    parseArchiveMetadata (ascii "PK\x03\x04PK\x03\x04aPK\x03\x04b") (some (str "ZIP Archive"))
      = [(str "Archive Information", strFields
          [(str "Type", str "ZIP Archive"), (str "Compressed", str "Yes"),
           (str "Format", str "ZIP"), (str "Approximate Files", str "3")])] :=
  parseArchiveMetadata_zip (ascii "PK\x03\x04PK\x03\x04aPK\x03\x04b") (str "ZIP Archive")
    (by decide) (by decide)

/-- C11 as stated fails: a buffer without the magic gets no `Approximate Files` field, and
three occurrences of which the last stands at offset `length - 4` are reported as `2`. -/
theorem parseArchiveMetadata_zip_count_differs :
    parseArchiveMetadata (ascii "abcdefgh") (some (str "ZIP Archive"))
      = [(str "Archive Information", strFields
          [(str "Type", str "ZIP Archive"), (str "Compressed", str "Yes"),
           (str "Format", str "ZIP")])]
    ∧ magicOffsets (ascii "PK\x03\x04PK\x03\x04PK\x03\x04") = 3
    ∧ parseArchiveMetadata (ascii "PK\x03\x04PK\x03\x04PK\x03\x04") (some (str "ZIP Archive"))
      = [(str "Archive Information", strFields
          [(str "Type", str "ZIP Archive"), (str "Compressed", str "Yes"),
           (str "Format", str "ZIP"), (str "Approximate Files", str "2")])] :=
  ⟨rfl, rfl, rfl⟩

/-! ## Video containers -/

theorem strFields_cons (k v : JSString) (o : JSObj JSString) :
    strFields ((k, v) :: o) = (k, JSValue.str v) :: strFields o := rfl

theorem videoFormat_ne (a b : JSString) (k : JSString) (x y : JSObj JSValue) (h : a ≠ b) :
    some ((k, JSValue.str a) :: x) ≠ some ((k, JSValue.str b) :: y) := by
  intro he
  injection he with he
  injection he with h1 _
  injection h1 with _ h2
  injection h2 with h3
  exact h h3

theorem mp4_literal (brand : JSString) :
    strFields (objectLiteral [(str "Format", str "MP4/MOV"), (str "Brand", brand)])
      = [(str "Format", .str (str "MP4/MOV")), (str "Brand", .str brand)] := by
  unfold objectLiteral
  simp only [List.foldl_cons, List.foldl_nil]
  rw [defineProp_of_new [] _ _ (List.not_mem_nil _) (by decide),
    defineProp_of_new ([] ++ [(str "Format", str "MP4/MOV")]) _ _
      (by simp only [List.nil_append, List.map_cons, List.map_nil]; decide) (by decide)]
  rfl

/-- What `parseVideoMetadata` returns on a buffer of eight bytes or more: only the `ftyp`
test is made. -/
theorem parseVideoMetadata_of_long (buf : Buffer) (h : 8 ≤ buf.length) :
    parseVideoMetadata buf
      = if getString buf 4 4 = str "ftyp" then
          [(str "Video Information",
            [(str "Format", .str (str "MP4/MOV")), (str "Brand", .str (getString buf 8 4))])]
        else [] := by
  unfold parseVideoMetadata
  rw [if_pos h, mp4_literal]

/-- C12: the AVI branch cannot be reached. The 12-byte buffer `RIFF....AVI ` gets no category,
and no buffer at all gets the category `AVI Video` / `RIFF`. -/
theorem parseVideoMetadata_never_avi (buf : Buffer) :
    parseVideoMetadata (ascii "RIFF" ++ [36, 0, 0, 0] ++ ascii "AVI ") = []
    ∧ getProp (parseVideoMetadata buf) (str "Video Information")
        ≠ some [(str "Format", .str (str "AVI Video")), (str "Container", .str (str "RIFF"))] := by
  refine ⟨rfl, ?_⟩
  by_cases h : 8 ≤ buf.length
  · rw [parseVideoMetadata_of_long buf h]
    split
    · rw [getProp_cons, if_pos rfl]
      exact videoFormat_ne _ _ _ _ _ (by decide)
    · rw [getProp_nil]
      exact fun he => by cases he
  · unfold parseVideoMetadata
    rw [if_neg h, if_neg (fun hc => by omega)]
    split
    · rw [getProp_cons, if_pos rfl]
      exact videoFormat_ne _ _ _ _ _ (by decide)
    · rw [getProp_nil]
      exact fun he => by cases he

/-- C13: a buffer that starts with the EBML magic and has eight bytes or more is not
reported as Matroska; the 8-byte buffer `1A 45 DF A3 00 00 00 00` gets no category. -/
theorem parseVideoMetadata_mkv_missed (b₄ b₅ b₆ b₇ : Byte) (rest : Buffer) :
    parseVideoMetadata [0x1A, 0x45, 0xDF, 0xA3, 0, 0, 0, 0] = []
    ∧ getProp (parseVideoMetadata ([0x1A, 0x45, 0xDF, 0xA3, b₄, b₅, b₆, b₇] ++ rest))
          (str "Video Information")
        ≠ some [(str "Format", .str (str "Matroska Video (MKV)")),
            (str "Container", .str (str "EBML"))] := by
  refine ⟨rfl, ?_⟩
  rw [parseVideoMetadata_of_long _ (by simp)]
  split
  · rw [getProp_cons, if_pos rfl]
    exact videoFormat_ne _ _ _ _ _ (by decide)
  · rw [getProp_nil]
    exact fun he => by cases he

/-! ## Objects built from fresh keys -/

theorem objectAssign_eq_append {α : Type} (source : JSObj α) : ∀ (target : JSObj α),
    (source.map Prod.fst).Nodup →
    (∀ k ∈ source.map Prod.fst,
      arrayIndex? k = none ∧ k ≠ str "__proto__" ∧ k ∉ target.map Prod.fst) →
    objectAssign target source = target ++ source := by
  induction source with
  | nil => intro target _ _; simp [objectAssign]
  | cons e rest ih =>
    intro target hn hk
    obtain ⟨k, v⟩ := e
    simp only [List.map_cons, List.nodup_cons] at hn
    obtain ⟨hi, hp, ho⟩ := hk k (by simp)
    have hrest := ih (target ++ [(k, v)]) hn.2 (by
      intro k' hk'
      obtain ⟨hi', hp', ho'⟩ := hk k' (by simp [hk'])
      refine ⟨hi', hp', ?_⟩
      rw [List.map_append, List.mem_append]
      rintro (h | h)
      · exact ho' h
      · simp only [List.map_cons, List.map_nil, List.mem_singleton] at h
        subst h
        exact hn.1 hk')
    simp only [objectAssign, List.foldl_cons] at hrest ⊢
    rw [setProp_of_new target k v ho hi hp, hrest]
    simp

theorem objectLiteral_eq_self {α : Type} (props : JSObj α) (hn : (props.map Prod.fst).Nodup)
    (hk : ∀ k ∈ props.map Prod.fst, arrayIndex? k = none ∧ k ≠ str "__proto__") :
    objectLiteral props = props := by
  have h := objectAssign_eq_append props [] hn
    (fun k hmem => ⟨(hk k hmem).1, (hk k hmem).2, List.not_mem_nil _⟩)
  rw [List.nil_append] at h
  have e : objectLiteral props = objectAssign [] props := by
    unfold objectLiteral objectAssign
    apply List.foldl_ext
    intro o e he
    have hp := (hk e.1 (List.mem_map_of_mem Prod.fst he)).2
    rw [setProp, if_neg hp]
  rw [e, h]

/-! ## Dispatch -/

theorem startsWith_cons_ne (s : JSString) (a b : Nat) (p q : JSString) (hab : a ≠ b)
    (h : startsWith s (a :: p) = true) : startsWith s (b :: q) = false := by
  cases s with
  | nil => simp [startsWith] at h
  | cons c t =>
    simp only [startsWith, List.isPrefixOf, Bool.and_eq_true, beq_iff_eq] at h
    simp only [startsWith, List.isPrefixOf, Bool.and_eq_false_imp, beq_iff_eq]
    intro hb
    exact absurd (h.1.trans hb.symm) hab

/-- C14, amended: the chain tries image, audio, video, PDF, archive in that order, and a
family is taken when the MIME type names it or the signature label names it. A MIME type
`image/..` always selects the image parser; a label containing `Image` selects it
whatever the MIME type is; a MIME type naming a later family selects that family when the
label names no earlier one. -/
theorem parseByType_dispatch (file : File) (buf : Buffer) (signature : Option JSString) :
    (startsWith file.type (str "image/") = true →
        parseByType file buf signature = parseImageMetadata buf)
    ∧ (signatureIncludes signature (str "Image") = true →
        parseByType file buf signature = parseImageMetadata buf)
    ∧ (startsWith file.type (str "audio/") = true →
        signatureIncludes signature (str "Image") = false →
        parseByType file buf signature = parseAudioMetadata buf)
    ∧ (startsWith file.type (str "video/") = true →
        signatureIncludes signature (str "Image") = false →
        signatureIncludes signature (str "Audio") = false →
        parseByType file buf signature = .ok (parseVideoMetadata buf))
    ∧ (file.type = str "application/pdf" →
        signatureIncludes signature (str "Image") = false →
        signatureIncludes signature (str "Audio") = false →
        signatureIncludes signature (str "Video") = false →
        parseByType file buf signature = .ok (parsePDFMetadata buf))
    ∧ (includes file.type (str "zip") = true →
        startsWith file.type (str "image/") = false →
        startsWith file.type (str "audio/") = false →
        startsWith file.type (str "video/") = false →
        file.type ≠ str "application/pdf" →
        signatureIncludes signature (str "Image") = false →
        signatureIncludes signature (str "Audio") = false →
        signatureIncludes signature (str "Video") = false →
        signature ≠ some (str "PDF Document") →
        parseByType file buf signature = .ok (parseArchiveMetadata buf signature)) := by
  have hi : str "image/" = 105 :: (str "image/").tail := rfl
  have ha : str "audio/" = 97 :: (str "audio/").tail := rfl
  have hv : str "video/" = 118 :: (str "video/").tail := rfl
  refine ⟨?_, ?_, ?_, ?_, ?_, ?_⟩
  · intro h
    simp [parseByType, h]
  · intro h
    simp [parseByType, h]
  · intro h hs
    have h1 : startsWith file.type (str "image/") = false := by
      rw [ha] at h; rw [hi]
      exact startsWith_cons_ne _ _ _ _ _ (by decide) h
    simp [parseByType, h, hs, h1]
  · intro h hs1 hs2
    have h1 : startsWith file.type (str "image/") = false := by
      rw [hv] at h; rw [hi]
      exact startsWith_cons_ne _ _ _ _ _ (by decide) h
    have h2 : startsWith file.type (str "audio/") = false := by
      rw [hv] at h; rw [ha]
      exact startsWith_cons_ne _ _ _ _ _ (by decide) h
    simp [parseByType, h, hs1, hs2, h1, h2]
  · intro h hs1 hs2 hs3
    have h1 : startsWith (str "application/pdf") (str "image/") = false := by decide
    have h2 : startsWith (str "application/pdf") (str "audio/") = false := by decide
    have h3 : startsWith (str "application/pdf") (str "video/") = false := by decide
    simp [parseByType, h, hs1, hs2, hs3, h1, h2, h3]
  · intro h h1 h2 h3 h4 hs1 hs2 hs3 hs4
    simp [parseByType, h, hs1, hs2, hs3, hs4, h1, h2, h3, h4]

set_option maxRecDepth 100000 in
/-- The declared type `image/png` on an ID3 buffer runs the image parser, and `audio/mpeg`
on the same buffer runs the audio parser. -/
theorem parseByType_dispatch_witness :
    parseByType (fileOfType "image/png") (ascii "ID3\x03\x00\x00\x00\x00\x00\x00")
        (detectFileSignature (ascii "ID3\x03\x00\x00\x00\x00\x00\x00"))
      = parseImageMetadata (ascii "ID3\x03\x00\x00\x00\x00\x00\x00")
    ∧ parseByType (fileOfType "audio/mpeg") (ascii "ID3\x03\x00\x00\x00\x00\x00\x00")
        (detectFileSignature (ascii "ID3\x03\x00\x00\x00\x00\x00\x00"))
      = parseAudioMetadata (ascii "ID3\x03\x00\x00\x00\x00\x00\x00") :=
  ⟨(parseByType_dispatch (fileOfType "image/png") _ _).1 (by decide),
   (parseByType_dispatch (fileOfType "audio/mpeg") _ _).2.2.1 (by decide) (by decide)⟩

set_option maxRecDepth 100000 in
/-- C14 as stated fails: with the declared type `audio/mpeg`, a PNG buffer is handed to the
image parser (the label `PNG Image` contains `Image`); the document holds the PNG
categories, which the audio parser would not produce. -/
theorem parseFileMetadata_signature_before_mime :
    parseByType (fileOfType "audio/mpeg") pngSample (detectFileSignature pngSample)
      = parseImageMetadata pngSample
    ∧ parseAudioMetadata pngSample = .ok []
    ∧ ∃ doc, parseFileMetadata (fileOfType "audio/mpeg") pngSample = .ok doc
        ∧ doc.map Prod.fst = [str "File Information", str "PNG Metadata",
            str "Image Dimensions", str "Binary Information"] :=
  ⟨rfl, rfl, _, rfl, rfl⟩

/-! ## The two categories every document has -/

theorem getProp_objectAssign_of_not_mem {α : Type} (source : JSObj α) :
    ∀ (target : JSObj α) (k : JSString), k ∉ source.map Prod.fst →
      getProp (objectAssign target source) k = getProp target k := by
  induction source with
  | nil => intro target k _; rfl
  | cons e rest ih =>
    intro target k hk
    simp only [List.map_cons, List.mem_cons, not_or] at hk
    have h := ih (setProp target e.1 e.2) k hk.2
    simp only [objectAssign, List.foldl_cons] at h ⊢
    rw [h, getProp_setProp_of_ne target e.1 e.2 k hk.1]

theorem fileInformation_none (file : File) :
    fileInformation file none =
      [(str "Name", file.name),
       (str "Size", file.formattedSize),
       (str "Size (bytes)", decimal file.size),
       (str "Type", if file.type.isEmpty then str "Unknown" else file.type),
       (str "Last Modified", file.lastModifiedText),
       (str "Last Modified (timestamp)", decimal file.lastModified)] := by
  unfold fileInformation
  exact objectLiteral_eq_self _ (by simp only [List.map_cons, List.map_nil]; decide)
    (by simp only [List.map_cons, List.map_nil]; decide)

theorem fileInformation_some (file : File) (sig : JSString) :
    fileInformation file (some sig) =
      [(str "Name", file.name),
       (str "Size", file.formattedSize),
       (str "Size (bytes)", decimal file.size),
       (str "Type", if file.type.isEmpty then str "Unknown" else file.type),
       (str "Last Modified", file.lastModifiedText),
       (str "Last Modified (timestamp)", decimal file.lastModified),
       (str "Detected Format", sig)] := by
  unfold fileInformation
  rw [objectLiteral_eq_self _ (by simp only [List.map_cons, List.map_nil]; decide)
    (by simp only [List.map_cons, List.map_nil]; decide)]
  exact setProp_of_new _ _ _ (by simp only [List.map_cons, List.map_nil]; decide)
    (by decide) (by decide)

theorem binaryInformation_eq (buf : Buffer) :
    binaryInformation buf =
      [(str "First 16 bytes (hex)", getHexString buf 0 16),
       (str "File header", getFileHeaderInfo buf)] := by
  unfold binaryInformation
  exact objectLiteral_eq_self _ (by simp only [List.map_cons, List.map_nil]; decide)
    (by simp only [List.map_cons, List.map_nil]; decide)

/-- C15: when no signature is detected and the declared type selects no family, the
document is exactly `File Information` (six fields, no `Detected Format`) followed by
`Binary Information`. -/
theorem parseFileMetadata_unknown (file : File) (buf : Buffer)
    (hsig : detectFileSignature buf = none)
    (himage : startsWith file.type (str "image/") = false)
    (haudio : startsWith file.type (str "audio/") = false)
    (hvideo : startsWith file.type (str "video/") = false)
    (hpdf : file.type ≠ str "application/pdf")
    (hzip : includes file.type (str "zip") = false) :
    parseFileMetadata file buf = .ok
      [(str "File Information", strFields
          [(str "Name", file.name),
           (str "Size", file.formattedSize),
           (str "Size (bytes)", decimal file.size),
           (str "Type", if file.type.isEmpty then str "Unknown" else file.type),
           (str "Last Modified", file.lastModifiedText),
           (str "Last Modified (timestamp)", decimal file.lastModified)]),
       (str "Binary Information", strFields
          [(str "First 16 bytes (hex)", getHexString buf 0 16),
           (str "File header", getFileHeaderInfo buf)])] := by
  have hby : parseByType file buf none = .ok [] := by
    simp [parseByType, himage, haudio, hvideo, hpdf, hzip, signatureIncludes]
  unfold parseFileMetadata
  rw [hsig, hby, fileInformation_none, binaryInformation_eq]
  simp only [objectAssign, List.foldl_nil]
  rw [setProp_of_new _ _ _ (by simp only [List.map_cons, List.map_nil]; decide)
    (by decide) (by decide)]
  rfl

set_option maxRecDepth 100000 in
/-- The five bytes `hello` with the declared type `application/octet-stream`, and with no
declared type. -/
theorem parseFileMetadata_unknown_witness :
    (parseFileMetadata (fileOfType "application/octet-stream") (ascii "hello")).map
        (fun doc => doc.map Prod.fst)
      = .ok [str "File Information", str "Binary Information"]
    ∧ parseFileMetadata (fileOfType "") (ascii "hello") = .ok
      [(str "File Information", strFields
          [(str "Name", str "file"),
           (str "Size", str "0 Bytes"),
           (str "Size (bytes)", str "0"),
           (str "Type", str "Unknown"),
           (str "Last Modified", str ""),
           (str "Last Modified (timestamp)", str "0")]),
       (str "Binary Information", strFields
          [(str "First 16 bytes (hex)", str "68 65 6C 6C 6F"),
           (str "File header", str "hello")])] :=
  ⟨by rw [parseFileMetadata_unknown (fileOfType "application/octet-stream") (ascii "hello")
      (by decide) (by decide) (by decide) (by decide) (by decide) (by decide)]; rfl,
   parseFileMetadata_unknown (fileOfType "") (ascii "hello")
      (by decide) (by decide) (by decide) (by decide) (by decide) (by decide)⟩

theorem keys_parseImageMetadata (buf : Buffer) (doc : Document)
    (h : parseImageMetadata buf = .ok doc) : ∀ k ∈ doc.map Prod.fst, k ∈ parserCategories := by
  unfold parseImageMetadata at h
  intro k hk
  split at h
  · split at h
    · cases h
    · rename_i pngData _
      simp only at h
      split at h
      · split at h
        · cases h
          rcases mem_keys_setProp _ _ _ _ hk with rfl | hk
          · decide
          · split at hk
            · simp only [List.map_cons, List.map_nil, List.mem_singleton] at hk
              subst hk; decide
            · cases hk
        · cases h
        · cases h
      · cases h
        split at hk
        · simp only [List.map_cons, List.map_nil, List.mem_singleton] at hk
          subst hk; decide
        · cases hk
  · split at h
    · split at h
      · cases h
      · cases h
        split at hk
        · simp only [List.map_cons, List.map_nil, List.mem_singleton] at hk
          subst hk; decide
        · cases hk
    · split at h
      · split at h
        · split at h
          · cases h
            simp only [List.map_cons, List.map_nil, List.mem_singleton] at hk
            subst hk; decide
          · cases h
          · cases h
        · cases h; cases hk
      · split at h
        · cases h
          simp only [List.map_cons, List.map_nil, List.mem_singleton] at hk
          subst hk; decide
        · cases h; cases hk

theorem keys_parseAudioMetadata (buf : Buffer) (doc : Document)
    (h : parseAudioMetadata buf = .ok doc) : ∀ k ∈ doc.map Prod.fst, k ∈ parserCategories := by
  unfold parseAudioMetadata at h
  intro k hk
  split at h
  · split at h
    · cases h
    · cases h
      split at hk
      · simp only [List.map_cons, List.map_nil, List.mem_singleton] at hk
        subst hk; decide
      · cases hk
  · split at h
    · cases h
      simp only [List.map_cons, List.map_nil, List.mem_singleton] at hk
      subst hk; decide
    · split at h
      · cases h
        split at hk
        · simp only [List.map_cons, List.map_nil, List.mem_singleton] at hk
          subst hk; decide
        · cases hk
      · cases h; cases hk

theorem keys_parseVideoMetadata (buf : Buffer) :
    ∀ k ∈ (parseVideoMetadata buf).map Prod.fst, k ∈ parserCategories := by
  intro k hk
  unfold parseVideoMetadata at hk
  repeat' split at hk
  all_goals first
    | (simp only [List.map_cons, List.map_nil, List.mem_singleton] at hk
       subst hk; decide)
    | cases hk

theorem keys_parsePDFMetadata (buf : Buffer) :
    ∀ k ∈ (parsePDFMetadata buf).map Prod.fst, k ∈ parserCategories := by
  intro k hk
  unfold parsePDFMetadata at hk
  split at hk
  · simp only at hk
    split at hk
    · rcases mem_keys_setProp _ _ _ _ hk with rfl | hk
      · decide
      · split at hk
        · simp only [List.map_cons, List.map_nil, List.mem_singleton] at hk
          subst hk; decide
        · cases hk
    · split at hk
      · simp only [List.map_cons, List.map_nil, List.mem_singleton] at hk
        subst hk; decide
      · cases hk
  · cases hk

theorem keys_parseArchiveMetadata (buf : Buffer) (signature : Option JSString) :
    ∀ k ∈ (parseArchiveMetadata buf signature).map Prod.fst, k ∈ parserCategories := by
  intro k hk
  simp only [parseArchiveMetadata, List.map_cons, List.map_nil, List.mem_singleton] at hk
  subst hk; decide

theorem keys_parseByType (file : File) (buf : Buffer) (signature : Option JSString)
    (parsed : Document) (h : parseByType file buf signature = .ok parsed) :
    ∀ k ∈ parsed.map Prod.fst, k ∈ parserCategories := by
  unfold parseByType at h
  split at h
  · exact keys_parseImageMetadata buf parsed h
  · split at h
    · exact keys_parseAudioMetadata buf parsed h
    · split at h
      · cases h; exact keys_parseVideoMetadata buf
      · split at h
        · cases h; exact keys_parsePDFMetadata buf
        · split at h
          · cases h; exact keys_parseArchiveMetadata buf signature
          · cases h; intro k hk; cases hk

theorem parseFileMetadata_lookup (file : File) (buf : Buffer) (doc : Document)
    (h : parseFileMetadata file buf = .ok doc) :
    getProp doc (str "File Information")
        = some (strFields (fileInformation file (detectFileSignature buf)))
    ∧ getProp doc (str "Binary Information")
        = some (strFields [(str "First 16 bytes (hex)", getHexString buf 0 16),
            (str "File header", getFileHeaderInfo buf)])
    ∧ ∃ parsed, parseByType file buf (detectFileSignature buf) = .ok parsed
        ∧ ∀ k ∈ parsed.map Prod.fst, k ∈ parserCategories := by
  unfold parseFileMetadata at h
  split at h
  · cases h
  · rename_i parsed hparsed
    cases h
    have hkeys := keys_parseByType file buf _ parsed hparsed
    have hfi : str "File Information" ∉ parsed.map Prod.fst := fun hm =>
      absurd (hkeys _ hm) (by decide)
    refine ⟨?_, ?_, parsed, hparsed, hkeys⟩
    · rw [getProp_setProp_of_ne _ _ _ _ (by decide),
        getProp_objectAssign_of_not_mem parsed _ _ hfi]
      rfl
    · rw [getProp_setProp_self _ _ _ (by decide), binaryInformation_eq]

/-- C16: a document returned by `parseFileMetadata` has the category `File Information`,
holding the fields built from the file and the detected signature, and the category
`Binary Information`, holding exactly `First 16 bytes (hex)` and `File header`; the
output of the format parser that ran has neither name among its categories. -/
theorem parseFileMetadata_fixed_categories (file : File) (buf : Buffer) (doc : Document)
    (h : parseFileMetadata file buf = .ok doc) :
    getProp doc (str "File Information")
        = some (strFields (fileInformation file (detectFileSignature buf)))
    ∧ getProp doc (str "Binary Information")
        = some (strFields [(str "First 16 bytes (hex)", getHexString buf 0 16),
            (str "File header", getFileHeaderInfo buf)])
    ∧ ∃ parsed, parseByType file buf (detectFileSignature buf) = .ok parsed
        ∧ getProp parsed (str "File Information") = none
        ∧ getProp parsed (str "Binary Information") = none
        ∧ ∀ k ∈ parsed.map Prod.fst, k ∈ parserCategories := by
  obtain ⟨h1, h2, parsed, hparsed, hkeys⟩ := parseFileMetadata_lookup file buf doc h
  exact ⟨h1, h2, parsed, hparsed,
    getProp_eq_none_of_not_mem _ _ (fun hm => absurd (hkeys _ hm) (by decide)),
    getProp_eq_none_of_not_mem _ _ (fun hm => absurd (hkeys _ hm) (by decide)), hkeys⟩

set_option maxRecDepth 100000 in
/-- The PNG sample read with the declared type `image/png`: both categories are present,
around the two categories of the PNG parser. -/
theorem parseFileMetadata_fixed_categories_witness :
    ∃ doc, parseFileMetadata (fileOfType "image/png") pngSample = .ok doc
      ∧ doc.map Prod.fst = [str "File Information", str "PNG Metadata",
          str "Image Dimensions", str "Binary Information"]
      ∧ getProp doc (str "File Information")
          = some (strFields (fileInformation (fileOfType "image/png")
              (detectFileSignature pngSample)))
      ∧ getProp doc (str "Binary Information")
          = some (strFields [(str "First 16 bytes (hex)", getHexString pngSample 0 16),
              (str "File header", getFileHeaderInfo pngSample)]) :=
  ⟨_, rfl, rfl,
    (parseFileMetadata_fixed_categories (fileOfType "image/png") pngSample _ rfl).1,
    (parseFileMetadata_fixed_categories (fileOfType "image/png") pngSample _ rfl).2.1⟩

/-! ## Field values -/

theorem forall_values_replaceValue {α : Type} (P : α → Prop) (k : JSString) (v : α)
    (o : JSObj α) (ho : ∀ e ∈ o, P e.2) (hv : P v) : ∀ e ∈ replaceValue k v o, P e.2 := by
  induction o with
  | nil => intro e he; cases he
  | cons a rest ih =>
    obtain ⟨k', v'⟩ := a
    intro e he
    unfold replaceValue at he
    split at he
    · rcases List.mem_cons.1 he with rfl | he
      · exact hv
      · exact ho e (List.mem_cons_of_mem _ he)
    · rcases List.mem_cons.1 he with rfl | he
      · exact ho _ (List.mem_cons_self _ _)
      · exact ih (fun e he => ho e (List.mem_cons_of_mem _ he)) e he

theorem forall_values_insertIndexKey {α : Type} (P : α → Prop) (i : Nat) (k : JSString)
    (v : α) (o : JSObj α) (ho : ∀ e ∈ o, P e.2) (hv : P v) :
    ∀ e ∈ insertIndexKey i k v o, P e.2 := by
  induction o with
  | nil =>
    intro e he
    simp only [insertIndexKey, List.mem_singleton] at he
    subst he; exact hv
  | cons a rest ih =>
    obtain ⟨k', v'⟩ := a
    intro e he
    unfold insertIndexKey at he
    split at he
    · split at he
      · rcases List.mem_cons.1 he with rfl | he
        · exact ho _ (List.mem_cons_self _ _)
        · exact ih (fun e he => ho e (List.mem_cons_of_mem _ he)) e he
      · rcases List.mem_cons.1 he with rfl | he
        · exact hv
        · exact ho e he
    · rcases List.mem_cons.1 he with rfl | he
      · exact hv
      · exact ho e he

theorem forall_values_setProp {α : Type} (P : α → Prop) (o : JSObj α) (k : JSString) (v : α)
    (ho : ∀ e ∈ o, P e.2) (hv : P v) : ∀ e ∈ setProp o k v, P e.2 := by
  unfold setProp
  split
  · exact ho
  · unfold defineProp
    split
    · exact forall_values_replaceValue P k v o ho hv
    · split
      · exact forall_values_insertIndexKey P _ k v o ho hv
      · intro e he
        rcases List.mem_append.1 he with he | he
        · exact ho e he
        · simp only [List.mem_singleton] at he
          subst he; exact hv

theorem forall_values_objectAssign {α : Type} (P : α → Prop) (source : JSObj α) :
    ∀ (target : JSObj α), (∀ e ∈ target, P e.2) → (∀ e ∈ source, P e.2) →
      ∀ e ∈ objectAssign target source, P e.2 := by
  induction source with
  | nil => intro target ht _; exact ht
  | cons a rest ih =>
    intro target ht hs
    have h := ih (setProp target a.1 a.2)
      (forall_values_setProp P target a.1 a.2 ht (hs a (List.mem_cons_self _ _)))
      (fun e he => hs e (List.mem_cons_of_mem _ he))
    simpa only [objectAssign, List.foldl_cons] using h

theorem forall_values_strFields (o : JSObj JSString) : ∀ e ∈ strFields o, IsString e.2 := by
  intro e he
  simp only [strFields, List.mem_map] at he
  obtain ⟨a, _, rfl⟩ := he
  exact ⟨a.2, rfl⟩

theorem forall_values_mergeOriginal (P : JSValue → Prop) (hP : ∀ s, P (.str s))
    (metadata : JSObj JSString) :
    ∀ (o : JSObj JSValue), (∀ e ∈ o, P e.2) → ∀ e ∈ mergeOriginal metadata o, P e.2 := by
  induction metadata with
  | nil => intro o ho; exact ho
  | cons a rest ih =>
    intro o ho
    have h := ih (setProp o a.1 (.str a.2)) (forall_values_setProp P o a.1 _ ho (hP a.2))
    simpa only [mergeOriginal, List.foldl_cons] using h

theorem forall_values_addPrompts (P : JSValue → Prop) (texts : List JSValue) :
    ∀ (i : Nat) (o : JSObj JSValue), (∀ e ∈ o, P e.2) → (∀ t ∈ texts, P t) →
      ∀ e ∈ addPrompts texts i o, P e.2 := by
  induction texts with
  | nil => intro i o ho _; exact ho
  | cons t ts ih =>
    intro i o ho ht
    unfold addPrompts
    exact ih (i + 1) _ (forall_values_setProp P o _ t ho (ht t (List.mem_cons_self _ _)))
      (fun t' h => ht t' (List.mem_cons_of_mem _ h))

theorem values_parsePNGChunks (buf : Buffer) (fields : JSObj JSValue)
    (h : parsePNGChunks buf = .ok fields) : ∀ e ∈ fields, StringOrCollected buf e.2 := by
  unfold parsePNGChunks at h
  split at h
  · cases h
  · rename_i metadata hcollect
    split at h
    · cases h
    · rename_i texts htexts
      split at h
      · rename_i finalMetadata hbuild
        cases h
        unfold buildNewMetadata at hbuild
        split at hbuild
        · cases hbuild
        · cases hbuild
          exact forall_values_mergeOriginal _ (fun s => Or.inl ⟨s, rfl⟩) metadata _
            (forall_values_addPrompts _ texts 0 [] (fun e he => by cases he)
              (fun t ht => Or.inr ⟨metadata, texts, hcollect, htexts, ht⟩))
      · cases h
        exact fun e he => Or.inl (forall_values_strFields metadata e he)

theorem stringOrCollected_strFields (buf : Buffer) (o : JSObj JSString) :
    ∀ e ∈ strFields o, StringOrCollected buf e.2 :=
  fun e he => Or.inl (forall_values_strFields o e he)

theorem forall_values_single (buf : Buffer) (k : JSString) (o : JSObj JSString) :
    ∀ c ∈ [(k, strFields o)], ∀ e ∈ c.2, StringOrCollected buf e.2 := by
  intro c hc
  simp only [List.mem_singleton] at hc
  subst hc
  exact stringOrCollected_strFields buf o

theorem values_parseImageMetadata (buf : Buffer) (doc : Document)
    (h : parseImageMetadata buf = .ok doc) :
    ∀ c ∈ doc, ∀ e ∈ c.2, StringOrCollected buf e.2 := by
  unfold parseImageMetadata at h
  split at h
  · split at h
    · cases h
    · rename_i pngData hpng
      have hdata := values_parsePNGChunks buf pngData hpng
      have hmeta : ∀ c ∈ (if 0 < pngData.length then [(str "PNG Metadata", pngData)] else []),
          ∀ e ∈ c.2, StringOrCollected buf e.2 := by
        intro c hc
        split at hc
        · simp only [List.mem_singleton] at hc
          subst hc; exact hdata
        · cases hc
      simp only at h
      split at h
      · split at h
        · cases h
          exact forall_values_setProp (fun (fields : JSObj JSValue) => ∀ e ∈ fields, StringOrCollected buf e.2)
            _ _ _ hmeta (stringOrCollected_strFields buf _)
        · cases h
        · cases h
      · cases h
        exact hmeta
  · split at h
    · split at h
      · cases h
      · cases h
        intro c hc
        split at hc
        · exact forall_values_single buf _ _ c hc
        · cases hc
    · split at h
      · split at h
        · split at h
          · cases h
            exact forall_values_single buf _ _
          · cases h
          · cases h
        · cases h; intro c hc; cases hc
      · split at h
        · cases h
          exact forall_values_single buf _ _
        · cases h; intro c hc; cases hc

theorem values_parseAudioMetadata (buf : Buffer) (doc : Document)
    (h : parseAudioMetadata buf = .ok doc) :
    ∀ c ∈ doc, ∀ e ∈ c.2, StringOrCollected buf e.2 := by
  unfold parseAudioMetadata at h
  split at h
  · split at h
    · cases h
    · cases h
      intro c hc
      split at hc
      · exact forall_values_single buf _ _ c hc
      · cases hc
  · split at h
    · cases h
      exact forall_values_single buf _ _
    · split at h
      · cases h
        intro c hc
        split at hc
        · exact forall_values_single buf _ _ c hc
        · cases hc
      · cases h; intro c hc; cases hc

theorem values_parseVideoMetadata (buf : Buffer) :
    ∀ c ∈ parseVideoMetadata buf, ∀ e ∈ c.2, StringOrCollected buf e.2 := by
  intro c hc
  unfold parseVideoMetadata at hc
  repeat' split at hc
  all_goals first
    | exact forall_values_single buf _ _ c hc
    | cases hc

theorem values_parsePDFMetadata (buf : Buffer) :
    ∀ c ∈ parsePDFMetadata buf, ∀ e ∈ c.2, StringOrCollected buf e.2 := by
  unfold parsePDFMetadata
  split
  · have hmeta : ∀ c ∈ (match firstMatch pdfVersionHere (getString buf 0 1024) with
        | some version => [(str "PDF Information", strFields (objectLiteral
            [(str "Version", version), (str "Format", str "Portable Document Format")]))]
        | none => ([] : Document)),
        ∀ e ∈ c.2, StringOrCollected buf e.2 := by
      intro c hc
      split at hc
      · exact forall_values_single buf _ _ c hc
      · cases hc
    simp only
    split
    · exact forall_values_setProp (fun (fields : JSObj JSValue) => ∀ e ∈ fields, StringOrCollected buf e.2)
        _ _ _ hmeta (stringOrCollected_strFields buf _)
    · exact hmeta
  · intro c hc; cases hc

theorem values_parseArchiveMetadata (buf : Buffer) (signature : Option JSString) :
    ∀ c ∈ parseArchiveMetadata buf signature, ∀ e ∈ c.2, StringOrCollected buf e.2 := by
  unfold parseArchiveMetadata
  exact forall_values_single buf _ _

theorem values_parseByType (file : File) (buf : Buffer) (signature : Option JSString)
    (parsed : Document) (h : parseByType file buf signature = .ok parsed) :
    ∀ c ∈ parsed, ∀ e ∈ c.2, StringOrCollected buf e.2 := by
  unfold parseByType at h
  split at h
  · exact values_parseImageMetadata buf parsed h
  · split at h
    · exact values_parseAudioMetadata buf parsed h
    · split at h
      · cases h; exact values_parseVideoMetadata buf
      · split at h
        · cases h; exact values_parsePDFMetadata buf
        · split at h
          · cases h; exact values_parseArchiveMetadata buf signature
          · cases h; intro c hc; cases hc

/-- C17, amended: every field value of a document returned by `parseFileMetadata`, and
every value of the map returned by `parsePNGChunks`, is a string or one of the values the
prompt extractor collected from the field `prompt` of the PNG field map, which is stored
as it was parsed; so all values are strings when the collected texts are. -/
theorem parseFileMetadata_values (file : File) (buf : Buffer) :
    (∀ doc, parseFileMetadata file buf = .ok doc →
      ∀ c ∈ doc, ∀ e ∈ c.2, StringOrCollected buf e.2)
    ∧ (∀ fields, parsePNGChunks buf = .ok fields → ∀ e ∈ fields, StringOrCollected buf e.2)
    ∧ ((∀ metadata texts, pngCollect buf = .ok metadata →
          extractTextsFromJSON (getProp metadata (str "prompt")) = .ok texts →
          ∀ t ∈ texts, IsString t) →
        (∀ doc, parseFileMetadata file buf = .ok doc → ∀ c ∈ doc, ∀ e ∈ c.2, IsString e.2)
        ∧ (∀ fields, parsePNGChunks buf = .ok fields → ∀ e ∈ fields, IsString e.2)) := by
  have hdoc : ∀ doc, parseFileMetadata file buf = .ok doc →
      ∀ c ∈ doc, ∀ e ∈ c.2, StringOrCollected buf e.2 := by
    intro doc h
    unfold parseFileMetadata at h
    split at h
    · cases h
    · rename_i parsed hparsed
      cases h
      exact forall_values_setProp (fun (fields : JSObj JSValue) => ∀ e ∈ fields, StringOrCollected buf e.2)
        _ _ _
        (forall_values_objectAssign (fun (fields : JSObj JSValue) => ∀ e ∈ fields, StringOrCollected buf e.2)
          parsed _ (forall_values_single buf _ _) (values_parseByType file buf _ parsed hparsed))
        (stringOrCollected_strFields buf _)
  have hstr : (∀ metadata texts, pngCollect buf = .ok metadata →
      extractTextsFromJSON (getProp metadata (str "prompt")) = .ok texts →
      ∀ t ∈ texts, IsString t) → ∀ v, StringOrCollected buf v → IsString v := by
    intro hall v hv
    rcases hv with hv | ⟨metadata, texts, hc, ht, hmem⟩
    · exact hv
    · exact hall metadata texts hc ht v hmem
  exact ⟨hdoc, values_parsePNGChunks buf,
    fun hall => ⟨fun doc h c hc e he => hstr hall _ (hdoc doc h c hc e he),
      fun fields h e he => hstr hall _ (values_parsePNGChunks buf fields h e he)⟩⟩

set_option maxRecDepth 100000 in
/-- A PNG whose `prompt` holds the graph of the specification's example: the collected text
is a string, and so is the value of the synthetic field. -/
theorem parseFileMetadata_values_witness :
    (∃ fields, parsePNGChunks (pngFile [⟨ascii "tEXt", ascii "prompt" ++ [0] ++ ascii graphText,
          [0, 0, 0, 0]⟩, ⟨ascii "IEND", [], [0, 0, 0, 0]⟩]) = .ok fields
      ∧ getProp fields (str "[Exp] P.Text - 1") = some (.str (str "a cat sitting")))
    ∧ IsString (.str (str "a cat sitting")) :=
  ⟨⟨_, rfl, rfl⟩,
   ((parseFileMetadata_values (fileOfType "image/png")
      (pngFile [⟨ascii "tEXt", ascii "prompt" ++ [0] ++ ascii graphText, [0, 0, 0, 0]⟩,
        ⟨ascii "IEND", [], [0, 0, 0, 0]⟩])).2.2
      (fun metadata texts hc ht t hmem => by
        have hc0 : pngCollect (pngFile [⟨ascii "tEXt", ascii "prompt" ++ [0] ++ ascii graphText,
            [0, 0, 0, 0]⟩, ⟨ascii "IEND", [], [0, 0, 0, 0]⟩])
            = .ok (withDimensions [(str "prompt", str graphText)] 1886547821 1886650491) := rfl
        rw [hc0] at hc
        cases hc
        have ht0 : extractTextsFromJSON
            (getProp (withDimensions [(str "prompt", str graphText)] 1886547821 1886650491)
              (str "prompt")) = .ok [.str (str "a cat sitting")] := rfl
        rw [ht0] at ht
        cases ht
        simp only [List.mem_singleton] at hmem
        exact ⟨_, hmem⟩)).2 _ (by rfl) (_, _) (List.Mem.head _)⟩

set_option maxRecDepth 100000 in
/-- C17 as stated fails: an encoder node whose `text` input is an array of four strings
puts that array, not a string, under `[Exp] P.Text - 1`, in the map of `parsePNGChunks`
and in the category `PNG Metadata` of the document. -/
theorem parsePNGChunks_array_value :
    (∃ fields, parsePNGChunks (pngFile [⟨ascii "tEXt",
          ascii "prompt" ++ [0] ++ ascii graphTextArray, [0, 0, 0, 0]⟩,
          ⟨ascii "IEND", [], [0, 0, 0, 0]⟩]) = .ok fields
      ∧ getProp fields (str "[Exp] P.Text - 1")
          = some (.arr [.str (str "a"), .str (str "b"), .str (str "c"), .str (str "d")]))
    ∧ (∃ doc fields, parseFileMetadata (fileOfType "image/png") (pngFile [⟨ascii "tEXt",
          ascii "prompt" ++ [0] ++ ascii graphTextArray, [0, 0, 0, 0]⟩,
          ⟨ascii "IEND", [], [0, 0, 0, 0]⟩]) = .ok doc
      ∧ getProp doc (str "PNG Metadata") = some fields
      ∧ getProp fields (str "[Exp] P.Text - 1")
          = some (.arr [.str (str "a"), .str (str "b"), .str (str "c"), .str (str "d")]))
    ∧ ¬ IsString (.arr [.str (str "a"), .str (str "b"), .str (str "c"), .str (str "d")]) :=
  ⟨⟨_, rfl, rfl⟩, ⟨_, _, rfl, rfl, rfl⟩, fun h => by obtain ⟨s, hs⟩ := h; cases hs⟩

/-! ## Synchsafe integers -/

theorem synchsafe_or_eq_add (a b c d : Nat) (hb : b < 128) (hc : c < 128) (hd : d < 128) :
    (a <<< 21) ||| (b <<< 14) ||| (c <<< 7) ||| d = a * 2 ^ 21 + b * 2 ^ 14 + c * 2 ^ 7 + d := by
  rw [Nat.or_assoc, Nat.or_assoc]
  simp only [Nat.shiftLeft_eq]
  have h1 : c * 2 ^ 7 ||| d = c * 2 ^ 7 + d := by
    rw [Nat.mul_comm c, Nat.mul_add_lt_is_or (by omega)]
  have h2 : b * 2 ^ 14 ||| (c * 2 ^ 7 + d) = b * 2 ^ 14 + (c * 2 ^ 7 + d) := by
    rw [Nat.mul_comm b, Nat.mul_add_lt_is_or (by omega)]
  have h3 : a * 2 ^ 21 ||| (b * 2 ^ 14 + (c * 2 ^ 7 + d))
      = a * 2 ^ 21 + (b * 2 ^ 14 + (c * 2 ^ 7 + d)) := by
    rw [Nat.mul_comm a, Nat.mul_add_lt_is_or (by omega)]
  rw [h1, h2, h3]
  omega

/-- C18: inside the buffer `getSynchsafeInt` returns `(b0<<21)|(b1<<14)|(b2<<7)|b3` for the
four bytes at the offset; when the four bytes are below 128 this is
`b0*2^21 + b1*2^14 + b2*2^7 + b3`, it is below `2^28`, and two such quadruples with the
same result are the same bytes. -/
theorem getSynchsafeInt_spec (buf : Buffer) (offset : Nat) (h : offset + 4 ≤ buf.length) :
    getSynchsafeInt buf offset
      = .ok ((byteAt buf offset <<< 21) ||| (byteAt buf (offset + 1) <<< 14)
          ||| (byteAt buf (offset + 2) <<< 7) ||| byteAt buf (offset + 3))
    ∧ (byteAt buf offset < 128 → byteAt buf (offset + 1) < 128 →
        byteAt buf (offset + 2) < 128 → byteAt buf (offset + 3) < 128 →
        getSynchsafeInt buf offset
          = .ok (byteAt buf offset * 2 ^ 21 + byteAt buf (offset + 1) * 2 ^ 14
              + byteAt buf (offset + 2) * 2 ^ 7 + byteAt buf (offset + 3))
        ∧ byteAt buf offset * 2 ^ 21 + byteAt buf (offset + 1) * 2 ^ 14
              + byteAt buf (offset + 2) * 2 ^ 7 + byteAt buf (offset + 3) < 2 ^ 28
        ∧ ∀ (buf' : Buffer) (offset' : Nat), offset' + 4 ≤ buf'.length →
            byteAt buf' offset' < 128 → byteAt buf' (offset' + 1) < 128 →
            byteAt buf' (offset' + 2) < 128 → byteAt buf' (offset' + 3) < 128 →
            getSynchsafeInt buf' offset' = getSynchsafeInt buf offset →
            byteAt buf' offset' = byteAt buf offset
            ∧ byteAt buf' (offset' + 1) = byteAt buf (offset + 1)
            ∧ byteAt buf' (offset' + 2) = byteAt buf (offset + 2)
            ∧ byteAt buf' (offset' + 3) = byteAt buf (offset + 3)) := by
  have hdef : ∀ (b : Buffer) (o : Nat), o + 4 ≤ b.length →
      getSynchsafeInt b o = .ok ((byteAt b o <<< 21) ||| (byteAt b (o + 1) <<< 14)
        ||| (byteAt b (o + 2) <<< 7) ||| byteAt b (o + 3)) := by
    intro b o hb
    rw [getSynchsafeInt, if_pos hb]
  refine ⟨hdef buf offset h, ?_⟩
  intro h0 h1 h2 h3
  refine ⟨?_, by omega, ?_⟩
  · rw [hdef buf offset h, synchsafe_or_eq_add _ _ _ _ h1 h2 h3]
  · intro buf' offset' h' g0 g1 g2 g3 heq
    rw [hdef buf offset h, hdef buf' offset' h', synchsafe_or_eq_add _ _ _ _ h1 h2 h3,
      synchsafe_or_eq_add _ _ _ _ g1 g2 g3] at heq
    have heq' := Except.ok.inj heq
    omega

/-- The bytes `00 00 02 01` decode to 257, also behind six bytes of an ID3 header. -/
theorem getSynchsafeInt_spec_witness :
    getSynchsafeInt [0x00, 0x00, 0x02, 0x01] 0 = .ok 257
    ∧ getSynchsafeInt (ascii "ID3\x03\x00\x00" ++ [0x00, 0x00, 0x02, 0x01]) 6 = .ok 257 :=
  ⟨((getSynchsafeInt_spec [0x00, 0x00, 0x02, 0x01] 0 (by decide)).2
      (by decide) (by decide) (by decide) (by decide)).1,
   ((getSynchsafeInt_spec (ascii "ID3\x03\x00\x00" ++ [0x00, 0x00, 0x02, 0x01]) 6 (by decide)).2
      (by decide) (by decide) (by decide) (by decide)).1⟩

/-! ## The binary preview -/

set_option maxRecDepth 100000 in
theorem hexByte_eq : ∀ b : Byte, toUpperCase (padStart2 (toString16 b.val)) = hexByte b := by
  decide

set_option maxRecDepth 100000 in
theorem hexByte_not_trim : ∀ b : Byte,
    isTrimUnit (hexDigitChar (b.val / 16)) = false
      ∧ isTrimUnit (hexDigitChar (b.val % 16)) = false := by
  decide

theorem trim_append_space (j : JSString)
    (hhead : ∃ a t, j = a :: t ∧ isTrimUnit a = false)
    (hlast : ∃ i l, j = i ++ [l] ∧ isTrimUnit l = false) : trim (j ++ [32]) = j := by
  obtain ⟨a, t, hj, ha⟩ := hhead
  obtain ⟨i, l, hj', hl⟩ := hlast
  unfold trim
  have h1 : (j ++ [32]).dropWhile isTrimUnit = j ++ [32] := by
    rw [hj, List.cons_append, List.dropWhile_cons_of_neg (by simp [ha])]
  rw [h1, List.reverse_append, List.reverse_singleton, List.singleton_append,
    List.dropWhile_cons_of_pos (by decide)]
  have h2 : j.reverse.dropWhile isTrimUnit = j.reverse := by
    rw [hj', List.reverse_append, List.reverse_singleton, List.singleton_append,
      List.dropWhile_cons_of_neg (by simp [hl])]
  rw [h2, List.reverse_reverse]

theorem hexRun_eq (b : Byte) (rest : List Byte) :
    (b :: rest).flatMap (fun b => hexByte b ++ [32])
        = joinWith (str " ") ((b :: rest).map hexByte) ++ [32]
    ∧ (∃ a t, joinWith (str " ") ((b :: rest).map hexByte) = a :: t ∧ isTrimUnit a = false)
    ∧ (∃ i l, joinWith (str " ") ((b :: rest).map hexByte) = i ++ [l] ∧ isTrimUnit l = false)
    ∧ (joinWith (str " ") ((b :: rest).map hexByte)).length + 1 = 3 * (rest.length + 1) := by
  induction rest generalizing b with
  | nil =>
    refine ⟨rfl, ⟨_, _, rfl, (hexByte_not_trim b).1⟩,
      ⟨[hexDigitChar (b.val / 16)], _, rfl, (hexByte_not_trim b).2⟩, rfl⟩
  | cons c rest ih =>
    obtain ⟨h1, _, ⟨i, l, h3, hl⟩, h4⟩ := ih c
    have hj : joinWith (str " ") ((b :: c :: rest).map hexByte)
        = hexByte b ++ str " " ++ joinWith (str " ") ((c :: rest).map hexByte) := rfl
    refine ⟨?_, ⟨_, _, by rw [hj]; rfl, (hexByte_not_trim b).1⟩,
      ⟨hexByte b ++ str " " ++ i, l, by rw [hj, h3]; simp only [List.append_assoc], hl⟩, ?_⟩
    · rw [List.flatMap_cons, h1, hj]
      simp [str, List.append_assoc]
    · have hs : (str " ").length = 1 := rfl
      have hb : (hexByte b).length = 2 := rfl
      rw [hj, List.length_append, List.length_append, hs, hb, List.length_cons]
      omega

theorem getHexString_eq (buf : Buffer) :
    getHexString buf 0 16 = joinWith (str " ") ((buf.take 16).map hexByte) := by
  have hrun : ((buf.take (min (0 + 16) buf.length)).drop 0).flatMap
      (fun b => toUpperCase (padStart2 (toString16 b.val)) ++ [32])
      = (buf.take 16).flatMap (fun b => hexByte b ++ [32]) := by
    rw [List.drop_zero, Nat.zero_add, ← List.take_take, List.take_length]
    congr 1
    funext b
    rw [hexByte_eq]
  unfold getHexString
  rw [hrun]
  cases h : buf.take 16 with
  | nil => rfl
  | cons b rest =>
    obtain ⟨h1, h2, h3, _⟩ := hexRun_eq b rest
    rw [h1, trim_append_space _ h2 h3]

theorem getFileHeaderInfo_eq (buf : Buffer) :
    getFileHeaderInfo buf = (buf.take 100).map printable := by
  have h : (buf.take (min buf.length 256)).take 100 = buf.take 100 := by
    rw [List.take_take]
    by_cases hl : 100 ≤ buf.length
    · congr 1; omega
    · rw [List.take_of_length_le (by omega), List.take_of_length_le (by omega)]
  unfold getFileHeaderInfo
  rw [← List.map_take, h]
  rfl

theorem getD_map_take (buf : Buffer) (n i : Nat) (h : i < min buf.length n) :
    ((buf.take n).map printable).getD i 0
      = if 32 ≤ byteAt buf i ∧ byteAt buf i ≤ 126 then byteAt buf i else 46 := by
  have hi : i < buf.length := by omega
  have hn : i < n := by omega
  have hlen : i < ((buf.take n).map printable).length := by
    rw [List.length_map, List.length_take]; omega
  rw [List.getD_eq_getElem _ _ hlen, List.getElem_map, List.getElem_take]
  unfold printable byteAt
  rw [List.getD_eq_getElem _ _ hi]

/-- C19: for every buffer, `First 16 bytes (hex)` is the first `min(16, n)` bytes, each as
two upper-case hexadecimal digits, joined by single spaces (`3 * min(16, n) - 1`
characters, none for the empty buffer), and `File header` has `min(n, 100)` characters,
the `i`-th being byte `i` when it lies in `32..126` and a dot otherwise; these are the two
fields of `Binary Information` in every document. -/
theorem binaryInformation_spec (buf : Buffer) :
    binaryInformation buf
      = [(str "First 16 bytes (hex)", joinWith (str " ") ((buf.take 16).map hexByte)),
         (str "File header", (buf.take 100).map printable)]
    ∧ (getHexString buf 0 16).length = 3 * min 16 buf.length - 1
    ∧ (getFileHeaderInfo buf).length = min buf.length 100
    ∧ (∀ i, i < min buf.length 100 → (getFileHeaderInfo buf).getD i 0
        = if 32 ≤ byteAt buf i ∧ byteAt buf i ≤ 126 then byteAt buf i else 46)
    ∧ (∀ file doc, parseFileMetadata file buf = .ok doc →
        getProp doc (str "Binary Information")
          = some (strFields
              [(str "First 16 bytes (hex)", joinWith (str " ") ((buf.take 16).map hexByte)),
               (str "File header", (buf.take 100).map printable)])) := by
  refine ⟨?_, ?_, ?_, ?_, ?_⟩
  · rw [binaryInformation_eq, getHexString_eq, getFileHeaderInfo_eq]
  · rw [getHexString_eq]
    cases h : buf.take 16 with
    | nil =>
      have hl := congrArg List.length h
      rw [List.length_take] at hl
      simp only [List.length_nil] at hl
      rw [hl]
      rfl
    | cons b rest =>
      have hl := congrArg List.length h
      rw [List.length_take, List.length_cons] at hl
      obtain ⟨_, _, _, h4⟩ := hexRun_eq b rest
      omega
  · rw [getFileHeaderInfo_eq, List.length_map, List.length_take, Nat.min_comm]
  · intro i hi
    rw [getFileHeaderInfo_eq]
    exact getD_map_take buf 100 i hi
  · intro file doc h
    rw [(parseFileMetadata_lookup file buf doc h).2.1, getHexString_eq, getFileHeaderInfo_eq]

set_option maxRecDepth 100000 in
/-- Ten bytes of an ID3 header, and the empty buffer. -/
theorem binaryInformation_spec_witness :
    (∃ doc, parseFileMetadata (fileOfType "") (ascii "ID3\x03\x00\x00\x00\x00\x02\x01") = .ok doc
      ∧ getProp doc (str "Binary Information")
        = some (strFields
            [(str "First 16 bytes (hex)", str "49 44 33 03 00 00 00 00 02 01"),
             (str "File header", str "ID3.......")]))
    ∧ binaryInformation []
      = [(str "First 16 bytes (hex)", str ""), (str "File header", str "")] :=
  ⟨⟨_, rfl, (binaryInformation_spec (ascii "ID3\x03\x00\x00\x00\x00\x02\x01")).2.2.2.2
      (fileOfType "") _ (by rfl)⟩,
   (binaryInformation_spec []).1⟩

/-! ## The WAV header -/

theorem normShift_spec (a c : Nat) : ∀ (fuel k : Nat),
    (∃ j, k ≤ j ∧ j ≤ k + fuel ∧ 2 ^ 52 * c ≤ a * 2 ^ j) →
    2 ^ 52 * c ≤ a * 2 ^ normShift a c fuel k := by
  intro fuel
  induction fuel with
  | zero =>
    rintro k ⟨j, h1, h2, h3⟩
    have : j = k := by omega
    subst this
    exact h3
  | succ fuel ih =>
    rintro k ⟨j, h1, h2, h3⟩
    unfold normShift
    split
    · assumption
    · rename_i hk
      apply ih
      refine ⟨j, ?_, by omega, h3⟩
      rcases Nat.eq_or_lt_of_le h1 with rfl | hlt
      · exact absurd h3 hk
      · exact hlt

theorem roundHalfEven_near (n d : Nat) (hd : 0 < d) :
    2 * (d * roundHalfEven n d) ≤ 2 * n + d ∧ 2 * n ≤ 2 * (d * roundHalfEven n d) + d := by
  have h := Nat.div_add_mod n d
  have hm := Nat.mod_lt n hd
  unfold roundHalfEven
  generalize n / d = q at *
  generalize n % d = r at *
  have hq1 : d * (q + 1) = d * q + d := by ring
  split
  · constructor <;> omega
  · split
    · rw [hq1]; constructor <;> omega
    · split
      · constructor <;> omega
      · rw [hq1]; constructor <;> omega

theorem u32LEAt_lt (buf : Buffer) (i : Nat) : u32LEAt buf i < 2 ^ 32 := by
  have h : ∀ j, byteAt buf j < 256 := fun j => (buf.getD j 0).isLt
  have h0 := h i
  have h1 := h (i + 1)
  have h2 := h (i + 2)
  have h3 := h (i + 3)
  unfold u32LEAt
  omega

theorem mathRound_doubleDiv (b : Nat) (hb : b < 2 ^ 32) :
    mathRound (doubleDiv (b * 8) 1000) = (b * 8 + 500) / 1000 := by
  by_cases h0 : b = 0
  · subst h0; rfl
  · have ha : b * 8 ≠ 0 := by omega
    unfold doubleDiv
    rw [if_neg ha]
    have hshift := normShift_spec (b * 8) 1000 1074 0
      ⟨62, by omega, by omega, by
        have : 1 * 2 ^ 62 ≤ b * 8 * 2 ^ 62 := Nat.mul_le_mul_right _ (by omega)
        omega⟩
    generalize normShift (b * 8) 1000 1074 0 = k at hshift
    have hnear := roundHalfEven_near (b * 8 * 2 ^ k) 1000 (by omega)
    generalize roundHalfEven (b * 8 * 2 ^ k) 1000 = m at hnear
    unfold mathRound
    simp only
    rw [pow_succ]
    generalize hP : 2 ^ k = P at *
    have hdiv := Nat.div_add_mod (b * 8 + 500) 1000
    have hmod := Nat.mod_lt (b * 8 + 500) (show 0 < 1000 by omega)
    generalize hn : (b * 8 + 500) / 1000 = n₀ at *
    generalize hr : (b * 8 + 500) % 1000 = r at *
    have hTle : b * 8 * P ≤ 2 ^ 35 * P := Nat.mul_le_mul_right _ (by omega)
    have hr4 : 4 ≤ r ∧ r ≤ 996 := by omega
    have hY1 : 4 * P ≤ r * P := Nat.mul_le_mul_right _ hr4.1
    have hY2 : r * P ≤ 996 * P := Nat.mul_le_mul_right _ hr4.2
    have hT : b * 8 * P + 500 * P = 1000 * (n₀ * P) + r * P := by
      have : (b * 8 + 500) * P = (1000 * n₀ + r) * P := by rw [hdiv]
      linarith [this]
    have e1 : n₀ * (P * 2) = 2 * (n₀ * P) := by ring
    have e2 : (n₀ + 1) * (P * 2) = 2 * (n₀ * P) + 2 * P := by ring
    apply Nat.div_eq_of_lt_le
    · rw [e1]
      generalize b * 8 * P = T at *
      generalize n₀ * P = X at *
      generalize r * P = Y at *
      omega
    · rw [e2]
      generalize b * 8 * P = T at *
      generalize n₀ * P = X at *
      generalize r * P = Y at *
      omega

/-- C20: with 44 bytes or more and `WAVE` at offset 8, `parseWAVHeader` returns the format
name, `Channels` (little-endian u16 at 22), `Sample Rate` (little-endian u32 at 24, then
` Hz`), `Bit Depth` (little-endian u16 at 34, then ` bits`) and `Bitrate`, which is
`floor((8 * byteRate + 500) / 1000)` followed by ` kbps` for the little-endian u32
`byteRate` at 28: the double division and `Math.round` give that integer for every byte
rate. Without `WAVE` at offset 8 the map is empty. -/
theorem parseWAVHeader_spec (buf : Buffer) :
    (44 ≤ buf.length → getString buf 8 4 = str "WAVE" →
      parseWAVHeader buf =
        [(str "Format", str "WAV Audio"),
         (str "Channels", decimal (u16LEAt buf 22)),
         (str "Sample Rate", decimal (u32LEAt buf 24) ++ str " Hz"),
         (str "Bit Depth", decimal (u16LEAt buf 34) ++ str " bits"),
         (str "Bitrate", decimal ((8 * u32LEAt buf 28 + 500) / 1000) ++ str " kbps")])
    ∧ (getString buf 8 4 ≠ str "WAVE" → parseWAVHeader buf = []) := by
  constructor
  · intro hlen hwave
    unfold parseWAVHeader
    rw [if_pos hlen, if_pos hwave, mathRound_doubleDiv _ (u32LEAt_lt buf 28),
      Nat.mul_comm (u32LEAt buf 28) 8]
    rw [setProp_of_new [] _ _ (List.not_mem_nil _) (by decide) (by decide)]
    rw [setProp_of_new _ (str "Channels") _
      (by simp only [List.nil_append, List.map_cons, List.map_nil]; decide)
      (by decide) (by decide)]
    rw [setProp_of_new _ (str "Sample Rate") _
      (by simp only [List.nil_append, List.cons_append, List.map_cons, List.map_nil]; decide)
      (by decide) (by decide)]
    rw [setProp_of_new _ (str "Bit Depth") _
      (by simp only [List.nil_append, List.cons_append, List.map_cons, List.map_nil]; decide)
      (by decide) (by decide)]
    rw [setProp_of_new _ (str "Bitrate") _
      (by simp only [List.nil_append, List.cons_append, List.map_cons, List.map_nil]; decide)
      (by decide) (by decide)]
    rfl
  · intro hwave
    unfold parseWAVHeader
    rw [if_neg hwave]
    split <;> rfl

set_option maxRecDepth 100000 in
/-- The canonical header: 176400 bytes per second give `1411 kbps`; the same bytes with
`WAVX` in place of `WAVE` give nothing. -/
theorem parseWAVHeader_spec_witness :
    parseWAVHeader wavSample =
        [(str "Format", str "WAV Audio"),
         (str "Channels", str "2"),
         (str "Sample Rate", str "44100 Hz"),
         (str "Bit Depth", str "16 bits"),
         (str "Bitrate", str "1411 kbps")]
    ∧ parseWAVHeader (ascii "RIFF" ++ [36, 0, 0, 0] ++ ascii "WAVX" ++ wavSample.drop 12) = [] :=
  ⟨(parseWAVHeader_spec wavSample).1 (by decide) (by decide),
   (parseWAVHeader_spec (ascii "RIFF" ++ [36, 0, 0, 0] ++ ascii "WAVX" ++ wavSample.drop 12)).2
     (by decide)⟩

/-! ## Order of the signature table -/

theorem find?_unique {α : Type} (p : α → Bool) (l : List α) (a : α) (ha : a ∈ l) (hp : p a = true)
    (huniq : ∀ b ∈ l, p b = true → b = a) : l.find? p = some a := by
  cases h : l.find? p with
  | none => exact absurd hp (by simpa using List.find?_eq_none.1 h a ha)
  | some b =>
    have hb : b ∈ l := List.mem_of_find?_eq_some h
    have hpb : p b = true := List.find?_some h
    rw [huniq b hb hpb]

/-- C24: no pattern of the signature table is a prefix of another entry's pattern; hence on
a buffer of four bytes or more at most one entry matches, and the label found is the same
for every order in which the entries are enumerated. The enumeration of the source
starts with the five integer-like keys in ascending order. -/
theorem detectFileSignature_order_free (buf : Buffer) (hlen : 4 ≤ buf.length) :
    (∀ e₁ ∈ signatures, ∀ e₂ ∈ signatures, sigBytes e₁.1 <+: sigBytes e₂.1 → e₁ = e₂)
    ∧ (∀ e₁ ∈ signatures, ∀ e₂ ∈ signatures, sigMatchFrom buf (sigBytes e₁.1) 0 = true →
        sigMatchFrom buf (sigBytes e₂.1) 0 = true → e₁ = e₂)
    ∧ (∀ table : JSObj JSString, table.Perm signatures →
        detectIn table buf = detectFileSignature buf)
    ∧ (signatures.map Prod.fst).take 5
        = [str "494433", str "25504446", str "47494638", str "52494646", str "52617221"]
    ∧ (signatureLiteral.map fun e => str e.1).take 2 = [str "89504E47", str "FFD8FF"] := by
  refine ⟨signatures_prefix_free, ?_, ?_, by decide, by decide⟩
  · intro e₁ h₁ e₂ h₂ m₁ m₂
    exact signatures_match_unique buf hlen e₁ e₂ h₁ h₂ m₁ m₂
  · intro table hperm
    have hdef : detectFileSignature buf = detectIn signatures buf := rfl
    rw [hdef]
    unfold detectIn
    rw [if_neg (by omega), if_neg (by omega)]
    cases h : signatures.find? (fun e => sigMatchFrom buf (sigBytes e.1) 0) with
    | none =>
      have hnone : table.find? (fun e => sigMatchFrom buf (sigBytes e.1) 0) = none := by
        rw [List.find?_eq_none] at h ⊢
        intro e he
        exact h e (hperm.mem_iff.1 he)
      rw [hnone]
    | some a =>
      have ha : a ∈ signatures := List.mem_of_find?_eq_some h
      have hpa : sigMatchFrom buf (sigBytes a.1) 0 = true := by
        simpa using List.find?_some h
      rw [find?_unique _ table a (hperm.mem_iff.2 ha) hpa (fun b hb hpb =>
        signatures_match_unique buf hlen b a (hperm.mem_iff.1 hb) ha hpb hpa)]

set_option maxRecDepth 100000 in
/-- An ID3 buffer searched through the table in the order of the literal and in the
reverse of the enumeration order. -/
theorem detectFileSignature_order_free_witness :
    detectIn signatures.reverse (ascii "ID3\x03\x00") = some (str "MP3 with ID3")
    ∧ detectIn (signatureLiteral.map fun e => (str e.1, str e.2)) (ascii "ID3\x03\x00")
        = some (str "MP3 with ID3") :=
  ⟨((detectFileSignature_order_free (ascii "ID3\x03\x00") (by decide)).2.2.1
      signatures.reverse (List.reverse_perm _)).trans (by decide),
   ((detectFileSignature_order_free (ascii "ID3\x03\x00") (by decide)).2.2.1
      (signatureLiteral.map fun e => (str e.1, str e.2)) (by decide)).trans (by decide)⟩

/-! ## Labels that select no parser -/

/-- C25: with an empty declared type and one of the labels `RIFF (WAV/AVI/WebP)`,
`MP3 with ID3`, `OGG Media`, no test of the dispatch chain succeeds and the document is
`File Information` (with type `Unknown` and the detected format) followed by
`Binary Information`. -/
theorem parseFileMetadata_label_without_family (file : File) (buf : Buffer) (label : JSString)
    (htype : file.type = [])
    (hsig : detectFileSignature buf = some label)
    (hlabel : label = str "RIFF (WAV/AVI/WebP)" ∨ label = str "MP3 with ID3"
      ∨ label = str "OGG Media") :
    parseByType file buf (some label) = .ok []
    ∧ parseFileMetadata file buf = .ok
      [(str "File Information", strFields
          [(str "Name", file.name),
           (str "Size", file.formattedSize),
           (str "Size (bytes)", decimal file.size),
           (str "Type", str "Unknown"),
           (str "Last Modified", file.lastModifiedText),
           (str "Last Modified (timestamp)", decimal file.lastModified),
           (str "Detected Format", label)]),
       (str "Binary Information", strFields
          [(str "First 16 bytes (hex)", getHexString buf 0 16),
           (str "File header", getFileHeaderInfo buf)])] := by
  have hby : parseByType file buf (some label) = .ok [] := by
    unfold parseByType
    rw [htype]
    rcases hlabel with rfl | rfl | rfl <;> rfl
  refine ⟨hby, ?_⟩
  unfold parseFileMetadata
  rw [hsig, hby, fileInformation_some, binaryInformation_eq, htype]
  simp only [objectAssign, List.foldl_nil]
  rw [setProp_of_new _ _ _ (by simp only [List.map_cons, List.map_nil]; decide)
    (by decide) (by decide)]
  rfl

set_option maxRecDepth 100000 in
/-- The canonical WAV header and an ID3 header, read without a declared type: two
categories, although the audio parser finds the WAV fields in the first. -/
theorem parseFileMetadata_label_without_family_witness :
    (parseFileMetadata (fileOfType "") wavSample).map (fun doc => doc.map Prod.fst)
        = .ok [str "File Information", str "Binary Information"]
    ∧ parseAudioMetadata wavSample = .ok [(str "WAV Information", strFields
          [(str "Format", str "WAV Audio"), (str "Channels", str "2"),
           (str "Sample Rate", str "44100 Hz"), (str "Bit Depth", str "16 bits"),
           (str "Bitrate", str "1411 kbps")])]
    ∧ parseByType (fileOfType "") (ascii "ID3\x03\x00\x00\x00\x00\x02\x01")
        (some (str "MP3 with ID3")) = .ok [] :=
  ⟨by rw [(parseFileMetadata_label_without_family (fileOfType "") wavSample
      (str "RIFF (WAV/AVI/WebP)") rfl (by decide) (Or.inl rfl)).2]; rfl,
   by rfl,
   (parseFileMetadata_label_without_family (fileOfType "")
      (ascii "ID3\x03\x00\x00\x00\x00\x02\x01") (str "MP3 with ID3") rfl (by decide)
      (Or.inr (Or.inl rfl))).1⟩

/-! ## Termination of the structure walks -/

theorem getUint32_error (buf : Buffer) (i : Nat) (err : JSError)
    (h : getUint32 buf i = .error err) : err = .rangeError := by
  unfold getUint32 at h
  split at h
  · cases h
  · cases h; rfl

theorem getUint16_error (buf : Buffer) (i : Nat) (err : JSError)
    (h : getUint16 buf i = .error err) : err = .rangeError := by
  unfold getUint16 at h
  split at h
  · cases h
  · cases h; rfl

theorem uint8Array_error (buf : Buffer) (i : Nat) (n : Int) (err : JSError)
    (h : uint8Array buf i n = .error err) : err = .rangeError := by
  unfold uint8Array at h
  split at h
  · cases h; rfl
  · split at h
    · cases h
    · cases h; rfl

theorem pngWalk_ne_outOfFuel (buf : Buffer) : ∀ (fuel offset : Nat) (metadata : JSObj JSString),
    buf.length ≤ offset + 8 + 12 * fuel →
    pngWalk buf fuel offset metadata ≠ .error .outOfFuel := by
  intro fuel
  induction fuel with
  | zero =>
    intro offset metadata h
    rw [pngWalk, if_neg (by omega)]
    exact fun e => by cases e
  | succ f ih =>
    intro offset metadata h
    rw [pngWalk]
    split
    · cases hg : getUint32 buf offset with
      | error err =>
        have := getUint32_error _ _ _ hg
        subst this
        exact fun e => by cases e
      | ok length =>
        simp only
        split
        · rename_i err herr
          split at herr
          · cases hu : uint8Array buf (offset + 8) (length : Int) with
            | error e2 =>
              rw [hu] at herr
              have := uint8Array_error _ _ _ _ hu
              subst this
              cases herr
              exact fun e => by cases e
            | ok data => rw [hu] at herr; cases herr
          · cases herr
        · split
          · exact fun e => by cases e
          · exact ih _ _ (by omega)
    · exact fun e => by cases e

theorem pngWalk_fuel_mono (buf : Buffer) : ∀ (fuel offset : Nat) (metadata : JSObj JSString),
    pngWalk buf fuel offset metadata ≠ .error .outOfFuel →
    ∀ more, pngWalk buf (fuel + more) offset metadata = pngWalk buf fuel offset metadata := by
  intro fuel
  induction fuel with
  | zero =>
    intro offset metadata h more
    rw [pngWalk] at h
    by_cases hlt : offset + 8 < buf.length
    · rw [if_pos hlt] at h; exact absurd rfl h
    · cases more with
      | zero => rfl
      | succ m => rw [Nat.zero_add, pngWalk, pngWalk, if_neg hlt, if_neg hlt]
  | succ f ih =>
    intro offset metadata h more
    have hs : f + 1 + more = (f + more) + 1 := by omega
    rw [hs, pngWalk, pngWalk]
    rw [pngWalk] at h
    split
    · rename_i hlt
      rw [if_pos hlt] at h
      cases hg : getUint32 buf offset with
      | error err => rfl
      | ok length =>
        rw [hg] at h
        simp only at h ⊢
        split
        · rfl
        · rename_i md hmd
          rw [hmd] at h
          simp only at h
          split
          · rfl
          · rename_i hiend
            rw [if_neg hiend] at h
            exact ih _ _ h more
    · rfl

theorem jpegWalk_ne_outOfFuel (buf : Buffer) : ∀ (fuel offset : Nat) (metadata : JSObj JSString),
    buf.length ≤ offset + 2 + 2 * fuel →
    jpegWalk buf fuel offset metadata ≠ .error .outOfFuel := by
  intro fuel
  induction fuel with
  | zero =>
    intro offset metadata h
    rw [jpegWalk, if_neg (by omega)]
    exact fun e => by cases e
  | succ f ih =>
    intro offset metadata h
    rw [jpegWalk]
    split
    · split
      · have hr := getUint16_error _ _ _ (by assumption)
        subst hr
        exact fun e => by cases e
      · split
        · exact fun e => by cases e
        · simp only []
          repeat' split
          all_goals first
            | (have hr := getUint16_error _ _ _ (by assumption)
               subst hr
               intro e
               cases e)
            | (have hr := uint8Array_error _ _ _ _ (by assumption)
               subst hr
               intro e
               cases e)
            | exact ih _ _ (by omega)
            | (intro e
               cases e)
    · exact fun e => by cases e

theorem jpegWalk_fuel_stable (buf : Buffer) : ∀ (fuel offset : Nat) (metadata : JSObj JSString),
    buf.length ≤ offset + 2 + 2 * fuel →
    ∀ more, jpegWalk buf (fuel + more) offset metadata = jpegWalk buf fuel offset metadata := by
  intro fuel
  induction fuel with
  | zero =>
    intro offset metadata h more
    cases more with
    | zero => rfl
    | succ m => rw [Nat.zero_add, jpegWalk, jpegWalk, if_neg (by omega), if_neg (by omega)]
  | succ f ih =>
    intro offset metadata h more
    have hs : f + 1 + more = (f + more) + 1 := by omega
    rw [hs, jpegWalk, jpegWalk]
    split
    · split
      · rfl
      · split
        · rfl
        · simp only []
          repeat' split
          all_goals first
            | rfl
            | exact ih _ _ (by omega) more
    · rfl

theorem id3Walk_ne_outOfFuel (buf : Buffer) (maxOffset : Nat) :
    ∀ (fuel offset : Nat) (tags : JSObj JSString), maxOffset ≤ offset + 10 + 11 * fuel →
    (id3Walk buf maxOffset fuel offset tags).2 ≠ some .outOfFuel := by
  intro fuel
  induction fuel with
  | zero =>
    intro offset tags h
    rw [id3Walk, if_neg (by omega)]
    exact fun e => by cases e
  | succ f ih =>
    intro offset tags h
    rw [id3Walk]
    split
    · simp only []
      repeat' split
      all_goals first
        | (have hr := getUint32_error _ _ _ (by assumption)
           subst hr
           intro e
           cases e)
        | (have hr := uint8Array_error _ _ _ _ (by assumption)
           subst hr
           intro e
           cases e)
        | exact ih _ _ (by omega)
        | (intro e
           cases e)
    · exact fun e => by cases e

theorem id3Walk_fuel_stable (buf : Buffer) (maxOffset : Nat) :
    ∀ (fuel offset : Nat) (tags : JSObj JSString), maxOffset ≤ offset + 10 + 11 * fuel →
    ∀ more, id3Walk buf maxOffset (fuel + more) offset tags
      = id3Walk buf maxOffset fuel offset tags := by
  intro fuel
  induction fuel with
  | zero =>
    intro offset tags h more
    cases more with
    | zero => rfl
    | succ m => rw [Nat.zero_add, id3Walk, id3Walk, if_neg (by omega), if_neg (by omega)]
  | succ f ih =>
    intro offset tags h more
    have hs : f + 1 + more = (f + more) + 1 := by omega
    rw [hs, id3Walk, id3Walk]
    split
    · simp only []
      repeat' split
      all_goals first
        | rfl
        | exact ih _ _ (by omega) more
    · rfl

/-- Inside the tag boundary no read of the frame walk leaves the buffer: the walk ends
without an exception. -/
theorem id3Walk_no_error (buf : Buffer) (maxOffset : Nat) (hmax : maxOffset ≤ buf.length) :
    ∀ (fuel offset : Nat) (tags : JSObj JSString), maxOffset ≤ offset + 10 + 11 * fuel →
    (id3Walk buf maxOffset fuel offset tags).2 = none := by
  intro fuel
  induction fuel with
  | zero =>
    intro offset tags h
    rw [id3Walk, if_neg (by omega)]
  | succ f ih =>
    intro offset tags h
    rw [id3Walk]
    split
    · rename_i hlt
      simp only []
      split
      · rfl
      · have hg : getUint32 buf (offset + 4) = .ok (u32At buf (offset + 4)) := by
          rw [getUint32, if_pos (by omega)]
        rw [hg]
        simp only []
        split
        · rfl
        · rename_i hsize
          have hu : uint8Array buf (offset + 10) ((min (u32At buf (offset + 4)) 100 : Nat) : Int)
              = .ok ((buf.drop (offset + 10)).take (min (u32At buf (offset + 4)) 100)) := by
            rw [uint8Array, if_neg (by omega), if_pos (by
              rw [Int.toNat_ofNat]
              omega)]
            rfl
          rw [hu]
          simp only []
          split
          · exact ih _ _ (by omega)
          · exact ih _ _ (by omega)
    · rfl

theorem pngCollect_ne_outOfFuel (buf : Buffer) : pngCollect buf ≠ .error .outOfFuel := by
  have hwalk := pngWalk_ne_outOfFuel buf buf.length 8 [] (by omega)
  unfold pngCollect
  cases hw : pngWalk buf buf.length 8 [] with
  | error err =>
    simp only []
    intro e
    cases e
    exact hwalk hw
  | ok r =>
    obtain ⟨offset, metadata⟩ := r
    simp only []
    split
    · split
      · exact fun e => by cases e
      · have hr := getUint32_error _ _ _ (by assumption)
        subst hr
        exact fun e => by cases e
      · have hr := getUint32_error _ _ _ (by assumption)
        subst hr
        exact fun e => by cases e
    · exact fun e => by cases e

/-- C27: each walk advances by a fixed minimum per iteration (12 bytes per PNG chunk, 2 per
JPEG marker, 11 per ID3 frame), so an iteration budget that covers the bytes left at this
rate is never used up, any larger budget gives the same result, and the three parsers,
which allow one iteration per byte, always finish. -/
theorem walks_terminate (buf : Buffer) :
    (∀ (fuel offset : Nat) (metadata : JSObj JSString), buf.length ≤ offset + 8 + 12 * fuel →
      pngWalk buf fuel offset metadata ≠ .error .outOfFuel
      ∧ ∀ more, pngWalk buf (fuel + more) offset metadata = pngWalk buf fuel offset metadata)
    ∧ (∀ (fuel offset : Nat) (metadata : JSObj JSString), buf.length ≤ offset + 2 + 2 * fuel →
      jpegWalk buf fuel offset metadata ≠ .error .outOfFuel
      ∧ ∀ more, jpegWalk buf (fuel + more) offset metadata = jpegWalk buf fuel offset metadata)
    ∧ (∀ (maxOffset fuel offset : Nat) (tags : JSObj JSString),
      maxOffset ≤ offset + 10 + 11 * fuel →
      (id3Walk buf maxOffset fuel offset tags).2 ≠ some .outOfFuel
      ∧ ∀ more, id3Walk buf maxOffset (fuel + more) offset tags
          = id3Walk buf maxOffset fuel offset tags)
    ∧ parsePNGChunks buf ≠ .error .outOfFuel
    ∧ parseJPEGSegments buf ≠ .error .outOfFuel
    ∧ parseID3Tags buf ≠ .error .outOfFuel := by
  refine ⟨fun fuel offset metadata h => ⟨pngWalk_ne_outOfFuel buf fuel offset metadata h,
      pngWalk_fuel_mono buf fuel offset metadata (pngWalk_ne_outOfFuel buf fuel offset metadata h)⟩,
    fun fuel offset metadata h => ⟨jpegWalk_ne_outOfFuel buf fuel offset metadata h,
      jpegWalk_fuel_stable buf fuel offset metadata h⟩,
    fun maxOffset fuel offset tags h => ⟨id3Walk_ne_outOfFuel buf maxOffset fuel offset tags h,
      id3Walk_fuel_stable buf maxOffset fuel offset tags h⟩, ?_, ?_, ?_⟩
  · unfold parsePNGChunks
    cases hc : pngCollect buf with
    | error err =>
      simp only []
      intro e
      cases e
      exact pngCollect_ne_outOfFuel buf hc
    | ok md =>
      simp only []
      obtain ⟨texts, ht⟩ := extractTextsFromJSON_total (getProp md (str "prompt"))
      rw [ht]
      simp only []
      split <;> exact fun e => by cases e
  · exact jpegWalk_ne_outOfFuel buf buf.length 2 [] (by omega)
  · unfold parseID3Tags
    split
    · exact fun e => by cases e
    · simp only []
      split
      · exact fun e => by cases e
      · rename_i tagSize _
        split
        · rename_i heq
          exact absurd (congrArg Prod.snd heq) (id3Walk_ne_outOfFuel buf _ _ _ _
            (by have := Nat.min_le_right (10 + tagSize) buf.length; omega))
        · exact fun e => by cases e

set_option maxRecDepth 100000 in
/-- Three chunks' worth of budget for the 45-byte PNG sample, ten markers' for the JPEG
opening, one frame's for the ID3 sample. -/
theorem walks_terminate_witness :
    (pngWalk pngSample 3 8 [] ≠ .error .outOfFuel
      ∧ pngWalk pngSample (3 + 42) 8 [] = pngWalk pngSample 3 8 [])
    ∧ (jpegWalk jpegSample 10 2 [] ≠ .error .outOfFuel
      ∧ jpegWalk jpegSample (10 + 14) 2 [] = jpegWalk jpegSample 10 2 [])
    ∧ ((id3Walk id3Sample 26 1 10 []).2 ≠ some .outOfFuel
      ∧ id3Walk id3Sample 26 (1 + 25) 10 [] = id3Walk id3Sample 26 1 10 []) :=
  ⟨⟨((walks_terminate pngSample).1 3 8 [] (by decide)).1,
      ((walks_terminate pngSample).1 3 8 [] (by decide)).2 42⟩,
   ⟨((walks_terminate jpegSample).2.1 10 2 [] (by decide)).1,
      ((walks_terminate jpegSample).2.1 10 2 [] (by decide)).2 14⟩,
   ⟨((walks_terminate id3Sample).2.2.1 26 1 10 [] (by decide)).1,
      ((walks_terminate id3Sample).2.2.1 26 1 10 [] (by decide)).2 25⟩⟩

/-! ## ID3 frames -/

theorem forall_entries_replaceValue {α : Type} (Q : JSString × α → Prop) (k : JSString) (v : α)
    (o : JSObj α) (ho : ∀ e ∈ o, Q e) (hv : Q (k, v)) : ∀ e ∈ replaceValue k v o, Q e := by
  induction o with
  | nil => intro e he; cases he
  | cons a rest ih =>
    obtain ⟨k', v'⟩ := a
    intro e he
    unfold replaceValue at he
    split at he
    · rename_i hk
      rcases List.mem_cons.1 he with rfl | he
      · rw [hk]; exact hv
      · exact ho e (List.mem_cons_of_mem _ he)
    · rcases List.mem_cons.1 he with rfl | he
      · exact ho _ (List.mem_cons_self _ _)
      · exact ih (fun e he => ho e (List.mem_cons_of_mem _ he)) e he

theorem forall_entries_insertIndexKey {α : Type} (Q : JSString × α → Prop) (i : Nat)
    (k : JSString) (v : α) (o : JSObj α) (ho : ∀ e ∈ o, Q e) (hv : Q (k, v)) :
    ∀ e ∈ insertIndexKey i k v o, Q e := by
  induction o with
  | nil =>
    intro e he
    simp only [insertIndexKey, List.mem_singleton] at he
    subst he; exact hv
  | cons a rest ih =>
    obtain ⟨k', v'⟩ := a
    intro e he
    unfold insertIndexKey at he
    split at he
    · split at he
      · rcases List.mem_cons.1 he with rfl | he
        · exact ho _ (List.mem_cons_self _ _)
        · exact ih (fun e he => ho e (List.mem_cons_of_mem _ he)) e he
      · rcases List.mem_cons.1 he with rfl | he
        · exact hv
        · exact ho e he
    · rcases List.mem_cons.1 he with rfl | he
      · exact hv
      · exact ho e he

theorem forall_entries_setProp {α : Type} (Q : JSString × α → Prop) (o : JSObj α)
    (k : JSString) (v : α) (ho : ∀ e ∈ o, Q e) (hv : Q (k, v)) : ∀ e ∈ setProp o k v, Q e := by
  unfold setProp
  split
  · exact ho
  · unfold defineProp
    split
    · exact forall_entries_replaceValue Q k v o ho hv
    · split
      · exact forall_entries_insertIndexKey Q _ k v o ho hv
      · intro e he
        rcases List.mem_append.1 he with he | he
        · exact ho e he
        · simp only [List.mem_singleton] at he
          subst he; exact hv

theorem uint8Array_ok (buf : Buffer) (i n : Nat) (data : List Byte)
    (h : uint8Array buf i (n : Int) = .ok data) :
    data = (buf.drop i).take n ∧ i + n ≤ buf.length := by
  unfold uint8Array at h
  rw [if_neg (by omega), Int.toNat_ofNat] at h
  split at h
  · cases h; exact ⟨rfl, by assumption⟩
  · cases h

theorem getUint32_ok (buf : Buffer) (i n : Nat) (h : getUint32 buf i = .ok n) :
    n = u32At buf i ∧ i + 4 ≤ buf.length := by
  unfold getUint32 at h
  split at h
  · cases h; exact ⟨rfl, by assumption⟩
  · cases h

/-- An invariant of the tag map that every named frame keeps is kept by the frame walk. -/
theorem id3Walk_invariant (buf : Buffer) (maxOffset : Nat) (P : JSObj JSString → Prop)
    (hstep : ∀ (tags : JSObj JSString) (offset : Nat) (name : JSString), P tags →
      offset + 10 < maxOffset → isFrameId (getString buf offset 4) = true →
      u32At buf (offset + 4) ≠ 0 → u32At buf (offset + 4) + offset + 10 ≤ maxOffset →
      getProp frameNames (getString buf offset 4) = some name →
      P (setProp tags name (frameValue buf offset))) :
    ∀ (fuel offset : Nat) (tags : JSObj JSString), P tags →
      P (id3Walk buf maxOffset fuel offset tags).1 := by
  intro fuel
  induction fuel with
  | zero =>
    intro offset tags h
    rw [id3Walk]
    split <;> exact h
  | succ f ih =>
    intro offset tags h
    rw [id3Walk]
    split
    · rename_i hlt
      simp only []
      split
      · exact h
      · rename_i hid
        split
        · exact h
        · rename_i frameSize hsize
          obtain ⟨hsz, _⟩ := getUint32_ok _ _ _ hsize
          subst hsz
          split
          · exact h
          · rename_i hgood
            split
            · exact h
            · rename_i frameData hdata
              obtain ⟨hd, _⟩ := uint8Array_ok _ _ _ _ hdata
              subst hd
              split
              · rename_i name hname
                exact ih _ _ (hstep tags offset name h hlt (by simpa using hid) (by omega)
                  (by omega) hname)
              · exact ih _ _ h
    · exact h

theorem frameNames_values (frameId name : JSString)
    (h : getProp frameNames frameId = some name) :
    name ∈ [str "Title", str "Artist", str "Album", str "Year", str "Genre"] := by
  unfold getProp at h
  cases hf : frameNames.find? (fun e => e.1 == frameId) with
  | none => rw [hf] at h; cases h
  | some e =>
    rw [hf] at h
    simp only [Option.map_some', Option.some.injEq] at h
    have hmem : e ∈ frameNames := List.mem_of_find?_eq_some hf
    have hv : e.2 ∈ frameNames.map Prod.snd := List.mem_map_of_mem Prod.snd hmem
    rw [h] at hv
    exact hv

theorem frameValue_clean (buf : Buffer) (offset : Nat) :
    0 ∉ frameValue buf offset ∧ (frameValue buf offset).length ≤ 100 := by
  unfold frameValue
  constructor
  · intro h0
    have := List.mem_of_mem_take h0
    simp at this
  · rw [List.length_take]
    exact Nat.min_le_left _ _

theorem id3Boundary_le (buf : Buffer) : id3Boundary buf ≤ buf.length :=
  Nat.min_le_right _ _

/-- With ten bytes or more the two header reads succeed and the walk ends without an
exception, so the result is the tag map of the walk. -/
theorem parseID3Tags_eq (buf : Buffer) (h : 10 ≤ buf.length) :
    parseID3Tags buf = .ok (id3Walk buf (id3Boundary buf) buf.length 10
      [(str "ID3 Version", str "2." ++ decimal (byteAt buf 3))]).1 := by
  have h3 : getUint8 buf 3 = .ok (byteAt buf 3) := by rw [getUint8, if_pos (by omega)]
  have h6 : getSynchsafeInt buf 6 = .ok ((byteAt buf 6 <<< 21) ||| (byteAt buf 7 <<< 14)
      ||| (byteAt buf 8 <<< 7) ||| byteAt buf 9) := by
    rw [getSynchsafeInt, if_pos (by omega)]
  have hset : setProp ([] : JSObj JSString) (str "ID3 Version")
      (str "2." ++ decimal (byteAt buf 3))
      = [(str "ID3 Version", str "2." ++ decimal (byteAt buf 3))] :=
    setProp_of_new [] _ _ (List.not_mem_nil _) (by decide) (by decide)
  have hw := id3Walk_no_error buf (id3Boundary buf) (id3Boundary_le buf) buf.length 10
    [(str "ID3 Version", str "2." ++ decimal (byteAt buf 3))]
    (by have := id3Boundary_le buf; omega)
  unfold parseID3Tags
  rw [h3]
  simp only []
  rw [h6, hset]
  simp only []
  have hb : min (10 + ((byteAt buf 6 <<< 21) ||| (byteAt buf 7 <<< 14)
      ||| (byteAt buf 8 <<< 7) ||| byteAt buf 9)) buf.length = id3Boundary buf := rfl
  rw [hb]
  split
  · rename_i heq
    rw [heq] at hw
    cases hw
  · rename_i heq
    rw [heq]

/-- C26: with ten bytes or more every read of `parseID3Tags` stays inside the buffer: the
version byte and the size bytes; in an iteration (loop condition `offset + 10 <
boundary`) the frame header `[offset, offset + 10)`; after the size check the data range
`[offset + 10, offset + 10 + min(size, 100))`. The walk ends without an exception and
the map holds `ID3 Version` = `2.` followed by byte 3. -/
theorem parseID3Tags_in_bounds (buf : Buffer) (h : 10 ≤ buf.length) :
    getUint8 buf 3 = .ok (byteAt buf 3)
    ∧ (∃ tagSize, getSynchsafeInt buf 6 = .ok tagSize
        ∧ id3Boundary buf = min (10 + tagSize) buf.length)
    ∧ (∀ offset, offset + 10 < id3Boundary buf →
        offset + 10 ≤ buf.length
        ∧ getUint32 buf (offset + 4) = .ok (u32At buf (offset + 4))
        ∧ (u32At buf (offset + 4) + offset + 10 ≤ id3Boundary buf →
            offset + 10 + min (u32At buf (offset + 4)) 100 ≤ buf.length
            ∧ uint8Array buf (offset + 10) ((min (u32At buf (offset + 4)) 100 : Nat) : Int)
                = .ok ((buf.drop (offset + 10)).take (min (u32At buf (offset + 4)) 100))))
    ∧ (id3Walk buf (id3Boundary buf) buf.length 10
        [(str "ID3 Version", str "2." ++ decimal (byteAt buf 3))]).2 = none
    ∧ ∃ tags, parseID3Tags buf = .ok tags
        ∧ getProp tags (str "ID3 Version") = some (str "2." ++ decimal (byteAt buf 3)) := by
  have hB := id3Boundary_le buf
  refine ⟨by rw [getUint8, if_pos (by omega)],
    ⟨_, by rw [getSynchsafeInt, if_pos (by omega)], rfl⟩, ?_, ?_, ?_⟩
  · intro offset hlt
    refine ⟨by omega, by rw [getUint32, if_pos (by omega)], fun hsize => ⟨by omega, ?_⟩⟩
    rw [uint8Array, if_neg (by omega), if_pos (by rw [Int.toNat_ofNat]; omega)]
    rfl
  · exact id3Walk_no_error buf _ hB _ _ _ (by omega)
  · refine ⟨_, parseID3Tags_eq buf h, ?_⟩
    apply id3Walk_invariant buf (id3Boundary buf)
      (fun tags => getProp tags (str "ID3 Version") = some (str "2." ++ decimal (byteAt buf 3)))
    · intro tags offset name htags _ _ _ _ hname
      have hmem := frameNames_values _ _ hname
      have hne : str "ID3 Version" ≠ name := by
        intro e
        rw [← e] at hmem
        revert hmem
        decide
      show getProp (setProp tags name (frameValue buf offset)) (str "ID3 Version") = _
      rw [getProp_setProp_of_ne _ _ _ _ hne]
      exact htags
    · rw [getProp_cons, if_pos rfl]

set_option maxRecDepth 100000 in
/-- The ID3 sample: version 3, and the walk over its single frame raises nothing. -/
theorem parseID3Tags_in_bounds_witness :
    (id3Walk id3Sample (id3Boundary id3Sample) id3Sample.length 10
        [(str "ID3 Version", str "2." ++ decimal (byteAt id3Sample 3))]).2 = none
    ∧ ∃ tags, parseID3Tags id3Sample = .ok tags
        ∧ getProp tags (str "ID3 Version") = some (str "2.3") :=
  ⟨(parseID3Tags_in_bounds id3Sample (by decide)).2.2.2.1,
   (parseID3Tags_in_bounds id3Sample (by decide)).2.2.2.2⟩

/-- C22: for a buffer of ten bytes or more, the keys of the map of `parseID3Tags` are among
`ID3 Version`, `Title`, `Artist`, `Album`, `Year`, `Genre`; every entry other than
`ID3 Version` is the name that `TIT2`, `TPE1`, `TALB`, `TYER`, `TCON` give to the id of
a frame inside the boundary, with the text decoded from the first `min(size, 100)` data
bytes of that frame, without NUL and of at most 100 characters. The walk ends at the
boundary and at the first frame with a malformed id, a zero size or a size beyond the
boundary; any other frame is passed by `10 + size` bytes, named or not. -/
theorem parseID3Tags_fields (buf : Buffer) (h : 10 ≤ buf.length) :
    (∃ tags, parseID3Tags buf = .ok tags
      ∧ (∀ k ∈ tags.map Prod.fst, k ∈ id3FieldNames)
      ∧ (∀ e ∈ tags, e = (str "ID3 Version", str "2." ++ decimal (byteAt buf 3))
          ∨ ∃ offset, offset + 10 < id3Boundary buf
              ∧ getProp frameNames (getString buf offset 4) = some e.1
              ∧ e.1 ∈ [str "Title", str "Artist", str "Album", str "Year", str "Genre"]
              ∧ e.2 = frameValue buf offset ∧ 0 ∉ e.2 ∧ e.2.length ≤ 100))
    ∧ frameNames = [(str "TIT2", str "Title"), (str "TPE1", str "Artist"),
        (str "TALB", str "Album"), (str "TYER", str "Year"), (str "TCON", str "Genre")]
    ∧ (∀ (fuel offset : Nat) (tags : JSObj JSString), ¬ offset + 10 < id3Boundary buf →
        id3Walk buf (id3Boundary buf) fuel offset tags = (tags, none))
    ∧ (∀ (fuel offset : Nat) (tags : JSObj JSString), offset + 10 < id3Boundary buf →
        (isFrameId (getString buf offset 4) = false ∨ u32At buf (offset + 4) = 0
          ∨ id3Boundary buf - offset - 10 < u32At buf (offset + 4)) →
        id3Walk buf (id3Boundary buf) (fuel + 1) offset tags = (tags, none))
    ∧ (∀ (fuel offset : Nat) (tags : JSObj JSString), offset + 10 < id3Boundary buf →
        isFrameId (getString buf offset 4) = true → u32At buf (offset + 4) ≠ 0 →
        u32At buf (offset + 4) ≤ id3Boundary buf - offset - 10 →
        id3Walk buf (id3Boundary buf) (fuel + 1) offset tags
          = id3Walk buf (id3Boundary buf) fuel (offset + (10 + u32At buf (offset + 4)))
              (match getProp frameNames (getString buf offset 4) with
                | some name => setProp tags name (frameValue buf offset)
                | none => tags)) := by
  have hB := id3Boundary_le buf
  refine ⟨⟨_, parseID3Tags_eq buf h, ?_, ?_⟩, by decide, ?_, ?_, ?_⟩
  · apply id3Walk_invariant buf (id3Boundary buf)
      (fun tags => ∀ k ∈ tags.map Prod.fst, k ∈ id3FieldNames)
    · intro tags offset name htags _ _ _ _ hname k hk
      rcases mem_keys_setProp _ _ _ _ hk with rfl | hk
      · exact List.mem_cons_of_mem _ (frameNames_values _ _ hname)
      · exact htags k hk
    · intro k hk
      simp only [List.map_cons, List.map_nil, List.mem_singleton] at hk
      subst hk
      decide
  · apply id3Walk_invariant buf (id3Boundary buf)
      (fun tags => ∀ e ∈ tags, e = (str "ID3 Version", str "2." ++ decimal (byteAt buf 3))
          ∨ ∃ offset, offset + 10 < id3Boundary buf
              ∧ getProp frameNames (getString buf offset 4) = some e.1
              ∧ e.1 ∈ [str "Title", str "Artist", str "Album", str "Year", str "Genre"]
              ∧ e.2 = frameValue buf offset ∧ 0 ∉ e.2 ∧ e.2.length ≤ 100)
    · intro tags offset name htags hlt _ _ _ hname
      exact forall_entries_setProp _ tags name _ htags
        (Or.inr ⟨offset, hlt, hname, frameNames_values _ _ hname, rfl,
          (frameValue_clean buf offset).1, (frameValue_clean buf offset).2⟩)
    · intro e he
      simp only [List.mem_singleton] at he
      exact Or.inl he
  · intro fuel offset tags hlt
    cases fuel with
    | zero => rw [id3Walk, if_neg hlt]
    | succ f => rw [id3Walk, if_neg hlt]
  · intro fuel offset tags hlt hbad
    have hg : getUint32 buf (offset + 4) = .ok (u32At buf (offset + 4)) := by
      rw [getUint32, if_pos (by omega)]
    rw [id3Walk, if_pos hlt]
    simp only []
    by_cases hid : isFrameId (getString buf offset 4) = true
    · rw [hid]
      simp only [Bool.not_true, Bool.false_eq_true, if_false, hg]
      rw [if_pos (by
        rcases hbad with hb | hb | hb
        · rw [hid] at hb; cases hb
        · exact Or.inl hb
        · exact Or.inr (by omega))]
    · rw [Bool.not_eq_true] at hid
      rw [hid]
      rfl
  · intro fuel offset tags hlt hid h0 hsize
    have hg : getUint32 buf (offset + 4) = .ok (u32At buf (offset + 4)) := by
      rw [getUint32, if_pos (by omega)]
    have hu : uint8Array buf (offset + 10) ((min (u32At buf (offset + 4)) 100 : Nat) : Int)
        = .ok ((buf.drop (offset + 10)).take (min (u32At buf (offset + 4)) 100)) := by
      rw [uint8Array, if_neg (by omega), if_pos (by rw [Int.toNat_ofNat]; omega)]
      rfl
    rw [id3Walk, if_pos hlt]
    simp only []
    rw [hid]
    simp only [Bool.not_true, Bool.false_eq_true, if_false, hg]
    rw [if_neg (by omega), hu]
    simp only []
    split <;> rfl

set_option maxRecDepth 100000 in
/-- The ID3 sample: the frame `TIT2` with the data `00 48 65 6C 6C 6F` gives `Title` =
`Hello`. -/
theorem parseID3Tags_fields_witness :
    parseID3Tags id3Sample = .ok [(str "ID3 Version", str "2.3"), (str "Title", str "Hello")]
    ∧ ∃ tags, parseID3Tags id3Sample = .ok tags
        ∧ ∀ k ∈ tags.map Prod.fst, k ∈ id3FieldNames :=
  ⟨by rfl,
   ((parseID3Tags_fields id3Sample (by decide)).1).imp fun _ ht => ⟨ht.1, ht.2.1⟩⟩

/-! ## The JPEG segment walk on a sequence of segments -/

theorem u16At_append_right (pre rest : Buffer) (i : Nat) :
    u16At (pre ++ rest) (pre.length + i) = u16At rest i := by
  unfold u16At
  rw [Nat.add_assoc pre.length i 1, byteAt_append_right, byteAt_append_right]

theorem Segment.length_segment (s : Segment) : s.bytes.length = 4 + s.payload.length := by
  simp only [Segment.bytes, be16, List.length_append, List.length_cons, List.length_nil]

theorem u16At_segment_marker (s : Segment) (post : Buffer) :
    u16At (s.bytes ++ post) 0 = 0xFF00 + s.type.val := by
  simp only [u16At, byteAt, Segment.bytes, List.cons_append, List.nil_append,
    List.getD_cons_zero, List.getD_cons_succ]
  rfl

theorem u16At_segment_length (s : Segment) (post : Buffer) (h : s.Fits) :
    u16At (s.bytes ++ post) 2 = s.payload.length + 2 := by
  unfold Segment.Fits at h
  simp only [u16At, byteAt, Segment.bytes, be16, List.cons_append, List.nil_append,
    List.getD_cons_zero, List.getD_cons_succ]
  omega

theorem u16At_segment_payload (s : Segment) (post : Buffer) (i : Nat) :
    u16At (s.bytes ++ post) (4 + i) = u16At (s.payload ++ post) i := by
  have h4 : ([0xFF, s.type] ++ be16 (s.payload.length + 2) : Buffer).length = 4 := rfl
  have hb : s.bytes ++ post
      = ([0xFF, s.type] ++ be16 (s.payload.length + 2)) ++ (s.payload ++ post) := by
    simp only [Segment.bytes, List.append_assoc]
  rw [hb, ← h4, u16At_append_right]

theorem u16At_append_left (xs post : Buffer) (i : Nat) (h : i + 2 ≤ xs.length) :
    u16At (xs ++ post) i = u16At xs i := by
  unfold u16At byteAt
  rw [List.getD_append _ _ _ _ (by omega), List.getD_append _ _ _ _ (by omega)]

theorem uint8Array_segment (pre post : Buffer) (s : Segment) :
    uint8Array (pre ++ (s.bytes ++ post)) (pre.length + 2 + 2)
        (((s.payload.length + 2 : Nat) : Int) - 2) = .ok s.payload := by
  have hcast : ((s.payload.length + 2 : Nat) : Int) - 2 = (s.payload.length : Int) := by
    push_cast
    omega
  have hlen := s.length_segment
  rw [hcast]
  unfold uint8Array
  rw [if_neg (by omega), Int.toNat_ofNat, if_pos (by simp only [List.length_append]; omega)]
  have h4 : pre.length + 2 + 2 = (pre ++ ([0xFF, s.type] ++ be16 (s.payload.length + 2))).length := by
    simp only [List.length_append, be16, List.length_cons, List.length_nil]
  have hbuf : pre ++ (s.bytes ++ post)
      = (pre ++ ([0xFF, s.type] ++ be16 (s.payload.length + 2))) ++ (s.payload ++ post) := by
    simp only [Segment.bytes, List.append_assoc]
  rw [hbuf, h4, List.drop_left, List.take_left]

/-- One iteration of the walk at an `APPn`, `SOF0` or `SOF2` segment that lies inside the
buffer: the effect of the segment, and the walk goes on behind it. -/
theorem jpegWalk_segment (pre post : Buffer) (s : Segment) (hfit : s.Fits)
    (hkind : s.IsApp ∨ s.IsSOF) (fuel : Nat) (metadata : JSObj JSString) :
    jpegWalk (pre ++ (s.bytes ++ post)) (fuel + 1) pre.length metadata
      = jpegWalk (pre ++ (s.bytes ++ post)) fuel (pre.length + (4 + s.payload.length))
          (segmentEffect s metadata) := by
  have hlen := s.length_segment
  have ht : s.type.val < 256 := s.type.isLt
  have hB : (pre ++ (s.bytes ++ post)).length
      = pre.length + (4 + s.payload.length) + post.length := by
    simp only [List.length_append, hlen]
    omega
  have hmarker : getUint16 (pre ++ (s.bytes ++ post)) pre.length = .ok (0xFF00 + s.type.val) := by
    have := u16At_append_right pre (s.bytes ++ post) 0
    rw [Nat.add_zero] at this
    rw [getUint16, if_pos (by omega), this, u16At_segment_marker]
  have hlength : getUint16 (pre ++ (s.bytes ++ post)) (pre.length + 2)
      = .ok (s.payload.length + 2) := by
    rw [getUint16, if_pos (by omega), u16At_append_right, u16At_segment_length _ _ hfit]
  have hm1 : (0xFF00 + s.type.val) / 256 * 256 = 0xFF00 := by omega
  have hm2 : (0xFF00 + s.type.val) % 256 = s.type.val := by omega
  have hoff : pre.length + 2 + (s.payload.length + 2) = pre.length + (4 + s.payload.length) := by
    omega
  rw [jpegWalk, if_pos (by omega), hmarker]
  simp only [hm1, hm2, ne_eq, not_true_eq_false, if_false, hlength, hoff]
  unfold segmentEffect
  by_cases h1 : s.type.val = 0xE1
  · simp only [if_pos h1, uint8Array_segment]
  · simp only [if_neg h1]
    by_cases h2 : 0xE0 ≤ s.type.val ∧ s.type.val ≤ 0xEF
    · simp only [if_pos h2]
    · simp only [if_neg h2]
      have h3 : s.type.val = 0xC0 ∨ s.type.val = 0xC2 := by
        rcases hkind with h | h
        · exact absurd h h2
        · exact h
      simp only [if_pos h3]
      by_cases h8 : 8 ≤ s.payload.length + 2
      · have hh : getUint16 (pre ++ (s.bytes ++ post)) (pre.length + 2 + 3)
            = .ok (u16At s.payload 1) := by
          have e : pre.length + 2 + 3 = pre.length + (4 + 1) := by omega
          rw [getUint16, if_pos (by omega), e, u16At_append_right, u16At_segment_payload,
            u16At_append_left _ _ _ (by omega)]
        have hw : getUint16 (pre ++ (s.bytes ++ post)) (pre.length + 2 + 5)
            = .ok (u16At s.payload 3) := by
          have e : pre.length + 2 + 5 = pre.length + (4 + 3) := by omega
          rw [getUint16, if_pos (by omega), e, u16At_append_right, u16At_segment_payload,
            u16At_append_left _ _ _ (by omega)]
        simp only [if_pos h8, hh, hw, withJpegDimensions]
      · simp only [if_neg h8]

theorem jpegWalk_segments (segs : List Segment) :
    ∀ (pre post : Buffer) (fuel : Nat) (metadata : JSObj JSString),
      (∀ s ∈ segs, s.Fits ∧ (s.IsApp ∨ s.IsSOF)) →
      jpegWalk (pre ++ (segs.flatMap Segment.bytes ++ post)) (segs.length + fuel) pre.length
          metadata
        = jpegWalk (pre ++ (segs.flatMap Segment.bytes ++ post)) fuel
            (pre.length + (segs.flatMap Segment.bytes).length) (segmentFields segs metadata) := by
  induction segs with
  | nil =>
    intro pre post fuel metadata _
    simp only [List.flatMap_nil, List.length_nil, Nat.zero_add, Nat.add_zero, segmentFields,
      List.foldl_nil]
  | cons s rest ih =>
    intro pre post fuel metadata hsegs
    obtain ⟨hfit, hkind⟩ := hsegs s (List.mem_cons_self _ _)
    have hbuf : pre ++ ((s :: rest).flatMap Segment.bytes ++ post)
        = pre ++ (s.bytes ++ (rest.flatMap Segment.bytes ++ post)) := by
      simp only [List.flatMap_cons, List.append_assoc]
    have hfuel : (s :: rest).length + fuel = (rest.length + fuel) + 1 := by
      simp only [List.length_cons]
      omega
    have hpre : (pre ++ s.bytes).length = pre.length + (4 + s.payload.length) := by
      rw [List.length_append, s.length_segment]
    have hoff : pre.length + ((s :: rest).flatMap Segment.bytes).length
        = (pre ++ s.bytes).length + (rest.flatMap Segment.bytes).length := by
      simp only [List.flatMap_cons, List.length_append]
      omega
    have hrest := ih (pre ++ s.bytes) post fuel (segmentEffect s metadata)
      (fun x hx => hsegs x (List.mem_cons_of_mem _ hx))
    rw [List.append_assoc pre s.bytes, hpre] at hrest
    rw [hbuf, hfuel, jpegWalk_segment pre _ s hfit hkind, hrest, hoff, hpre]
    rfl

theorem byteAt_lt (buf : Buffer) (i : Nat) : byteAt buf i < 256 := (buf.getD i 0).isLt

theorem jpegWalk_ends (pre post : Buffer) (hend : WalkEnds post) (fuel : Nat)
    (metadata : JSObj JSString) :
    jpegWalk (pre ++ post) (fuel + 1) pre.length metadata = .ok metadata := by
  rw [jpegWalk]
  by_cases hlt : pre.length + 2 < (pre ++ post).length
  · rw [if_pos hlt]
    have hmarker : getUint16 (pre ++ post) pre.length
        = .ok (byteAt post 0 * 256 + byteAt post 1) := by
      have := u16At_append_right pre post 0
      rw [Nat.add_zero] at this
      rw [getUint16, if_pos (by omega), this]
      rfl
    have h0 := byteAt_lt post 0
    have h1 := byteAt_lt post 1
    have hm2 : (byteAt post 0 * 256 + byteAt post 1) % 256 = byteAt post 1 := by omega
    rw [hmarker]
    simp only [hm2]
    rcases hend with hshort | hff | hstop
    · rw [List.length_append] at hlt
      omega
    · rw [if_pos (by omega)]
    · by_cases hff : byteAt post 0 = 0xFF
      · rw [if_neg (by omega)]
        have hE1 : ¬ byteAt post 1 = 0xE1 := fun e => hstop (Or.inl (by omega))
        have hApp : ¬ (0xE0 ≤ byteAt post 1 ∧ byteAt post 1 ≤ 0xEF) := fun e =>
          hstop (Or.inl e)
        have hSof : ¬ (byteAt post 1 = 0xC0 ∨ byteAt post 1 = 0xC2) := fun e =>
          hstop (Or.inr e)
        simp only [if_neg hE1, if_neg hApp, if_neg hSof]
      · rw [if_pos (by omega)]
  · rw [if_neg hlt]

/-- The result of `parseJPEGSegments` on a file whose segments are walked to the end. -/
theorem parseJPEGSegments_jpegFile (segs : List Segment) (post : Buffer)
    (hsegs : ∀ s ∈ segs, s.Fits ∧ (s.IsApp ∨ s.IsSOF)) (hend : WalkEnds post) :
    parseJPEGSegments (jpegFile segs post) = .ok (segmentFields segs []) := by
  have hflat : segs.length ≤ (segs.flatMap Segment.bytes).length := by
    clear hsegs
    induction segs with
    | nil => simp
    | cons s rest ih =>
      have := s.length_segment
      simp only [List.flatMap_cons, List.length_append, List.length_cons]
      omega
  have hlen : (jpegFile segs post).length
      = 2 + ((segs.flatMap Segment.bytes).length + post.length) := by
    simp only [jpegFile, List.length_append, List.length_cons, List.length_nil]
  obtain ⟨f, hf⟩ : ∃ f, (jpegFile segs post).length = segs.length + (f + 1) :=
    ⟨(jpegFile segs post).length - segs.length - 1, by omega⟩
  have hwalk := jpegWalk_segments segs [0xFF, 0xD8] post (f + 1) [] hsegs
  have hends := jpegWalk_ends ([0xFF, 0xD8] ++ segs.flatMap Segment.bytes) post hend f
    (segmentFields segs [])
  rw [List.append_assoc, List.length_append] at hends
  unfold parseJPEGSegments
  rw [hf]
  unfold jpegFile
  have h2 : ([0xFF, 0xD8] : Buffer).length = 2 := rfl
  rw [h2] at hwalk hends
  rw [hwalk, hends]

/-! ## Start of frame, and the markers that end the walk -/

theorem segmentFields_nil_of_no_effect (segs : List Segment)
    (h : ∀ s ∈ segs, segmentEffect s [] = []) : segmentFields segs [] = [] := by
  induction segs with
  | nil => rfl
  | cons s rest ih =>
    have hs := h s (List.mem_cons_self _ _)
    have hrest := ih fun x hx => h x (List.mem_cons_of_mem _ hx)
    unfold segmentFields at hrest ⊢
    rw [List.foldl_cons, hs, hrest]

/-- C28: when the segments before it are `APPn` segments that leave the map empty, a marker
`FF xx` whose type is neither `APPn` nor `SOF0`/`SOF2` ends the walk, whatever follows
it, a start of frame included: the map returned is empty. A byte other than `FF` at that
place ends the walk in the same way. -/
theorem parseJPEGSegments_stops_at_marker (before : List Segment) (x : Byte) (rest : Buffer)
    (hbefore : ∀ s ∈ before, s.Fits ∧ s.IsApp ∧ segmentEffect s [] = [])
    (hx : ¬ (0xE0 ≤ x.val ∧ x.val ≤ 0xEF) ∧ x.val ≠ 0xC0 ∧ x.val ≠ 0xC2) :
    parseJPEGSegments (jpegFile before ([0xFF, x] ++ rest)) = .ok []
    ∧ getProp ([] : JSObj JSString) (str "Image Width") = none
    ∧ ∀ b : Byte, b.val ≠ 0xFF → parseJPEGSegments (jpegFile before (b :: rest)) = .ok [] := by
  have hsegs : ∀ s ∈ before, s.Fits ∧ (s.IsApp ∨ s.IsSOF) := fun s hs =>
    ⟨(hbefore s hs).1, Or.inl (hbefore s hs).2.1⟩
  have hnil := segmentFields_nil_of_no_effect before fun s hs => (hbefore s hs).2.2
  refine ⟨?_, rfl, ?_⟩
  · have hend : WalkEnds ([0xFF, x] ++ rest) := by
      refine Or.inr (Or.inr ?_)
      have h1 : byteAt ([0xFF, x] ++ rest) 1 = x.val := rfl
      rw [h1]
      rintro (h | h | h)
      · exact hx.1 h
      · exact hx.2.1 h
      · exact hx.2.2 h
    rw [parseJPEGSegments_jpegFile before _ hsegs hend, hnil]
  · intro b hb
    have hend : WalkEnds (b :: rest) := Or.inr (Or.inl hb)
    rw [parseJPEGSegments_jpegFile before _ hsegs hend, hnil]

set_option maxRecDepth 100000 in
/-- SOI, the APP0 segment `JFIF`, an APP1 segment `Exif`, then DQT: the start of frame
with 100 x 50 that follows is not read. -/
theorem parseJPEGSegments_stops_at_marker_witness :
    parseJPEGSegments (jpegFile
        [⟨0xE0, ascii "JFIF" ++ [0, 1, 1, 0, 0, 72, 0, 72, 0, 0]⟩, ⟨0xE1, ascii "Exif" ++ [0, 0]⟩]
        ([0xFF, 0xDB] ++ ([0x00, 0x03, 0x00]
          ++ Segment.bytes ⟨0xC0, [8, 0, 50, 0, 100, 3, 1, 0x22, 0]⟩))) = .ok [] :=
  (parseJPEGSegments_stops_at_marker
    [⟨0xE0, ascii "JFIF" ++ [0, 1, 1, 0, 0, 72, 0, 72, 0, 0]⟩, ⟨0xE1, ascii "Exif" ++ [0, 0]⟩]
    0xDB ([0x00, 0x03, 0x00] ++ Segment.bytes ⟨0xC0, [8, 0, 50, 0, 100, 3, 1, 0x22, 0]⟩)
    (by
      intro s hs
      simp only [List.mem_cons, List.mem_singleton, List.not_mem_nil, or_false] at hs
      rcases hs with rfl | rfl
      · exact ⟨by unfold Segment.Fits; decide, by unfold Segment.IsApp; decide, by decide⟩
      · exact ⟨by unfold Segment.Fits; decide, by unfold Segment.IsApp; decide, by decide⟩)
    (by decide)).1

theorem getProp_withJpegDimensions (metadata : JSObj JSString) (width height : Nat) :
    getProp (withJpegDimensions metadata width height) (str "Image Height")
        = some (decimal height)
    ∧ getProp (withJpegDimensions metadata width height) (str "Image Width")
        = some (decimal width)
    ∧ getProp (withJpegDimensions metadata width height) (str "Image Size")
        = some (decimal width ++ str "x" ++ decimal height) := by
  unfold withJpegDimensions
  refine ⟨?_, ?_, ?_⟩
  · rw [getProp_setProp_of_ne _ _ _ _ (by decide), getProp_setProp_self _ _ _ (by decide)]
  · rw [getProp_setProp_of_ne _ _ _ _ (by decide), getProp_setProp_of_ne _ _ _ _ (by decide),
      getProp_setProp_self _ _ _ (by decide)]
  · rw [getProp_setProp_self _ _ _ (by decide)]

/-- C23, amended: in a file of `APPn`/`SOF` segments that ends with a start of frame `SOF0`
or `SOF2`, after which the walk ends, a declared length of 8 or more makes
`parseJPEGSegments` return the fields of the earlier segments with `Image Height` = the
big-endian u16 at the offset of the length field plus 3, `Image Width` = the one at plus
5, and `Image Size` = width `x` height; with a declared length below 8 the fields of the
earlier segments are returned as they are. -/
theorem parseJPEGSegments_sof (before : List Segment) (sof : Segment) (post : Buffer)
    (hbefore : ∀ s ∈ before, s.Fits ∧ (s.IsApp ∨ s.IsSOF))
    (hfit : sof.Fits) (hsof : sof.IsSOF) (hend : WalkEnds post) :
    (8 ≤ sof.payload.length + 2 →
      ∃ fields, parseJPEGSegments (jpegFile (before ++ [sof]) post) = .ok fields
        ∧ fields = withJpegDimensions (segmentFields before [])
            (u16At (jpegFile (before ++ [sof]) post)
              (2 + (before.flatMap Segment.bytes).length + 2 + 5))
            (u16At (jpegFile (before ++ [sof]) post)
              (2 + (before.flatMap Segment.bytes).length + 2 + 3))
        ∧ getProp fields (str "Image Height")
            = some (decimal (u16At (jpegFile (before ++ [sof]) post)
                (2 + (before.flatMap Segment.bytes).length + 2 + 3)))
        ∧ getProp fields (str "Image Width")
            = some (decimal (u16At (jpegFile (before ++ [sof]) post)
                (2 + (before.flatMap Segment.bytes).length + 2 + 5)))
        ∧ getProp fields (str "Image Size")
            = some (decimal (u16At (jpegFile (before ++ [sof]) post)
                  (2 + (before.flatMap Segment.bytes).length + 2 + 5)) ++ str "x"
                ++ decimal (u16At (jpegFile (before ++ [sof]) post)
                  (2 + (before.flatMap Segment.bytes).length + 2 + 3))))
    ∧ (sof.payload.length + 2 < 8 →
      parseJPEGSegments (jpegFile (before ++ [sof]) post) = .ok (segmentFields before [])) := by
  have hsegs : ∀ s ∈ before ++ [sof], s.Fits ∧ (s.IsApp ∨ s.IsSOF) := by
    intro s hs
    rcases List.mem_append.1 hs with h | h
    · exact hbefore s h
    · simp only [List.mem_singleton] at h
      subst h
      exact ⟨hfit, Or.inr hsof⟩
  have hparse := parseJPEGSegments_jpegFile (before ++ [sof]) post hsegs hend
  have hfields : segmentFields (before ++ [sof]) []
      = segmentEffect sof (segmentFields before []) := by
    simp only [segmentFields, List.foldl_append, List.foldl_cons, List.foldl_nil]
  have hnot1 : ¬ sof.type.val = 0xE1 := by
    rcases hsof with h | h <;> omega
  have hnot2 : ¬ (0xE0 ≤ sof.type.val ∧ sof.type.val ≤ 0xEF) := by
    rcases hsof with h | h <;> omega
  have hsof' : sof.type.val = 0xC0 ∨ sof.type.val = 0xC2 := hsof
  constructor
  · intro h8
    have hbuf : jpegFile (before ++ [sof]) post
        = ([0xFF, 0xD8] ++ before.flatMap Segment.bytes) ++ (sof.bytes ++ post) := by
      simp only [jpegFile, List.flatMap_append, List.flatMap_cons, List.flatMap_nil,
        List.append_nil, List.append_assoc]
    have hpre : ([0xFF, 0xD8] ++ before.flatMap Segment.bytes : Buffer).length
        = 2 + (before.flatMap Segment.bytes).length := by
      simp only [List.length_append, List.length_cons, List.length_nil]
    have hread : ∀ i, i + 2 ≤ sof.payload.length →
        u16At (jpegFile (before ++ [sof]) post)
          (2 + (before.flatMap Segment.bytes).length + 2 + (2 + i)) = u16At sof.payload i := by
      intro i hi
      have e : 2 + (before.flatMap Segment.bytes).length + 2 + (2 + i)
          = ([0xFF, 0xD8] ++ before.flatMap Segment.bytes : Buffer).length + (4 + i) := by
        rw [hpre]; omega
      rw [hbuf, e, u16At_append_right, u16At_segment_payload, u16At_append_left _ _ _ hi]
    have h3 := hread 1 (by omega)
    have h5 := hread 3 (by omega)
    have e3 : (2 : Nat) + 1 = 3 := rfl
    have e5 : (2 : Nat) + 3 = 5 := rfl
    rw [e3] at h3
    rw [e5] at h5
    have hval : segmentFields (before ++ [sof]) []
        = withJpegDimensions (segmentFields before []) (u16At sof.payload 3)
            (u16At sof.payload 1) := by
      rw [hfields, segmentEffect, if_neg hnot1, if_neg hnot2, if_pos hsof', if_pos h8]
    rw [h3, h5]
    have hget := getProp_withJpegDimensions (segmentFields before []) (u16At sof.payload 3)
      (u16At sof.payload 1)
    exact ⟨_, hparse, hval, by rw [hval]; exact hget.1, by rw [hval]; exact hget.2.1,
      by rw [hval]; exact hget.2.2⟩
  · intro h8
    rw [hparse, hfields, segmentEffect, if_neg hnot1, if_neg hnot2, if_pos hsof',
      if_neg (by omega)]

set_option maxRecDepth 100000 in
/-- SOI, APP0, a start of frame with height 50 and width 100, then the marker DHT; and the
same start of frame cut to a declared length of 7. -/
theorem parseJPEGSegments_sof_witness :
    (∃ fields, parseJPEGSegments (jpegFile
          [⟨0xE0, ascii "JFIF" ++ [0, 1, 1, 0, 0, 72, 0, 72, 0, 0]⟩,
           ⟨0xC0, [8, 0, 50, 0, 100, 3, 1, 0x22, 0]⟩] [0xFF, 0xC4, 0x00, 0x1F]) = .ok fields
      ∧ getProp fields (str "Image Height") = some (str "50")
      ∧ getProp fields (str "Image Width") = some (str "100")
      ∧ getProp fields (str "Image Size") = some (str "100x50"))
    ∧ parseJPEGSegments (jpegFile [⟨0xC0, [8, 0, 50, 0, 100]⟩] [0xFF, 0xC4, 0x00, 0x1F])
        = .ok [] :=
  ⟨((parseJPEGSegments_sof [⟨0xE0, ascii "JFIF" ++ [0, 1, 1, 0, 0, 72, 0, 72, 0, 0]⟩]
        ⟨0xC0, [8, 0, 50, 0, 100, 3, 1, 0x22, 0]⟩ [0xFF, 0xC4, 0x00, 0x1F]
        (by
          intro s hs
          simp only [List.mem_singleton] at hs
          subst hs
          exact ⟨by unfold Segment.Fits; decide, Or.inl (by unfold Segment.IsApp; decide)⟩)
        (by unfold Segment.Fits; decide) (by unfold Segment.IsSOF; decide)
        (by unfold WalkEnds; decide)).1 (by decide)).imp
      fun _ h => ⟨h.1, h.2.2.1, h.2.2.2.1, h.2.2.2.2⟩,
   (parseJPEGSegments_sof [] ⟨0xC0, [8, 0, 50, 0, 100]⟩ [0xFF, 0xC4, 0x00, 0x1F]
      (by intro s hs; cases hs) (by unfold Segment.Fits; decide)
      (by unfold Segment.IsSOF; decide) (by unfold WalkEnds; decide)).2 (by decide)⟩

set_option maxRecDepth 100000 in
/-- C23 as stated fails. With two starts of frame the dimensions of the first (height 1
at the offset of its length field plus 3) are not the ones reported; and a start of frame
followed by a cut application segment leaves no result, a RangeError is raised. -/
theorem parseJPEGSegments_sof_not_final :
    parseJPEGSegments (jpegFile
        [⟨0xC0, [8, 0, 1, 0, 2, 3]⟩, ⟨0xC2, [8, 0, 3, 0, 4, 3]⟩] [])
      = .ok [(str "Image Width", str "4"), (str "Image Height", str "3"),
          (str "Image Size", str "4x3")]
    ∧ u16At (jpegFile [⟨0xC0, [8, 0, 1, 0, 2, 3]⟩, ⟨0xC2, [8, 0, 3, 0, 4, 3]⟩] []) (4 + 3) = 1
    ∧ parseJPEGSegments (jpegFile [⟨0xC0, [8, 0, 1, 0, 2, 3]⟩] [0xFF, 0xE0, 0x00])
      = .error .rangeError :=
  ⟨by rfl, by rfl, by rfl⟩

/-! ## NUL bytes and the decoder -/

/-- The decoder states that occur: an open sequence expects a continuation range inside
`80..BF`, and its code point so far or its lower bound keeps the result away from zero. -/
theorem utf8Lead_spec (b : Nat) (hb : b < 256) :
    ((utf8Lead b).1.remaining = 0
      ∨ (0x80 ≤ (utf8Lead b).1.lower ∧ (utf8Lead b).1.upper ≤ 0xBF
        ∧ (0 < (utf8Lead b).1.codePoint ∨ 0x80 < (utf8Lead b).1.lower)))
    ∧ (b ≠ 0 → (0 : Nat) ∉ (utf8Lead b).2)
    ∧ (b = 0 → utf8Lead b = (utf8Init, [0])) := by
  unfold utf8Lead
  refine ⟨?_, ?_, ?_⟩
  · split
    · exact Or.inl rfl
    · split
      · right; simp only; omega
      · split
        · right
          simp only
          refine ⟨by split <;> omega, by split <;> omega, ?_⟩
          by_cases he : b = 0xE0
          · right; rw [if_pos he]; omega
          · left; omega
        · split
          · right
            simp only
            refine ⟨by split <;> omega, by split <;> omega, ?_⟩
            by_cases he : b = 0xF0
            · right; rw [if_pos he]; omega
            · left; omega
          · exact Or.inl rfl
  · intro h0
    split
    · simp only [List.mem_singleton]; omega
    · split
      · simp
      · split
        · simp
        · split
          · simp
          · simp
  · intro h0
    subst h0
    rfl

theorem utf8Step_spec (st : Utf8State) (b : Nat) (hb : b < 256)
    (hst : st.remaining = 0
      ∨ (0x80 ≤ st.lower ∧ st.upper ≤ 0xBF ∧ (0 < st.codePoint ∨ 0x80 < st.lower))) :
    ((utf8Step st b).1.remaining = 0
      ∨ (0x80 ≤ (utf8Step st b).1.lower ∧ (utf8Step st b).1.upper ≤ 0xBF
        ∧ (0 < (utf8Step st b).1.codePoint ∨ 0x80 < (utf8Step st b).1.lower)))
    ∧ (b ≠ 0 → (0 : Nat) ∉ (utf8Step st b).2)
    ∧ (b = 0 → (utf8Step st b).1 = utf8Init
        ∧ ∃ out, (utf8Step st b).2 = out ++ [0] ∧ ∀ x ∈ out, x = 0xFFFD) := by
  obtain ⟨l1, l2, l3⟩ := utf8Lead_spec b hb
  unfold utf8Step
  split
  · exact ⟨l1, l2, fun h0 => by rw [l3 h0]; exact ⟨rfl, [], rfl, fun x hx => by cases hx⟩⟩
  · rename_i hrem
    have hinv := hst.resolve_left hrem
    split
    · refine ⟨l1, ?_, ?_⟩
      · intro h0
        simp only [List.mem_cons, not_or]
        exact ⟨by omega, l2 h0⟩
      · intro h0
        rw [l3 h0]
        exact ⟨rfl, [0xFFFD], rfl, fun x hx => by simpa using hx⟩
    · rename_i hrange
      have hlo : st.lower ≤ b := by omega
      have hhi : b ≤ st.upper := by omega
      have hpos : 0 < st.codePoint * 64 + b % 64 := by
        rcases hinv.2.2 with h | h
        · omega
        · omega
      split
      · refine ⟨Or.inl rfl, ?_, ?_⟩
        · intro _
          simp only [List.mem_singleton]
          omega
        · intro h0; omega
      · refine ⟨Or.inr ⟨by simp only; omega, by simp only; omega, Or.inl hpos⟩, ?_, ?_⟩
        · intro _; simp
        · intro h0; omega

theorem utf8Init_inv : utf8Init.remaining = 0
    ∨ (0x80 ≤ utf8Init.lower ∧ utf8Init.upper ≤ 0xBF
      ∧ (0 < utf8Init.codePoint ∨ 0x80 < utf8Init.lower)) := Or.inl rfl

/-- Bytes without NUL decode to code points without U+0000. -/
theorem utf8Run_no_nul (bytes : List Byte) (h : ∀ b ∈ bytes, b.val ≠ 0) :
    ∀ st : Utf8State, (st.remaining = 0
      ∨ (0x80 ≤ st.lower ∧ st.upper ≤ 0xBF ∧ (0 < st.codePoint ∨ 0x80 < st.lower))) →
    (0 : Nat) ∉ utf8Run st bytes := by
  induction bytes with
  | nil =>
    intro st _
    unfold utf8Run
    split <;> simp
  | cons b rest ih =>
    intro st hst
    obtain ⟨s1, s2, _⟩ := utf8Step_spec st b.val b.isLt hst
    rw [utf8Run, List.mem_append, not_or]
    exact ⟨s2 (h b (List.mem_cons_self _ _)),
      ih (fun x hx => h x (List.mem_cons_of_mem _ hx)) _ s1⟩

/-- A NUL byte closes whatever sequence is open and decodes to U+0000; the bytes after it
are decoded from the initial state. -/
theorem utf8Run_append_nul (xs ys : List Byte) :
    ∀ st : Utf8State, (st.remaining = 0
      ∨ (0x80 ≤ st.lower ∧ st.upper ≤ 0xBF ∧ (0 < st.codePoint ∨ 0x80 < st.lower))) →
    ∃ out, utf8Run st (xs ++ 0 :: ys) = out ++ 0 :: utf8Run utf8Init ys := by
  induction xs with
  | nil =>
    intro st hst
    obtain ⟨_, _, s3⟩ := utf8Step_spec st 0 (by decide) hst
    obtain ⟨hinit, out, hout, _⟩ := s3 rfl
    refine ⟨out, ?_⟩
    have h0 : ((0 : Byte)).val = 0 := rfl
    rw [List.nil_append, utf8Run, h0, hinit, hout, List.append_assoc]
    rfl
  | cons x xs ih =>
    intro st hst
    obtain ⟨s1, _, _⟩ := utf8Step_spec st x.val x.isLt hst
    obtain ⟨out, hout⟩ := ih _ s1
    refine ⟨(utf8Step st x.val).2 ++ out, ?_⟩
    rw [List.cons_append, utf8Run, hout, List.append_assoc]

theorem toUtf16_no_nul (cps : List Nat) (h : (0 : Nat) ∉ cps) : (0 : Nat) ∉ toUtf16 cps := by
  induction cps with
  | nil => simp [toUtf16]
  | cons c rest ih =>
    simp only [List.mem_cons, not_or] at h
    have hrest := ih h.2
    unfold toUtf16 at hrest ⊢
    rw [List.flatMap_cons, List.mem_append, not_or]
    refine ⟨?_, hrest⟩
    split
    · simp only [List.mem_singleton]; exact h.1
    · simp only [List.mem_cons, List.mem_singleton, List.not_mem_nil, or_false, not_or]
      omega

theorem toUtf16_append (xs ys : List Nat) : toUtf16 (xs ++ ys) = toUtf16 xs ++ toUtf16 ys := by
  simp only [toUtf16, List.flatMap_append]

theorem utf8Body_no_nul (bytes : List Byte) (h : ∀ b ∈ bytes, b.val ≠ 0) :
    (0 : Nat) ∉ utf8Body bytes :=
  toUtf16_no_nul _ (utf8Run_no_nul bytes h utf8Init utf8Init_inv)

theorem textDecode_no_nul (bytes : List Byte) (h : ∀ b ∈ bytes, b.val ≠ 0) :
    (0 : Nat) ∉ textDecode bytes := by
  have hrun := utf8Run_no_nul bytes h utf8Init utf8Init_inv
  unfold textDecode
  split
  · rename_i cps heq
    rw [heq] at hrun
    exact toUtf16_no_nul _ fun h0 => hrun (List.mem_cons_of_mem _ h0)
  · exact toUtf16_no_nul _ hrun

/-! ## International text chunks -/

theorem splitOnUnit_ne_nil (c : Nat) (s : JSString) : splitOnUnit c s ≠ [] := by
  cases s with
  | nil => simp [splitOnUnit]
  | cons x rest =>
    unfold splitOnUnit
    split
    · simp
    · split <;> simp

theorem splitOnUnit_of_not_mem (c : Nat) (s : JSString) (h : c ∉ s) : splitOnUnit c s = [s] := by
  induction s with
  | nil => rfl
  | cons x rest ih =>
    simp only [List.mem_cons, not_or] at h
    have hx : ¬ x = c := fun e => h.1 e.symm
    rw [splitOnUnit, if_neg hx, ih h.2]

theorem splitOnUnit_key (c : Nat) (key rest : JSString) (h : c ∉ key) :
    splitOnUnit c (key ++ c :: rest) = key :: splitOnUnit c rest := by
  induction key with
  | nil => simp [splitOnUnit]
  | cons x key ih =>
    simp only [List.mem_cons, not_or] at h
    have hx : ¬ x = c := fun e => h.1 e.symm
    rw [List.cons_append, splitOnUnit, if_neg hx, ih h.2]

theorem splitOnUnit_last (c : Nat) (text : JSString) (h : c ∉ text) :
    ∀ xs : JSString, ∃ p ps, splitOnUnit c (xs ++ c :: text) = p :: (ps ++ [text]) := by
  intro xs
  induction xs with
  | nil =>
    refine ⟨[], [], ?_⟩
    rw [List.nil_append, splitOnUnit, if_pos rfl, splitOnUnit_of_not_mem c text h]
    rfl
  | cons x xs ih =>
    obtain ⟨p, ps, hp⟩ := ih
    by_cases hx : x = c
    · refine ⟨[], p :: ps, ?_⟩
      rw [List.cons_append, splitOnUnit, if_pos hx, hp]
      rfl
    · refine ⟨x :: p, ps, ?_⟩
      rw [List.cons_append, splitOnUnit, if_neg hx, hp]

theorem getLastD_cons_append_singleton {α : Type} (p : α) (ps : List α) (last d : α) :
    (p :: (ps ++ [last])).getLastD d = last := by
  rw [List.getLastD_eq_getLast?, ← List.cons_append, List.getLast?_append]
  rfl

/-- The text of an `iTXt` payload behind an ASCII keyword: the decoded bytes after the last
NUL. `middle` is what stands between the NUL that ends the keyword and the text; it is
empty or ends with a NUL. -/
theorem iTXt_split (key middle text : Buffer)
    (hkey : ∀ b ∈ key, b.val ≠ 0 ∧ b.val < 128)
    (hmiddle : middle = [] ∨ ∃ m, middle = m ++ [0])
    (htext : ∀ b ∈ text, b.val ≠ 0) :
    (splitOnUnit 0 (textDecode (key ++ [0] ++ (middle ++ text)))).headD [] = key.map Fin.val
    ∧ (splitOnUnit 0 (textDecode (key ++ [0] ++ (middle ++ text)))).getLastD []
        = utf8Body text
    ∧ 2 ≤ (splitOnUnit 0 (textDecode (key ++ [0] ++ (middle ++ text)))).length := by
  have hnul : (0 : Nat) ∉ key.map Fin.val := by
    intro h0
    obtain ⟨b, hb, hb0⟩ := List.mem_map.1 h0
    exact (hkey b hb).1 hb0
  have hT := utf8Body_no_nul text htext
  rw [textDecode_keyword key (middle ++ text) fun b hb => (hkey b hb).2,
    splitOnUnit_key 0 _ _ hnul]
  have hrest : ∃ ps, splitOnUnit 0 (utf8Body (middle ++ text)) = ps ++ [utf8Body text] := by
    rcases hmiddle with rfl | ⟨m, rfl⟩
    · exact ⟨[], by rw [List.nil_append, splitOnUnit_of_not_mem 0 _ hT]; rfl⟩
    · obtain ⟨out, hout⟩ := utf8Run_append_nul m text utf8Init utf8Init_inv
      have hbody : utf8Body (m ++ [0] ++ text) = toUtf16 out ++ 0 :: utf8Body text := by
        unfold utf8Body
        rw [List.append_assoc, List.singleton_append, hout, toUtf16_append,
          toUtf16_cons_bmp _ _ (by decide)]
      obtain ⟨p, ps, hp⟩ := splitOnUnit_last 0 (utf8Body text) hT (toUtf16 out)
      exact ⟨p :: ps, by rw [hbody, hp]; rfl⟩
  obtain ⟨ps, hps⟩ := hrest
  rw [hps]
  refine ⟨rfl, getLastD_cons_append_singleton _ _ _ _, ?_⟩
  simp only [List.length_cons, List.length_append, List.length_nil]
  omega

theorem chunkEffect_iTXt (c : Chunk) (key middle text : Buffer) (metadata : JSObj JSString)
    (htype : c.typeName = str "iTXt") (hdata : c.data = key ++ [0] ++ (middle ++ text))
    (hkey : ∀ b ∈ key, b.val ≠ 0 ∧ b.val < 128)
    (hmiddle : middle = [] ∨ ∃ m, middle = m ++ [0])
    (htext : ∀ b ∈ text, b.val ≠ 0) :
    chunkEffect c metadata = setProp metadata (key.map Fin.val) (utf8Body text) := by
  obtain ⟨h1, h2, h3⟩ := iTXt_split key middle text hkey hmiddle htext
  unfold chunkEffect
  rw [if_pos (Or.inr (Or.inl htype)), htype, hdata, pngTextChunk, if_neg (by decide),
    if_pos rfl, if_pos h3, h1, h2]

/-- An `iTXt` payload without a NUL byte, and every `zTXt` chunk, leave the field map as
it is. -/
theorem chunkEffect_no_field (c : Chunk) (metadata : JSObj JSString)
    (h : (c.typeName = str "iTXt" ∧ ∀ b ∈ c.data, b.val ≠ 0) ∨ c.typeName = str "zTXt") :
    chunkEffect c metadata = metadata := by
  unfold chunkEffect
  rcases h with ⟨htype, hdata⟩ | htype
  · have hsplit := splitOnUnit_of_not_mem 0 _ (textDecode_no_nul c.data hdata)
    rw [if_pos (Or.inr (Or.inl htype)), htype, pngTextChunk, if_neg (by decide), if_pos rfl,
      hsplit, if_neg (by simp)]
  · rw [if_pos (Or.inr (Or.inr htype)), htype, pngTextChunk, if_neg (by decide),
      if_neg (by decide)]

theorem chunkFields_skip (before after : List Chunk) (c : Chunk)
    (hbefore : ∀ x ∈ before, x.typeName ≠ str "IEND") (hc : c.typeName ≠ str "IEND")
    (hno : ∀ metadata, chunkEffect c metadata = metadata) (metadata : JSObj JSString) :
    chunkFields (before ++ c :: after) metadata = chunkFields (before ++ after) metadata := by
  rw [chunkFields_append before _ hbefore, chunkFields_append before _ hbefore, chunkFields,
    if_neg hc, hno]

/-- C21, amended: in a file of well-formed chunks with an `iTXt` chunk before IEND, a payload
`key ++ [0] ++ middle ++ text` (ASCII key without NUL, `middle` empty or ending with NUL,
`text` without NUL) makes the returned map send the key to the decoded text, whatever
`middle` holds, provided the key is not `__proto__`, is not written again by a later
chunk and is not a derived dimension field. An `iTXt` payload without a NUL byte and
every `zTXt` chunk leave the field map as it is: the fields are those of the file
without that chunk. -/
theorem parsePNGChunks_iTXt_field (before after : List Chunk) (c : Chunk) (post : Buffer)
    (hwf : ∀ x ∈ before ++ c :: after, x.WellFormed)
    (hbefore : ∀ x ∈ before, x.typeName ≠ str "IEND")
    (hiend : ∃ x ∈ after, x.typeName = str "IEND") :
    (∀ key middle text : Buffer, c.typeName = str "iTXt" →
      c.data = key ++ [0] ++ (middle ++ text) →
      (∀ b ∈ key, b.val ≠ 0 ∧ b.val < 128) →
      (middle = [] ∨ ∃ m, middle = m ++ [0]) →
      (∀ b ∈ text, b.val ≠ 0) →
      key.map Fin.val ≠ str "__proto__" →
      (∀ x ∈ after, chunkKey? x ≠ some (key.map Fin.val)) →
      (key.map Fin.val ≠ str "Image Width" ∧ key.map Fin.val ≠ str "Image Height"
        ∧ key.map Fin.val ≠ str "Image Size") →
      ∃ fields, parsePNGChunks (pngFile (before ++ c :: after) ++ post) = .ok fields
        ∧ getProp fields (key.map Fin.val) = some (.str (utf8Body text)))
    ∧ (((c.typeName = str "iTXt" ∧ ∀ b ∈ c.data, b.val ≠ 0) ∨ c.typeName = str "zTXt") →
      (∀ metadata, chunkEffect c metadata = metadata)
      ∧ pngCollect (pngFile (before ++ c :: after) ++ post)
        = .ok (withDimensions (chunkFields (before ++ after) [])
            (u32At (pngFile (before ++ c :: after) ++ post) 16)
            (u32At (pngFile (before ++ c :: after) ++ post) 20))) := by
  obtain ⟨x, hx, hxi⟩ := hiend
  have hne : before ++ c :: after ≠ [] := by simp
  have hpost : post.length ≤ 8 ∨ ∃ y ∈ before ++ c :: after, y.typeName = str "IEND" :=
    Or.inr ⟨x, by simp [hx], hxi⟩
  have hcount : 2 ≤ (before ++ c :: after).length := by
    have : 0 < after.length := List.length_pos_of_mem hx
    simp only [List.length_append, List.length_cons]
    omega
  have hlen : 24 ≤ (pngFile (before ++ c :: after) ++ post).length := by
    have := length_flatMap_bytes_ge _ hwf
    simp only [pngFile, List.length_append]
    omega
  have hcollect := pngCollect_chunks _ post hwf hne hpost hlen
  constructor
  · intro key middle text htype hdata hkey hmiddle htext hproto hlater hderived
    have hti : ¬ c.typeName = str "IEND" := by
      rw [htype]; decide
    have hfield : getProp (chunkFields (before ++ c :: after) []) (key.map Fin.val)
        = some (utf8Body text) := by
      rw [chunkFields_append before _ hbefore, chunkFields, if_neg hti,
        getProp_chunkFields_of_ne after _ hlater,
        chunkEffect_iTXt c key middle text _ htype hdata hkey hmiddle htext,
        getProp_setProp_self _ _ _ hproto]
    refine getProp_parsePNGChunks _ _ _ _ hcollect ?_ hproto ?_
    · exact nodup_keys_withDimensions _ _ _ (nodup_keys_chunkFields _ [] List.nodup_nil)
    · rw [getProp_withDimensions_of_ne _ _ _ _ hderived.1 hderived.2.1 hderived.2.2, hfield]
  · intro hc
    have hti : c.typeName ≠ str "IEND" := by
      rcases hc with ⟨h, _⟩ | h <;> rw [h] <;> decide
    have hno : ∀ metadata, chunkEffect c metadata = metadata := fun metadata =>
      chunkEffect_no_field c metadata hc
    refine ⟨hno, ?_⟩
    rw [hcollect, chunkFields_skip before after c hbefore hti hno]

set_option maxRecDepth 100000 in
/-- An `iTXt` chunk with the keyword `Title`, the flags `00 00`, the language `en`, the
translated keyword `Titel` and the text `Hello`, after IHDR; and the same file with a
`zTXt` chunk in its place. -/
theorem parsePNGChunks_iTXt_field_witness :
    (∃ fields,
      parsePNGChunks (pngFile ([⟨ascii "IHDR", be32 100 ++ be32 50 ++ [8, 6, 0, 0, 0], [0, 0, 0, 0]⟩]
          ++ ⟨ascii "iTXt", ascii "Title" ++ [0] ++ (ascii "\x00\x00en\x00Titel\x00"
                ++ ascii "Hello"), [0, 0, 0, 0]⟩
            :: [⟨ascii "IEND", [], [0, 0, 0, 0]⟩]) ++ []) = .ok fields
      ∧ getProp fields ((ascii "Title").map Fin.val) = some (.str (utf8Body (ascii "Hello"))))
    ∧ pngCollect (pngFile ([⟨ascii "IHDR", be32 100 ++ be32 50 ++ [8, 6, 0, 0, 0], [0, 0, 0, 0]⟩]
          ++ ⟨ascii "zTXt", ascii "Title" ++ [0, 0, 120, 156], [0, 0, 0, 0]⟩
            :: [⟨ascii "IEND", [], [0, 0, 0, 0]⟩]) ++ [])
        = .ok [(str "Image Width", str "100"), (str "Image Height", str "50"),
            (str "Image Size", str "100x50")] :=
  ⟨(parsePNGChunks_iTXt_field
      [⟨ascii "IHDR", be32 100 ++ be32 50 ++ [8, 6, 0, 0, 0], [0, 0, 0, 0]⟩]
      [⟨ascii "IEND", [], [0, 0, 0, 0]⟩]
      ⟨ascii "iTXt", ascii "Title" ++ [0] ++ (ascii "\x00\x00en\x00Titel\x00" ++ ascii "Hello"),
        [0, 0, 0, 0]⟩ []
      (by
        intro x hx
        simp only [List.singleton_append, List.mem_cons, List.mem_singleton, List.not_mem_nil,
          or_false] at hx
        rcases hx with rfl | rfl | rfl <;> exact ⟨rfl, rfl, by decide⟩)
      (by
        intro x hx
        simp only [List.mem_singleton] at hx
        subst hx
        decide)
      ⟨_, List.mem_singleton_self _, rfl⟩).1 (ascii "Title")
        (ascii "\x00\x00en\x00Titel\x00") (ascii "Hello") rfl rfl (by decide)
        (Or.inr ⟨ascii "\x00\x00en\x00Titel", rfl⟩) (by decide) (by decide)
        (by
          intro x hx
          simp only [List.mem_singleton] at hx
          subst hx
          decide)
        (by decide),
   ((parsePNGChunks_iTXt_field
      [⟨ascii "IHDR", be32 100 ++ be32 50 ++ [8, 6, 0, 0, 0], [0, 0, 0, 0]⟩]
      [⟨ascii "IEND", [], [0, 0, 0, 0]⟩]
      ⟨ascii "zTXt", ascii "Title" ++ [0, 0, 120, 156], [0, 0, 0, 0]⟩ []
      (by
        intro x hx
        simp only [List.singleton_append, List.mem_cons, List.mem_singleton, List.not_mem_nil,
          or_false] at hx
        rcases hx with rfl | rfl | rfl <;> exact ⟨rfl, rfl, by decide⟩)
      (by
        intro x hx
        simp only [List.mem_singleton] at hx
        subst hx
        decide)
      ⟨_, List.mem_singleton_self _, rfl⟩).2 (Or.inr rfl)).2⟩

set_option maxRecDepth 100000 in
/-- C21 as stated fails: the keyword `__proto__` gives no field, and a keyword written
again by a later chunk does not keep the text of the `iTXt` chunk. -/
theorem parsePNGChunks_iTXt_not_kept :
    (∃ fields,
      parsePNGChunks (pngFile [⟨ascii "iTXt", ascii "__proto__" ++ [0] ++ ascii "\x00\x00\x00\x00hello",
          [0, 0, 0, 0]⟩, ⟨ascii "IEND", [], [0, 0, 0, 0]⟩]) = .ok fields
      ∧ getProp fields (str "__proto__") = none)
    ∧ (∃ fields,
      parsePNGChunks (pngFile [⟨ascii "iTXt", ascii "Title" ++ [0] ++ ascii "\x00\x00\x00\x00Hello",
          [0, 0, 0, 0]⟩, ⟨ascii "tEXt", ascii "Title" ++ [0] ++ ascii "Bye", [0, 0, 0, 0]⟩,
          ⟨ascii "IEND", [], [0, 0, 0, 0]⟩]) = .ok fields
      ∧ getProp fields (str "Title") = some (.str (str "Bye"))) :=
  ⟨⟨_, rfl, rfl⟩, ⟨_, rfl, rfl⟩⟩

end UME
